import Mathlib

/-!
# Reactive core of Vue: dependency subjects, the target stack, state binding

A shallow embedding of `src/core/observer/dep.js` and `src/core/instance/state.js`.

* A `Watcher` and a `Dep` are identified by their uid.
* The module state of `dep.js` (`Dep.target`, `targetStack`) and the mutable
  fields of the objects (`dep.subs`, the dependency bookkeeping of a watcher)
  are fields of one `World` that every operation passes along explicitly.
* JavaScript arrays are lists; `push` appends at the end, `pop` takes the last
  element.
-/

namespace Vue

/-! ## Definitions: dep.js -/

/-- An error value travelling through `throw`. -/
inductive JsError where
  /-- A `TypeError` raised by the language itself. -/
  | typeError
  /-- An error thrown by user code, identified by a number. -/
  | thrown (id : Nat)
deriving DecidableEq, Repr

/-- Identity of a Watcher object. -/
abbrev Watcher := Nat

/-- Identity of a Dep object (its `id`, unique by `uid++`). -/
abbrev DepId := Nat

/-- Modelled from the spec: the dependency bookkeeping fields of a Watcher
(`watcher.js` is not among the sources): `deps`/`newDeps` hold the Deps of the
previous and of the running evaluation, `depIds`/`newDepIds` mirror their ids. -/
structure WatcherDeps where
  deps : List DepId
  newDeps : List DepId
  depIds : List DepId
  newDepIds : List DepId
deriving DecidableEq, Repr

/-- The mutable state the observer code works on. -/
structure World where
  /-- The static `Dep.target`; `none` stands for `null`/`undefined`. -/
  target : Option Watcher
  /-- The module-level `targetStack`, last element on top. -/
  targetStack : List Watcher
  /-- The array `subs` of every Dep. -/
  subs : DepId → List Watcher
  /-- The bookkeeping of every Watcher. -/
  watchers : Watcher → WatcherDeps

/-- The state right after `dep.js` and the objects have been created:
`Dep.target = null`, `targetStack = []`, every `subs` empty. -/
def World.initial : World :=
  { target := none, targetStack := [], subs := fun _ => [],
    watchers := fun _ => ⟨[], [], [], []⟩ }

/-- Modelled from the spec: the util `remove(arr, item)` (`util/index` is not
among the sources), "removes the first/only occurrence". -/
def remove (arr : List Watcher) (item : Watcher) : List Watcher :=
  arr.erase item

/-- Source `Dep.prototype.addSub`: `this.subs.push(sub)`. -/
def Dep.addSub (d : DepId) (sub : Watcher) (w : World) : World :=
  { w with subs := Function.update w.subs d (w.subs d ++ [sub]) }

/-- Source `Dep.prototype.removeSub`: `remove(this.subs, sub)`. -/
def Dep.removeSub (d : DepId) (sub : Watcher) (w : World) : World :=
  { w with subs := Function.update w.subs d (remove (w.subs d) sub) }

/-- Modelled from the spec: `Watcher.prototype.addDep` (`watcher.js` is not
among the sources): "if `dep.id` not already in `newDepIds`, records it there
and in `newDeps`; additionally, if not already in the previous cycle's
`depIds`, calls `dep.addSubscriber(self)`". -/
def Watcher.addDep (c : Watcher) (d : DepId) (w : World) : World :=
  let wd := w.watchers c
  if d ∈ wd.newDepIds then w
  else
    let wd1 : WatcherDeps :=
      { wd with newDepIds := wd.newDepIds ++ [d], newDeps := wd.newDeps ++ [d] }
    let w1 : World := { w with watchers := Function.update w.watchers c wd1 }
    if d ∈ wd.depIds then w1 else Dep.addSub d c w1

/-- Source `Dep.prototype.depend`:
`if (Dep.target) { Dep.target.addDep(this) }`. -/
def Dep.depend (d : DepId) (w : World) : World :=
  match w.target with
  | some t => Watcher.addDep t d w
  | none => w

/-- What one call of `notify()` leaves: the world, the subscribers whose
`update()` was called, in call order, and the error that ended the call, if an
`update()` threw. -/
structure NotifyRun where
  world : World
  calls : List Watcher
  thrown : Option JsError

/-- Source `Dep.prototype.notify`. The local `subs` is the copy made by
`this.subs.slice()`, `l` its length; the loop reads `subs[i]` for
`i = 0, .., l - 1` and calls `update()` on it. `update` is the body of the
subscriber's `update()` (`watcher.js` is not among the sources): it leaves a
world, having possibly called `addSub`/`removeSub` on this very Dep, and it
may throw. There is no `try` around the call, so an error ends the loop and
leaves `notify`. -/
def Dep.notify (update : Watcher → World → Option JsError × World) (d : DepId) (w : World) :
    NotifyRun :=
  let subs := w.subs d
  let l := subs.length
  (List.range l).foldl
    (fun (acc : NotifyRun) i =>
      match acc.thrown with
      | some _ => acc
      | none =>
        match subs[i]? with
        | some s =>
          let r := update s acc.world
          { world := r.2, calls := acc.calls ++ [s], thrown := r.1 }
        | none => acc)
    { world := w, calls := [], thrown := none }

/-- One pass over the snapshot `[s1..sn]` in the words of the claim: `update()`
on each subscriber in list order, ended by the first `update()` that throws. -/
def notifyPass (update : Watcher → World → Option JsError × World) :
    List Watcher → World → NotifyRun
  | [], w => { world := w, calls := [], thrown := none }
  | s :: rest, w =>
    match (update s w).1 with
    | some e => { world := (update s w).2, calls := [s], thrown := some e }
    | none =>
      let r := notifyPass update rest (update s w).2
      { world := r.world, calls := s :: r.calls, thrown := r.thrown }

/-- An `update()` for examples: subscriber 1 adds subscriber 9 to Dep 7 and
removes subscriber 3 from it; subscriber 2 throws error 5 when `fails`. -/
def updateSample (fails : Bool) (s : Watcher) (w : World) : Option JsError × World :=
  if s = 1 then (none, Dep.removeSub 7 3 (Dep.addSub 7 9 w))
  else if s = 2 && fails then (some (.thrown 5), w)
  else (none, w)

/-- The world in which Dep 7 has the subscribers `[1, 2, 3]`. -/
def World.sample : World :=
  Dep.addSub 7 3 (Dep.addSub 7 2 (Dep.addSub 7 1 World.initial))

/-- The body of the loop of `notify` on a subscriber. -/
def notifyStep (update : Watcher → World → Option JsError × World) (acc : NotifyRun)
    (s : Watcher) : NotifyRun :=
  match acc.thrown with
  | some _ => acc
  | none =>
    { world := (update s acc.world).2, calls := acc.calls ++ [s],
      thrown := (update s acc.world).1 }

/-- Source `pushTarget`:
`if (Dep.target) targetStack.push(Dep.target); Dep.target = _target`. -/
def pushTarget (_target : Option Watcher) (w : World) : World :=
  match w.target with
  | some t => { w with targetStack := w.targetStack ++ [t], target := _target }
  | none => { w with target := _target }

/-- Source `popTarget`: `Dep.target = targetStack.pop()`; popping the empty
array yields `undefined`. -/
def popTarget (w : World) : World :=
  { w with target := w.targetStack.getLast?, targetStack := w.targetStack.dropLast }

/-- Modelled from the spec: `Watcher.prototype.cleanupDeps` (`watcher.js` is
not among the sources): "for every Dependency in the previous `deps` set that
is absent from `newDeps`, calls `removeSubscriber(self)` on it; then swaps
`deps ↔ newDeps`, `depIds ↔ newDepIds` and clears the now-stale ones". -/
def Watcher.cleanupDeps (c : Watcher) (w : World) : World :=
  let wd := w.watchers c
  let w1 := wd.deps.foldl
    (fun (acc : World) d => if d ∈ wd.newDeps then acc else Dep.removeSub d c acc) w
  { w1 with watchers := Function.update w1.watchers c ⟨wd.newDeps, [], wd.newDepIds, []⟩ }

/-- Modelled from the spec: `Watcher.prototype.get` (`watcher.js` is not among
the sources): "pushes self onto EvaluationStack, clears `newDeps`/`newDepIds`,
invokes the wrapped target ..., pops EvaluationStack ..., then calls
`cleanupDependencies()`". The wrapped target is represented by `reads`, the
Deps whose `depend()` it executes, in order. -/
def Watcher.get (c : Watcher) (reads : List DepId) (w : World) : World :=
  let w1 := pushTarget (some c) w
  let wd := w1.watchers c
  let wd1 : WatcherDeps := { wd with newDeps := [], newDepIds := [] }
  let w2 : World := { w1 with watchers := Function.update w1.watchers c wd1 }
  let w3 := reads.foldl (fun (acc : World) d => Dep.depend d acc) w2
  Watcher.cleanupDeps c (popTarget w3)

/-- The state between two evaluations of watcher `c`, as the bookkeeping of
the spec leaves it: `deps` has no duplicate, `depIds` holds the ids of `deps`,
and `c` occurs in the `subs` of a Dep once if the Dep is in `deps`, else not
at all. -/
def Settled (c : Watcher) (w : World) : Prop :=
  (w.watchers c).deps.Nodup ∧
  (∀ d, d ∈ (w.watchers c).depIds ↔ d ∈ (w.watchers c).deps) ∧
  ∀ d, (w.subs d).count c = if d ∈ (w.watchers c).deps then 1 else 0

/-- The invariant of the reads of one evaluation of `c`, where `deps0` is the
`deps` of `c` when the evaluation started. -/
def Reading (c : Watcher) (deps0 : List DepId) (w : World) : Prop :=
  w.target = some c ∧ (w.watchers c).deps = deps0 ∧
  (∀ d, d ∈ (w.watchers c).depIds ↔ d ∈ deps0) ∧
  (w.watchers c).newDepIds = (w.watchers c).newDeps ∧
  (w.watchers c).newDeps.Nodup ∧
  ∀ d, (w.subs d).count c = if d ∈ deps0 ∨ d ∈ (w.watchers c).newDeps then 1 else 0

/-! ## Definitions: values -/

/-- The primitive values. -/
inductive Prim where
  | undefined
  | null
  | bool (b : Bool)
  | number (n : Int)
  | string (s : String)
deriving DecidableEq, Repr

/-- The values stored in the fields of an aggregate. Functions and nested
objects are identified by a number; `bound f` is the function `bind(f, vm)`,
`noop` the shared no-op function of the utilities. -/
inductive Scalar where
  | prim (p : Prim)
  | function (id : Nat)
  | bound (id : Nat)
  | noop
  | object (ref : Nat)
deriving DecidableEq, Repr

/-- The values a `data` option or a data factory can yield: a primitive, an
array, or a plain key/value object with its own keys in insertion order.
(Other non-plain objects take the same paths as arrays and are not
represented.) -/
inductive JsVal where
  | prim (p : Prim)
  | array (items : List Scalar)
  | plain (fields : List (String × Scalar))
deriving DecidableEq, Repr

/-- JavaScript truthiness of a primitive (`NaN` is not represented). -/
def Prim.truthy : Prim → Bool
  | .undefined => false
  | .null => false
  | .bool b => b
  | .number n => n != 0
  | .string s => s != ""

/-- JavaScript truthiness; every object is truthy. -/
def JsVal.truthy : JsVal → Bool
  | .prim p => p.truthy
  | _ => true

/-- Modelled from the spec: the util `isPlainObject` (`util/index` is not among
the sources), true of "a plain key/value aggregate" only. -/
def isPlainObject : JsVal → Bool
  | .plain _ => true
  | _ => false

/-- Modelled from the spec: the util `isReserved` (`util/index` is not among
the sources): the key starts with "a reserved leading marker", `$` or `_`. -/
def isReserved (key : String) : Bool :=
  match key.data with
  | c :: _ => c == '$' || c == '_'
  | [] => false

/-- The result of `Object.keys(v)` for an object `v`. -/
def JsVal.keys : JsVal → List String
  | .plain fields => fields.map Prod.fst
  | .array items => (List.range items.length).map toString
  | .prim _ => []

/-- The expression `key in v`: a `TypeError` when `v` is a primitive; for an
object whether `key` is one of its properties (prototype members such as
`toString` are not represented). -/
def jsIn (key : String) : JsVal → Except JsError Bool
  | .plain fields => .ok (decide (key ∈ fields.map Prod.fst))
  | .array items =>
    .ok (decide (key = "length" ∨ key ∈ (List.range items.length).map toString))
  | .prim _ => .error .typeError

/-- Sets `key` in a key/value list: an existing key keeps its position, a new
key goes last. -/
def setKey {β : Type} (l : List (String × β)) (key : String) (v : β) :
    List (String × β) :=
  if key ∈ l.map Prod.fst then l.map (fun p => if p.1 = key then (p.1, v) else p)
  else l ++ [(key, v)]

/-! ## Definitions: getData -/

/-- What the body of a user function does to the dependency-tracking state:
it activates a watcher (`pushTarget`, as `Watcher.prototype.get` does when a
computed property is read), deactivates it (`popTarget`), or reads a reactive
property, which executes `depend()` of the Dep behind it. -/
inductive TrackOp where
  | pushTarget (c : Option Watcher)
  | popTarget
  | depend (d : DepId)
deriving DecidableEq, Repr

/-- Executes one tracking operation. -/
def TrackOp.run : TrackOp → World → World
  | .pushTarget c, w => Vue.pushTarget c w
  | .popTarget, w => Vue.popTarget w
  | .depend d, w => Dep.depend d w

/-- Executes tracking operations in order. -/
def runOps (ops : List TrackOp) (w : World) : World :=
  ops.foldl (fun acc op => op.run acc) w

/-- Nesting depth after `ops` when started at depth `depth`; `none` when a
`popTarget` has no `pushTarget` before it. -/
def pairedFrom : List TrackOp → Nat → Option Nat
  | [], depth => some depth
  | .pushTarget _ :: ops, depth => pairedFrom ops (depth + 1)
  | .popTarget :: ops, depth =>
    match depth with
    | 0 => none
    | k + 1 => pairedFrom ops k
  | .depend _ :: ops, depth => pairedFrom ops depth

/-- Every `pushTarget` of `ops` is closed by its own `popTarget`. -/
def paired (ops : List TrackOp) : Bool :=
  pairedFrom ops 0 == some 0

/-- A data factory (`data: function () { ... }`): the tracking operations its
body executes, and how the call ends. -/
structure Factory where
  body : List TrackOp
  result : Except JsError JsVal

/-- What a call of `getData` yields. -/
structure GetData where
  /-- The value returned to the caller. -/
  value : JsVal
  /-- The calls of `handleError(e, vm, info)` made, as `(e, vm._uid, info)`. -/
  handled : List (JsError × Nat × String)
  /-- The world when `getData` returns. -/
  world : World

/-- Source `getData(data, vm)`:
`pushTarget(); try { return data.call(vm, vm) } catch (e) { handleError(e, vm,
"data()"); return {} } finally { popTarget() }`. `vm` is the uid of the
instance. -/
def getData (data : Factory) (vm : Nat) (w : World) : GetData :=
  let w1 := pushTarget none w
  let w2 := runOps data.body w1
  match data.result with
  | .ok v => { value := v, handled := [], world := popTarget w2 }
  | .error e =>
    { value := JsVal.plain [], handled := [(e, vm, "data()")], world := popTarget w2 }

/-! ## Definitions: state.js

The instance `vm` is a record: `members` are the properties reachable as
`vm[key]` (own or inherited), except the fields `_watchers`, `_props`, `_data`
and `_computedWatchers`, which `initState` assigns: their contents are fields
of the record and `internal` lists the ones assigned so far, so that `key in
vm` sees them. A method named like one of these four fields is taken not to
occur. The `watch` option is undefined in every `Options` of this model, so
`initState` never enters `initWatch`. -/

/-- The object a forwarding accessor reads from: `_props` or `_data`, the two
values `proxy` is called with as `sourceKey`. -/
inductive Source where
  | props
  | data
deriving DecidableEq, Repr

/-- The `get` of a property definition. -/
inductive Getter where
  /-- The `function proxyGetter () { return this[sourceKey][key] }` of `proxy`. -/
  | proxyGetter (sourceKey : Source) (key : String)
  /-- The `computedGetter` made by `createComputedGetter(key)`. -/
  | computedGetter (key : String)
  /-- A function of the user: `userDef` or `userDef.get`. -/
  | user (f : Nat)
  | noop
deriving DecidableEq, Repr

/-- The `set` of a property definition. -/
inductive Setter where
  /-- The `function proxySetter (val) { this[sourceKey][key] = val }` of `proxy`. -/
  | proxySetter (sourceKey : Source) (key : String)
  /-- The `userDef.set` of the user. -/
  | user (f : Nat)
  | noop
  /-- The function reporting "was assigned to but it has no setter". -/
  | warnNoSetter (key : String)
deriving DecidableEq, Repr

/-- A property of the instance. -/
inductive Member where
  /-- Defined with `Object.defineProperty(target, key, sharedPropertyDefinition)`. -/
  | accessor (get : Getter) (set : Setter)
  /-- An ordinary writable property holding a value. -/
  | value (v : Scalar)
deriving DecidableEq, Repr

/-- The options object handed to `new Watcher(vm, expOrFn, cb, options)`;
an absent key is `false`. -/
structure WatcherOptions where
  computed : Bool
  user : Bool
  immediate : Bool
  deep : Bool
deriving DecidableEq, Repr

/-- The second and third argument of `new Watcher`: a user function or `noop`. -/
inductive Fn where
  | noop
  | user (f : Nat)
deriving DecidableEq, Repr

/-- A Watcher as constructed: the arguments `new Watcher` was called with. -/
structure WatcherRec where
  expOrFn : Fn
  cb : Fn
  options : WatcherOptions
deriving DecidableEq, Repr

/-- Source `const computedWatcherOptions = { computed: true }`. -/
def computedWatcherOptions : WatcherOptions :=
  { computed := true, user := false, immediate := false, deep := false }

/-- A `warn(...)` call, named after its message. -/
inductive Report where
  /-- Message "... is a reserved attribute and cannot be used as component prop." -/
  | reservedAttribute (key : String)
  /-- Message "Avoid mutating a prop directly ..." -/
  | propMutated (key : String)
  /-- Message "data functions should return an object". -/
  | dataNotObject
  /-- Message "Method ... has already been defined as a data property." -/
  | methodIsData (key : String)
  /-- Message "The data property ... is already declared as a prop." -/
  | dataIsProp (key : String)
  /-- Message "Getter is missing for computed property ..." -/
  | getterMissing (key : String)
  /-- Message "The computed property ... is already defined in data." -/
  | computedIsData (key : String)
  /-- Message "The computed property ... is already defined as a prop." -/
  | computedIsProp (key : String)
  /-- Message "Computed property ... was assigned to but it has no setter." -/
  | noSetter (key : String)
  /-- Message "Method ... has an undefined value in the component definition." -/
  | methodUndefined (key : String)
  /-- Message "Method ... has already been defined as a prop." -/
  | methodIsProp (key : String)
  /-- Message "Method ... conflicts with an existing Vue instance method." -/
  | methodReserved (key : String)
deriving DecidableEq, Repr

/-- Whether the report says that `key` is declared twice. -/
def Report.isCollision (key : String) (r : Report) : Bool :=
  r == .methodIsData key || r == .dataIsProp key || r == .computedIsData key ||
    r == .computedIsProp key || r == .methodIsProp key

/-- What the code takes from its surroundings. -/
structure Env where
  /-- The test `process.env.NODE_ENV === 'production'`. -/
  production : Bool
  /-- The value of `isServerRendering()`. -/
  isServerRendering : Bool
  /-- The flag `isUpdatingChildComponent` of `lifecycle`. -/
  isUpdatingChildComponent : Bool
  /-- The value `validateProp(key, propsOptions, propsData, vm)`. -/
  validateProp : String → Scalar
  /-- The test `isReservedAttribute(hyphenate(key)) ||
  config.isReservedAttr(hyphenate(key))`. -/
  isReservedAttr : String → Bool

/-- A value of the `computed` map: a function, or an object with `get`, `set`
and `cache`; `cache` is the value of `userDef.cache !== false`. -/
inductive UserDef where
  | fn (f : Nat)
  | obj (get : Option Nat) (set : Option Nat) (cache : Bool)
deriving DecidableEq, Repr

/-- The `data` option when it is present: a factory function or a value. -/
inductive DataOption where
  | factory (f : Factory)
  | value (v : JsVal)

/-- The `vm.$options` read by `initState`; `none` is `undefined`. A method of
value `none` is `null`/`undefined`. -/
structure Options where
  props : Option (List String)
  methods : Option (List (String × Option Nat))
  data : Option DataOption
  computed : Option (List (String × UserDef))

/-- The instance `vm` and the state around it. -/
structure State where
  /-- The uid of the instance. -/
  uid : Nat
  /-- Whether `vm.$parent` is set. -/
  hasParent : Bool
  /-- The properties reachable as `vm[key]`, the four fields of `internal`
  apart. -/
  members : String → Option Member
  /-- The names among `_watchers`, `_props`, `_data`, `_computedWatchers` that
  have been assigned as fields of `vm`. -/
  internal : List String
  /-- The field `vm._props`; `none` is `undefined`. -/
  _props : Option (List (String × Scalar))
  /-- The field `vm._data`, which `vm.$data` returns. -/
  _data : JsVal
  /-- The field `vm._computedWatchers`; `none` is `undefined`. -/
  _computedWatchers : Option (List (String × WatcherRec))
  /-- The array `vm.$options._propKeys`. -/
  propKeys : List String
  /-- The `warn` calls so far. -/
  reports : List Report
  /-- The `handleError(e, vm, info)` calls so far, as `(e, vm._uid, info)`. -/
  handled : List (JsError × Nat × String)
  /-- The observer state. -/
  world : World
  /-- The exception that ended the run, if one did. -/
  thrown : Option JsError

/-- An instance before `initState`, without members. -/
def State.fresh (uid : Nat) (hasParent : Bool) (w : World) : State :=
  { uid := uid, hasParent := hasParent, members := fun _ => none, internal := [],
    _props := none,
    _data := .prim .undefined, _computedWatchers := none, propKeys := [],
    reports := [], handled := [], world := w, thrown := none }

/-- The call `warn(msg, vm)`. -/
def State.warn (st : State) (r : Report) : State :=
  { st with reports := st.reports ++ [r] }

/-- The call `warn(msg, vm)` guarded by `process.env.NODE_ENV !== 'production'`. -/
def State.devWarn (env : Env) (st : State) (r : Report) : State :=
  if env.production then st else st.warn r

/-- The expression `key in vm`: a member, or a field assigned so far. -/
def State.hasKey (st : State) (key : String) : Bool :=
  (st.members key).isSome || decide (key ∈ st.internal)

/-- The call `Object.defineProperty(vm, key, sharedPropertyDefinition)`. -/
def State.define (st : State) (key : String) (get : Getter) (set : Setter) : State :=
  { st with members := Function.update st.members key (some (.accessor get set)) }

/-- Source `proxy(target, sourceKey, key)` with `target = vm`. -/
def proxy (st : State) (sourceKey : Source) (key : String) : State :=
  st.define key (.proxyGetter sourceKey key) (.proxySetter sourceKey key)

/-- The read `vm[key]` of a member that is a value or a forwarding accessor;
`none` when the property is absent, is an accessor of another kind, or the
read throws. -/
def State.read (st : State) (key : String) : Option Scalar :=
  match st.members key with
  | some (.value v) => some v
  | some (.accessor (.proxyGetter .props k) _) =>
    match st._props with
    | some ps => ps.lookup k
    | none => none
  | some (.accessor (.proxyGetter .data k) _) =>
    match st._data with
    | .plain fields => fields.lookup k
    | _ => none
  | _ => none

/-- The assignment `this._props[key] = val` made by a `proxySetter`. On a
property defined by `initProps` it runs the reactive setter: nothing happens
when the value is the same; otherwise, outside production, the callback given
to `defineReactive` reports when `vm.$parent && !isUpdatingChildComponent`,
and the value is stored. A `TypeError` when `_props` is `undefined`. -/
def State.setProp (env : Env) (st : State) (key : String) (val : Scalar) : State :=
  match st._props with
  | none => { st with thrown := some .typeError }
  | some ps =>
    if ps.lookup key = some val then st
    else
      let st1 := if key ∈ ps.map Prod.fst && !env.production && st.hasParent &&
          !env.isUpdatingChildComponent then st.warn (.propMutated key) else st
      { st1 with _props := some (setKey ps key val) }

/-- The assignment `this._data[key] = val` made by a `proxySetter`: a
`TypeError` on a primitive (module code is strict); named properties of
arrays are not represented. -/
def State.setDatum (st : State) (key : String) (val : Scalar) : State :=
  match st._data with
  | .plain fields => { st with _data := .plain (setKey fields key val) }
  | .array _ => st
  | .prim _ => { st with thrown := some .typeError }

/-- The assignment `vm[key] = val`: through the setter when the property is
an accessor, else the value is stored. The effect of a setter of the user is
not represented. -/
def State.assign (env : Env) (st : State) (key : String) (val : Scalar) : State :=
  match st.members key with
  | some (.accessor _ (.proxySetter .props k)) => st.setProp env k val
  | some (.accessor _ (.proxySetter .data k)) => st.setDatum k val
  | some (.accessor _ (.warnNoSetter k)) => st.warn (.noSetter k)
  | some (.accessor _ (.user _)) => st
  | some (.accessor _ .noop) => st
  | _ => { st with members := Function.update st.members key (some (.value val)) }

/-- One pass of the loop of `initProps`, for `key`. -/
def initPropsStep (env : Env) (st : State) (key : String) : State :=
  let st1 : State := { st with propKeys := st.propKeys ++ [key] }
  let value := env.validateProp key
  let st2 := if !env.production && env.isReservedAttr key
    then st1.warn (.reservedAttribute key) else st1
  let st3 : State :=
    { st2 with _props := some (setKey (st2._props.getD []) key value) }
  if !st3.hasKey key then proxy st3 .props key else st3

/-- Source `initProps(vm, propsOptions)`: `vm._props = {}`,
`vm.$options._propKeys = []`, then for each key `defineReactive(props, key,
value, ...)` and, `if (!(key in vm))`, `proxy(vm, "_props", key)`. -/
def initProps (env : Env) (propsOptions : List String) (st : State) : State :=
  propsOptions.foldl (initPropsStep env)
    { st with _props := some [], propKeys := [], internal := "_props" :: st.internal }

/-- The test `props && hasOwn(props, key)` with `props = vm.$options.props`. -/
def Options.hasProp (opts : Options) (key : String) : Bool :=
  match opts.props with
  | some ps => decide (key ∈ ps)
  | none => false

/-- The test `methods && hasOwn(methods, key)`. -/
def Options.hasMethod (opts : Options) (key : String) : Bool :=
  match opts.methods with
  | some ms => decide (key ∈ ms.map Prod.fst)
  | none => false

/-- One pass of the loop of `initMethods`, for `key` with `methods[key] = m`;
nothing runs once an exception has ended the run. -/
def initMethodsStep (env : Env) (opts : Options) (st : State)
    (km : String × Option Nat) : State :=
  if st.thrown.isSome then st
  else
    let key := km.1
    let st1 := if km.2.isNone then st.devWarn env (.methodUndefined key) else st
    let st2 := if opts.hasProp key then st1.devWarn env (.methodIsProp key) else st1
    let st3 := if st2.hasKey key && isReserved key
      then st2.devWarn env (.methodReserved key) else st2
    st3.assign env key
      (match km.2 with
       | none => Scalar.noop
       | some f => Scalar.bound f)

/-- Source `initMethods(vm, methods)`. -/
def initMethods (env : Env) (opts : Options) (methods : List (String × Option Nat))
    (st : State) : State :=
  methods.foldl (initMethodsStep env opts) st

/-- One pass of the `while (i--)` loop of `initData`, for `key`. -/
def initDataStep (env : Env) (opts : Options) (st : State) (key : String) : State :=
  let st1 := if opts.hasMethod key then st.devWarn env (.methodIsData key) else st
  if opts.hasProp key then st1.devWarn env (.dataIsProp key)
  else if !isReserved key then proxy st1 .data key
  else st1

/-- Source `initData(vm)`, with `data = vm.$options.data`. The loop runs over
`Object.keys(data)` from the last key to the first; `observe` belongs to the
observer and leaves this state alone. -/
def initData (env : Env) (opts : Options) (data : DataOption) (st : State) : State :=
  let (val, st1) : JsVal × State :=
    match data with
    | .factory f =>
      let r := getData f st.uid st.world
      (r.value, { st with world := r.world, handled := st.handled ++ r.handled })
    | .value v => (if v.truthy then v else JsVal.plain [], st)
  let st2 : State := { st1 with _data := val, internal := "_data" :: st1.internal }
  let (local_, st3) : JsVal × State :=
    if !isPlainObject val then (JsVal.plain [], st2.devWarn env .dataNotObject)
    else (val, st2)
  local_.keys.reverse.foldl (initDataStep env opts) st3

/-- Source `defineComputed(target, key, userDef)` with `target = vm`. -/
def defineComputed (env : Env) (st : State) (key : String) (userDef : UserDef) : State :=
  let shouldCache := !env.isServerRendering
  let (get, set) : Getter × Setter :=
    match userDef with
    | .fn f => (if shouldCache then Getter.computedGetter key else Getter.user f, Setter.noop)
    | .obj g s cache =>
      ((match g with
        | some gf =>
          if shouldCache && cache then Getter.computedGetter key else Getter.user gf
        | none => Getter.noop),
       (match s with
        | some sf => Setter.user sf
        | none => Setter.noop))
  let set1 := if !env.production && set = Setter.noop then Setter.warnNoSetter key else set
  st.define key get set1

/-- The `getter` of `initComputed`:
`typeof userDef === 'function' ? userDef : userDef.get`. -/
def UserDef.getter : UserDef → Option Nat
  | .fn f => some f
  | .obj g _ _ => g

/-- One pass of the loop of `initComputed`, for `key` with
`computed[key] = userDef`; nothing runs once an exception has ended the run. -/
def initComputedStep (env : Env) (opts : Options) (st : State)
    (ku : String × UserDef) : State :=
  if st.thrown.isSome then st
  else
    let key := ku.1
    let getter := ku.2.getter
    let st1 := if getter.isNone then st.devWarn env (.getterMissing key) else st
    let st2 : State :=
      if !env.isServerRendering then
        { st1 with _computedWatchers := some (setKey (st1._computedWatchers.getD []) key
            ⟨(match getter with
              | some f => Fn.user f
              | none => Fn.noop), Fn.noop, computedWatcherOptions⟩) }
      else st1
    if !st2.hasKey key then defineComputed env st2 key ku.2
    else if !env.production then
      match jsIn key st2._data with
      | .error e => { st2 with thrown := some e }
      | .ok true => st2.warn (.computedIsData key)
      | .ok false => if opts.hasProp key then st2.warn (.computedIsProp key) else st2
    else st2

/-- Source `initComputed(vm, computed)`. -/
def initComputed (env : Env) (opts : Options) (computed : List (String × UserDef))
    (st : State) : State :=
  computed.foldl (initComputedStep env opts)
    { st with _computedWatchers := some [], internal := "_computedWatchers" :: st.internal }

/-- Whether `opts.data` is truthy. -/
def Options.dataTruthy (opts : Options) : Option DataOption :=
  match opts.data with
  | some (.factory f) => some (.factory f)
  | some (.value v) => if v.truthy then some (.value v) else none
  | none => none

/-- A build with reports, in the browser, outside an update of child props;
every prop validates to `undefined`, no attribute name is reserved. -/
def Env.dev : Env :=
  { production := false, isServerRendering := false, isUpdatingChildComponent := false,
    validateProp := fun _ => .prim .undefined, isReservedAttr := fun _ => false }

/-- The production build of `Env.dev`. -/
def Env.prod : Env :=
  { Env.dev with production := true }

/-- Source `initState(vm)`: `vm._watchers = []`, then props, methods, data,
computed, in this order; a step is not reached once an exception has ended the
run. Of the array `vm._watchers` only the name is recorded. -/
def initState (env : Env) (opts : Options) (st : State) : State :=
  let st0 : State := { st with internal := "_watchers" :: st.internal }
  let st1 := match opts.props with
    | some ps => initProps env ps st0
    | none => st0
  let st2 := match opts.methods with
    | some ms => initMethods env opts ms st1
    | none => st1
  let st3 := if st2.thrown.isSome then st2 else
    match opts.dataTruthy with
    | some d => initData env opts d st2
    | none => { st2 with _data := .plain [], internal := "_data" :: st2.internal }
  if st3.thrown.isSome then st3 else
    match opts.computed with
    | some cs => initComputed env opts cs st3
    | none => st3

/-- The forwarding accessor installed by `proxy(vm, sourceKey, key)`. -/
def proxyMember (sourceKey : Source) (key : String) : Member :=
  .accessor (.proxyGetter sourceKey key) (.proxySetter sourceKey key)

/-- The state `initMethods` can work on without an exception: every forwarding
setter among the members writes to `_props`, and `_props` exists. -/
def MethodsOk (st : State) : Prop :=
  st.thrown = none ∧
  ∀ k g src k', st.members k = some (.accessor g (.proxySetter src k')) →
    src = .props ∧ st._props ≠ none

/-- The value `initData` stores in `vm._data`: what the factory returns (the
empty aggregate when it throws), or `data || {}`. -/
def DataOption.resolved : DataOption → JsVal
  | .factory f =>
    match f.result with
    | .ok v => v
    | .error _ => .plain []
  | .value v => if v.truthy then v else .plain []

/-- The keys the loop of `initData` runs over: those of the resolved value
when it is a plain object, none otherwise. -/
def DataOption.keys (d : DataOption) : List String :=
  if isPlainObject d.resolved then d.resolved.keys else []

/-- Whether the value is an object, so that `key in v` does not throw. -/
def JsVal.isObject : JsVal → Bool
  | .prim _ => false
  | _ => true

/-- The keys of the data object `initState` works with. -/
def Options.dataKeys (opts : Options) : List String :=
  match opts.dataTruthy with
  | some d => d.keys
  | none => []

/-- The `data` option is falsy, or it resolves to an object (plain or not),
not to a primitive. -/
def Options.dataObject (opts : Options) : Bool :=
  match opts.dataTruthy with
  | some d => d.resolved.isObject
  | none => true

/-- The keys of the `computed` option. -/
def Options.computedKeys (opts : Options) : List String :=
  match opts.computed with
  | some cs => cs.map Prod.fst
  | none => []

/-- A state `initState` can start from: no exception is pending, and a member
that forwards writes forwards them to `_props`, with `props` declared. -/
def Startable (opts : Options) (st : State) : Prop :=
  st.thrown = none ∧
  ∀ k g src k', st.members k = some (.accessor g (.proxySetter src k')) →
    src = .props ∧ opts.props ≠ none

/-- The two methods of a Watcher that the computed accessor calls. Their bodies
are in `watcher.js`, which is not among the sources, so they are parameters:
arbitrary transformers of the observer state; `evaluate` returns a value or
throws. -/
structure WatcherApi where
  depend : WatcherRec → World → World
  evaluate : WatcherRec → World → Except JsError Scalar × World

/-- A call of a Watcher method. -/
inductive WatcherCall where
  | depend (watcher : WatcherRec)
  | evaluate (watcher : WatcherRec)
deriving DecidableEq, Repr

/-- One run of a getter: what it returns or throws, the observer state it
leaves, and the Watcher methods it called, in call order. -/
structure GetterRun where
  result : Except JsError Scalar
  world : World
  calls : List WatcherCall

/-- Source `createComputedGetter(key)`: the returned `computedGetter`, run with
`this = vm`:
`const watcher = this._computedWatchers && this._computedWatchers[key];
if (watcher) { watcher.depend(); return watcher.evaluate() }`. -/
def computedGetter (api : WatcherApi) (key : String) (st : State) : GetterRun :=
  match st._computedWatchers.bind (fun ws => ws.lookup key) with
  | some watcher =>
    let w1 := api.depend watcher st.world
    let r := api.evaluate watcher w1
    { result := r.1, world := r.2, calls := [.depend watcher, .evaluate watcher] }
  | none => { result := .ok (.prim .undefined), world := st.world, calls := [] }

/-- An instance that already has the member `foo`, holding function 9. -/
def State.withFoo : State :=
  { State.fresh 0 false World.initial with
    members := fun k => if k = "foo" then some (.value (.function 9)) else none }

/-- A Watcher interface for examples: `depend()` does nothing, `evaluate()`
returns 2. -/
def WatcherApi.const2 : WatcherApi :=
  { depend := fun _ w => w, evaluate := fun _ w => (.ok (.prim (.number 2)), w) }

/-- An instance whose `_computedWatchers` holds one Watcher, for `double`. -/
def State.withDouble : State :=
  { State.fresh 0 false World.initial with
    _computedWatchers := some [("double", ⟨.user 1, .noop, computedWatcherOptions⟩)] }

/-- The first argument `getter || noop` of the `new Watcher` of `initComputed`. -/
def UserDef.target (u : UserDef) : Fn :=
  match u.getter with
  | some f => Fn.user f
  | none => Fn.noop

/-- One run of `depend()`: the state it leaves and the calls
`watcher.addDep(dep)` it made, as `(watcher, dep)`, in call order. -/
structure DependRun where
  world : World
  calls : List (Watcher × DepId)

/-- Source `Dep.prototype.depend` with the method `addDep` of the target as
a parameter: `if (Dep.target) { Dep.target.addDep(this) }`. -/
def Dep.dependRun (addDep : Watcher → DepId → World → World) (d : DepId) (w : World) :
    DependRun :=
  match w.target with
  | some t => { world := addDep t d w, calls := [(t, d)] }
  | none => { world := w, calls := [] }

/-! ## Definitions: $watch -/

/-- A value that stands where a watch handler is expected. Every handler has
finite nesting. -/
inductive Handler where
  /-- A function. -/
  | fn (f : Nat)
  /-- A string. -/
  | name (s : String)
  /-- A plain object: `handler` is its property `handler`, `options` are its
  properties read as Watcher options. -/
  | obj (handler : Handler) (options : WatcherOptions)
  /-- Any other value (`undefined`, a number, an array, ...), identified by a
  number. -/
  | other (id : Nat)
deriving DecidableEq, Repr

/-- The test `isPlainObject(h)` on a handler. -/
def Handler.isPlain : Handler → Bool
  | .obj _ _ => true
  | _ => false

/-- The first argument of `$watch`: `expOrFn: string | Function`. -/
inductive ExpOrFn where
  | path (s : String)
  | fn (f : Nat)
deriving DecidableEq, Repr

/-- The arguments of the `new Watcher(vm, expOrFn, cb, options)` of `$watch`. -/
structure WatchArgs where
  expOrFn : ExpOrFn
  cb : Handler
  options : WatcherOptions
deriving DecidableEq, Repr

/-- What `$watch` takes from its surroundings. The Watcher constructor is in
`watcher.js`, which is not among the sources, so it is a parameter:
`newWatcher` gives `watcher.value` after construction and the observer state
the construction leaves. -/
structure WatchApi where
  /-- The value of `vm[name]`. -/
  vmGet : String → Handler
  newWatcher : WatchArgs → World → Scalar × World
  /-- The call `cb.call(vm, value)` of function `f`: the error it throws, if
  any, and the observer state it leaves. -/
  call : Nat → Scalar → World → Option JsError × World

/-- The effects of the watch registrations so far. -/
structure WatchState where
  /-- The Watchers constructed, in construction order. -/
  created : List WatchArgs
  /-- The callback invocations `cb.call(vm, value)`, as `(f, vm._uid, value)`. -/
  invoked : List (Nat × Nat × Scalar)
  /-- The `handleError` calls. -/
  handled : List (JsError × Nat × String)
  world : World

/-- How a call of `$watch` or `createWatcher` ends. -/
inductive WatchOutcome where
  /-- It returns `unwatchFn`, which tears down `watcher`. -/
  | unwatch (watcher : WatchArgs)
  /-- It throws. -/
  | threw (e : JsError)
  /-- The returns into `createWatcher` outnumber the fuel: the nesting of plain
  objects, followed through `vm[name]`, is deeper, or it never ends. -/
  | unfinished
deriving DecidableEq, Repr

/-- No options given: every flag is absent. -/
def WatcherOptions.empty : WatcherOptions :=
  { computed := false, user := false, immediate := false, deep := false }

/-- The two statements `options = options || {}; options.user = true` of
`$watch`. -/
def userOptions (options : Option WatcherOptions) : WatcherOptions :=
  { options.getD WatcherOptions.empty with user := true }

/-- The part of `$watch` after the `isPlainObject(cb)` test:
`options = options || {}; options.user = true;
const watcher = new Watcher(vm, expOrFn, cb, options);
if (options.immediate) { cb.call(vm, watcher.value) }
return function unwatchFn () { watcher.teardown() }`.
Calling a value that is not a function is a `TypeError`. -/
def watchPlain (api : WatchApi) (vm : Nat) (expOrFn : ExpOrFn) (cb : Handler)
    (options : Option WatcherOptions) (st : WatchState) : WatchOutcome × WatchState :=
  let opts : WatcherOptions := userOptions options
  let watcher : WatchArgs := { expOrFn := expOrFn, cb := cb, options := opts }
  let r := api.newWatcher watcher st.world
  let st1 : WatchState := { st with created := st.created ++ [watcher], world := r.2 }
  if opts.immediate then
    match cb with
    | .fn f =>
      let c := api.call f r.1 st1.world
      let st2 : WatchState :=
        { st1 with invoked := st1.invoked ++ [(f, vm, r.1)], world := c.2 }
      match c.1 with
      | some e => (.threw e, st2)
      | none => (.unwatch watcher, st2)
    | _ => (.threw .typeError, st1)
  else (.unwatch watcher, st1)

/-- Source `createWatcher(vm, expOrFn, handler, options)`, with the `$watch`
it calls as the parameter `watchRec`:
`if (isPlainObject(handler)) { options = handler; handler = handler.handler }
if (typeof handler === 'string') { handler = vm[handler] }
return vm.$watch(expOrFn, handler, options)`. -/
def createWatcherWith (api : WatchApi)
    (watchRec : ExpOrFn → Handler → Option WatcherOptions → WatchState →
      WatchOutcome × WatchState)
    (expOrFn : ExpOrFn) (handler : Handler) (options : Option WatcherOptions)
    (st : WatchState) : WatchOutcome × WatchState :=
  let ho : Handler × Option WatcherOptions :=
    match handler with
    | .obj h o => (h, some o)
    | _ => (handler, options)
  let handler2 : Handler :=
    match ho.1 with
    | .name s => api.vmGet s
    | h => h
  watchRec expOrFn handler2 ho.2 st

/-- Source `Vue.prototype.$watch(expOrFn, cb, options)` with `this = vm`:
`if (isPlainObject(cb)) { return createWatcher(vm, expOrFn, cb, options) }`,
else the construction of `watchPlain`. The fuel bounds the number of nested
returns into `createWatcher`. -/
def watch (api : WatchApi) (vm : Nat) :
    Nat → ExpOrFn → Handler → Option WatcherOptions → WatchState → WatchOutcome × WatchState
  | fuel, expOrFn, cb, options, st =>
    if cb.isPlain then
      match fuel with
      | 0 => (.unfinished, st)
      | n + 1 =>
        createWatcherWith api (fun e h o s => watch api vm n e h o s) expOrFn cb options st
    else watchPlain api vm expOrFn cb options st

/-- Source `createWatcher(vm, expOrFn, handler, options)`. -/
def createWatcher (api : WatchApi) (vm : Nat) (fuel : Nat) (expOrFn : ExpOrFn)
    (handler : Handler) (options : Option WatcherOptions) (st : WatchState) :
    WatchOutcome × WatchState :=
  createWatcherWith api (watch api vm fuel) expOrFn handler options st

/-- A value of the `watch` map: one handler or an array of handlers. -/
inductive WatchEntry where
  | single (h : Handler)
  | array (hs : List Handler)
deriving DecidableEq, Repr

/-- How `initWatch` ends. -/
inductive InitOutcome where
  | done
  | threw (e : JsError)
  | unfinished
deriving DecidableEq, Repr

/-- One call `createWatcher(vm, key, handler)` of `initWatch`; nothing runs
once an exception (or the lack of fuel) has ended the run. -/
def initWatchCall (api : WatchApi) (vm : Nat) (fuel : Nat) (key : String)
    (acc : InitOutcome × WatchState) (handler : Handler) : InitOutcome × WatchState :=
  match acc.1 with
  | .done =>
    let r := createWatcher api vm fuel (.path key) handler none acc.2
    match r.1 with
    | .unwatch _ => (.done, r.2)
    | .threw e => (.threw e, r.2)
    | .unfinished => (.unfinished, r.2)
  | _ => acc

/-- The handlers of an entry, in the order `initWatch` takes them:
`if (Array.isArray(handler)) { for (...) createWatcher(vm, key, handler[i]) }
else { createWatcher(vm, key, handler) }`. -/
def WatchEntry.handlers : WatchEntry → List Handler
  | .single h => [h]
  | .array hs => hs

/-- Source `initWatch(vm, watch)`. -/
def initWatch (api : WatchApi) (vm : Nat) (fuel : Nat) (watchMap : List (String × WatchEntry))
    (st : WatchState) : InitOutcome × WatchState :=
  watchMap.foldl
    (fun acc ke => ke.2.handlers.foldl (initWatchCall api vm fuel ke.1) acc)
    (.done, st)

/-- The state before any watch registration. -/
def WatchState.initial (w : World) : WatchState :=
  { created := [], invoked := [], handled := [], world := w }

/-- The callback and the options `createWatcher(vm, expOrFn, handler, options)`
arrives at when it finally constructs a Watcher; `none` when the returns into
`createWatcher` outnumber the fuel. -/
def resolveHandler (api : WatchApi) :
    Nat → Handler → Option WatcherOptions → Option (Handler × Option WatcherOptions)
  | fuel, handler, options =>
    let ho : Handler × Option WatcherOptions :=
      match handler with
      | .obj h o => (h, some o)
      | _ => (handler, options)
    let handler2 : Handler :=
      match ho.1 with
      | .name s => api.vmGet s
      | h => h
    if handler2.isPlain then
      match fuel with
      | 0 => none
      | n + 1 => resolveHandler api n handler2 ho.2
    else some (handler2, ho.2)

/-- The callback the claim names for an entry: "the entry itself if it is a
function, entry.handler if it is an options object, and vm[name] if it (or its
handler) is a string". -/
def Handler.claimedCallback (vmGet : String → Handler) : Handler → Handler
  | .obj (.name s) _ => vmGet s
  | .obj h _ => h
  | .name s => vmGet s
  | h => h

/-- The options of the Watcher of an entry: those of the options object, if
the entry is one. -/
def Handler.claimedOptions : Handler → Option WatcherOptions
  | .obj _ o => some o
  | _ => none

/-- The Watcher `initWatch` constructs for handler `h` of key `key`, if the
fuel suffices. -/
def watcherOf (api : WatchApi) (fuel : Nat) (key : String) (h : Handler) : Option WatchArgs :=
  (resolveHandler api fuel h none).map fun co =>
    { expOrFn := .path key, cb := co.1, options := userOptions co.2 }

/-- Every callback returns normally. -/
def WatchApi.calm (api : WatchApi) : Prop :=
  ∀ f v w, (api.call f v w).1 = none

/-- Handler `h` resolves within the fuel, and if its Watcher is immediate its
callback is a function. -/
def Handler.ready (api : WatchApi) (fuel : Nat) (h : Handler) : Prop :=
  ∃ cb o, resolveHandler api fuel h none = some (cb, o) ∧
    ((userOptions o).immediate = true → ∃ f, cb = .fn f)

/-- A `$watch` environment for examples: every expression evaluates to 1,
`vm.m` is a plain object without `handler`, every other `vm[name]` is function
9, every callback returns normally. -/
def WatchApi.quiet : WatchApi :=
  { vmGet := fun s => if s = "m" then .obj (.other 0) WatcherOptions.empty else .fn 9,
    newWatcher := fun _ w => (.prim (.number 1), w),
    call := fun _ _ w => (none, w) }

/-- The environment `WatchApi.quiet`, except that every callback throws
error 1. -/
def WatchApi.throwing : WatchApi :=
  { WatchApi.quiet with call := fun _ _ w => (some (.thrown 1), w) }

/-- The environment `WatchApi.quiet`, except that `vm.m` is the plain object
`{ handler: 'm' }`, whose handler names `vm.m` again. -/
def WatchApi.cyclic : WatchApi :=
  { WatchApi.quiet with
    vmGet := fun s => if s = "m" then .obj (.name "m") WatcherOptions.empty else .fn 9 }

/-- The nesting depth of plain objects in a handler. -/
def Handler.depth : Handler → Nat
  | .obj h _ => h.depth + 1
  | _ => 0

/-- The options `{ immediate: true }`. -/
def WatcherOptions.immediately : WatcherOptions :=
  { WatcherOptions.empty with immediate := true }

/-! ## Definitions: resolve-slots.js
The slots object is created by `const slots = {}`, so it inherits the members
of `Object.prototype`: reading `slots[name]` for one of their names yields the
inherited member. -/

/-- The `data` of a VNode as far as `resolveSlots` reads it: `slot` is
`data.slot` (`none` for `null`/`undefined`); `attrs` is `none` when
`data.attrs` is falsy, else `some s` with `s` the value of `data.attrs.slot`
(`none` when absent). -/
structure VNodeData where
  slot : Option String
  attrs : Option (Option String)
deriving DecidableEq, Repr

/-- A VNode as far as `resolveSlots` reads it; an absent field is `none`. -/
inductive VNode where
  | mk (tag : Option String) (data : Option VNodeData) (children : Option (List VNode))
      (text : Option String) (context : Option Nat) (fnContext : Option Nat)
      (isComment : Bool) (asyncFactory : Bool)
deriving Repr

/-- The field `tag`. -/
def VNode.tag : VNode → Option String
  | .mk t _ _ _ _ _ _ _ => t

/-- The field `data`. -/
def VNode.data : VNode → Option VNodeData
  | .mk _ d _ _ _ _ _ _ => d

/-- The field `children`. -/
def VNode.children : VNode → Option (List VNode)
  | .mk _ _ c _ _ _ _ _ => c

/-- The field `text`. -/
def VNode.text : VNode → Option String
  | .mk _ _ _ t _ _ _ _ => t

/-- The field `context`. -/
def VNode.context : VNode → Option Nat
  | .mk _ _ _ _ c _ _ _ => c

/-- The field `fnContext`. -/
def VNode.fnContext : VNode → Option Nat
  | .mk _ _ _ _ _ c _ _ => c

/-- The field `isComment`. -/
def VNode.isComment : VNode → Bool
  | .mk _ _ _ _ _ _ b _ => b

/-- Whether the field `asyncFactory` is truthy. -/
def VNode.asyncFactory : VNode → Bool
  | .mk _ _ _ _ _ _ _ b => b

/-- The statement `if (data && data.attrs && data.attrs.slot) { delete
data.attrs.slot }` on the data of a child; the empty string is falsy. -/
def VNodeData.deleteAttrsSlot (data : VNodeData) : VNodeData :=
  match data.attrs with
  | some (some s) => if s ≠ "" then { data with attrs := some none } else data
  | _ => data

/-- The child after `delete data.attrs.slot`. -/
def VNode.deleteAttrsSlot : VNode → VNode
  | .mk t d c x ctx fctx ic af => .mk t (d.map VNodeData.deleteAttrsSlot) c x ctx fctx ic af

/-- The slots object: its keys in insertion order, each with its array. -/
abbrev Slots := List (String × List VNode)

/-- The names of the members of `Object.prototype` (ECMAScript, with its
Annex B). Each member is a function, and `__proto__` yields the prototype
object itself, so the value read under any of these names is truthy and has no
method `push`. -/
def objectPrototypeKeys : List String :=
  ["constructor", "hasOwnProperty", "isPrototypeOf", "propertyIsEnumerable",
   "toLocaleString", "toString", "valueOf", "__proto__", "__defineGetter__",
   "__defineSetter__", "__lookupGetter__", "__lookupSetter__"]

/-- The expression `(slots[name] || (slots[name] = []))` followed by a `push`
of `items` onto that array, for a `name` that is no member of
`Object.prototype`: `slots[name]` is then an own array or `undefined`. -/
def pushSlot (slots : Slots) (name : String) (items : List VNode) : Slots :=
  if name ∈ slots.map Prod.fst then
    slots.map (fun p => if p.1 = name then (p.1, p.2 ++ items) else p)
  else slots ++ [(name, items)]

/-- One pass of the first loop of `resolveSlots`, for `child`. When the child
is placed by name and `name` is a member of `Object.prototype`, the expression
`slots[name] || (slots[name] = [])` is the inherited member, `slot.push` is
`undefined`, and the call `slot.push(child)` (or `slot.push.apply(...)`) throws
a `TypeError`. -/
def resolveSlotsStep (context : Option Nat) (slots : Slots) (child : VNode) :
    Except JsError Slots :=
  let child1 := child.deleteAttrsSlot
  match (if child1.context = context ∨ child1.fnContext = context
      then child1.data.bind VNodeData.slot else none) with
  | some name =>
    if name ∈ objectPrototypeKeys then .error .typeError
    else if child1.tag = some "template" then
      .ok (pushSlot slots name (child1.children.getD []))
    else .ok (pushSlot slots name [child1])
  | none => .ok (pushSlot slots "default" [child1])

/-- Source `isWhitespace(node)`:
`(node.isComment && !node.asyncFactory) || node.text === ' '`. -/
def isWhitespace (node : VNode) : Bool :=
  (node.isComment && !node.asyncFactory) || decide (node.text = some " ")

/-- The first loop of `resolveSlots` over `children`, started with the slots
object `slots`; an exception ends it. -/
def collectSlotsFrom (context : Option Nat) : List VNode → Slots → Except JsError Slots
  | [], slots => .ok slots
  | child :: rest, slots =>
    match resolveSlotsStep context slots child with
    | .ok slots1 => collectSlotsFrom context rest slots1
    | .error e => .error e

/-- The slots object after the first loop of `resolveSlots`, before the
whitespace-only slots are deleted. -/
def collectSlots (children : List VNode) (context : Option Nat) : Except JsError Slots :=
  collectSlotsFrom context children []

/-- The second loop of `resolveSlots`: `for (const name in slots) { if
(slots[name].every(isWhitespace)) { delete slots[name] } }`; the inherited
members are not enumerable. -/
def dropWhitespaceSlots (slots : Slots) : Slots :=
  slots.filter (fun p => !p.2.all isWhitespace)

/-- Source `resolveSlots(children, context)`; `children = none` is a falsy
`children`. -/
def resolveSlots (children : Option (List VNode)) (context : Option Nat) :
    Except JsError Slots :=
  match children with
  | none => .ok []
  | some cs =>
    match collectSlots cs context with
    | .ok slots => .ok (dropWhitespaceSlots slots)
    | .error e => .error e

/-- One pass of the first loop as it runs when the slot name is no member of
`Object.prototype`. -/
def placeChild (context : Option Nat) (slots : Slots) (child : VNode) : Slots :=
  let child1 := child.deleteAttrsSlot
  match (if child1.context = context ∨ child1.fnContext = context
      then child1.data.bind VNodeData.slot else none) with
  | some name =>
    if child1.tag = some "template" then pushSlot slots name (child1.children.getD [])
    else pushSlot slots name [child1]
  | none => pushSlot slots "default" [child1]

/-- The first loop as it runs when no slot name is a member of
`Object.prototype`. -/
def placeAll (children : List VNode) (context : Option Nat) : Slots :=
  children.foldl (placeChild context) []

/-- The claim's routing of a child: "under the name data.slot if and only if
(child.context equals the context or child.fnContext equals the context) and
child.data exists with data.slot not null/undefined; every other child ... in
the default slot". -/
def slotNameOf (context : Option Nat) (child : VNode) : String :=
  if child.context = context ∨ child.fnContext = context then
    match child.data with
    | some d =>
      match d.slot with
      | some name => name
      | none => "default"
    | none => "default"
  else "default"

/-- Whether the claim's condition for a named slot holds of the child. -/
def isNamed (context : Option Nat) (child : VNode) : Bool :=
  decide (child.context = context ∨ child.fnContext = context) &&
    (child.data.bind VNodeData.slot).isSome

/-- What a child brings to its slot: the child itself, or, for a `template`
placed by name, the children of the template. -/
def contribution (context : Option Nat) (child : VNode) : List VNode :=
  if isNamed context child && decide (child.tag = some "template") then
    child.children.getD []
  else [child.deleteAttrsSlot]

/-- No child placed by name has a slot name that is a member of
`Object.prototype`. -/
def SafeNames (children : List VNode) (context : Option Nat) : Prop :=
  ∀ child ∈ children, isNamed context child = true →
    slotNameOf context child ∉ objectPrototypeKeys

/-- A text node, for examples. -/
def VNode.textNode (text : String) (context : Option Nat) : VNode :=
  .mk none none none (some text) context none false false

/-- An element with `slot="name"` (`none`: no slot attribute), for examples. -/
def VNode.element (tag : String) (slot : Option String) (children : List VNode)
    (context : Option Nat) : VNode :=
  .mk (some tag) (some ⟨slot, some slot⟩) (some children) none context none false false

/-- Children for examples, rendered in context 1 unless said otherwise:
`<span slot="a">`, a single space, `<template slot="b">x</template>`, and
`<p slot="a">` rendered in context 2. -/
def VNode.sample : List VNode :=
  [VNode.element "span" (some "a") [] (some 1), VNode.textNode " " (some 1),
   VNode.element "template" (some "b") [VNode.textNode "x" (some 1)] (some 1),
   VNode.element "p" (some "a") [] (some 2)]

/-! ## Definitions: resolveScopedSlots, createElement -/

/-- An element of `ScopedSlotsData`: an entry `{ key, fn }`, or an array of
such elements. Every value has finite nesting. -/
inductive ScopedSlot where
  | entry (key : String) (fn : Scalar)
  | nested (items : List ScopedSlot)

mutual
/-- The loop of `resolveScopedSlots(fns, res)` from index `i` on, `fns` being
the elements from `i`. -/
def resolveScopedSlotsLoop : List ScopedSlot → List (String × Scalar) → List (String × Scalar)
  | [], res => res
  | x :: xs, res => resolveScopedSlotsLoop xs (resolveScopedSlotsItem x res)
/-- The loop body: `if (Array.isArray(fns[i])) { resolveScopedSlots(fns[i],
res) } else { res[fns[i].key] = fns[i].fn }`; in the recursive call `res` is
an object, so `res || {}` is `res`. -/
def resolveScopedSlotsItem : ScopedSlot → List (String × Scalar) → List (String × Scalar)
  | .entry key fn, res => setKey res key fn
  | .nested items, res => resolveScopedSlotsLoop items res
end

/-- Source `resolveScopedSlots(fns, res)`; `res = none` is an absent `res`. -/
def resolveScopedSlots (fns : List ScopedSlot) (res : Option (List (String × Scalar))) :
    List (String × Scalar) :=
  resolveScopedSlotsLoop fns (res.getD [])

mutual
/-- The entries of a list of elements, depth first, left to right. -/
def ScopedSlot.flattenList : List ScopedSlot → List (String × Scalar)
  | [] => []
  | x :: xs => ScopedSlot.flatten x ++ ScopedSlot.flattenList xs
/-- The entries of an element, depth first, left to right. -/
def ScopedSlot.flatten : ScopedSlot → List (String × Scalar)
  | .entry key fn => [(key, fn)]
  | .nested items => ScopedSlot.flattenList items
end

/-- The utilities `createElement` calls; `util/index` is not among the
sources, so they are parameters. -/
structure ElementUtil where
  isPrimitive : JsVal → Bool
  isTrue : JsVal → Bool

/-- The arguments of a call `_createElement(context, tag, data, children,
normalizationType)`. -/
structure ElementArgs where
  context : Nat
  tag : JsVal
  data : JsVal
  children : JsVal
  normalizationType : JsVal
deriving DecidableEq, Repr

/-- Source `const SIMPLE_NORMALIZE = 1`. -/
def SIMPLE_NORMALIZE : Int := 1

/-- Source `const ALWAYS_NORMALIZE = 2`. -/
def ALWAYS_NORMALIZE : Int := 2

/-- The test `Array.isArray(v)`. -/
def JsVal.isArray : JsVal → Bool
  | .array _ => true
  | _ => false

/-- Source `createElement`, up to its last line: the arguments it hands to
`_createElement`.
`if (Array.isArray(data) || isPrimitive(data)) { normalizationType = children;
children = data; data = undefined }
if (isTrue(alwaysNormalize)) { normalizationType = ALWAYS_NORMALIZE }`. -/
def createElementArgs (util : ElementUtil) (context : Nat)
    (tag data children normalizationType alwaysNormalize : JsVal) : ElementArgs :=
  let shift := data.isArray || util.isPrimitive data
  let normalizationType1 := if shift then children else normalizationType
  let children1 := if shift then data else children
  let data1 := if shift then JsVal.prim .undefined else data
  let normalizationType2 :=
    if util.isTrue alwaysNormalize then JsVal.prim (.number ALWAYS_NORMALIZE)
    else normalizationType1
  { context := context, tag := tag, data := data1, children := children1,
    normalizationType := normalizationType2 }

/-- Source `createElement`: `return _createElement(context, tag, data,
children, normalizationType)`, with `_createElement` as the parameter
`_createElement`. -/
def createElement {R : Type} (util : ElementUtil) (_createElement : ElementArgs → R)
    (context : Nat) (tag data children normalizationType alwaysNormalize : JsVal) : R :=
  _createElement (createElementArgs util context tag data children normalizationType
    alwaysNormalize)

/-- Utilities for examples: the primitives are the strings, numbers and
booleans, and `isTrue(v)` is `v === true`. -/
def ElementUtil.standard : ElementUtil :=
  { isPrimitive := fun v =>
      match v with
      | .prim (.string _) => true
      | .prim (.number _) => true
      | .prim (.bool _) => true
      | _ => false,
    isTrue := fun v => decide (v = .prim (.bool true)) }

/-! ## Theorems -/

theorem notify_fold (update : Watcher → World → Option JsError × World) (d : DepId)
    (w : World) :
    Dep.notify update d w =
      (w.subs d).foldl (notifyStep update) { world := w, calls := [], thrown := none } := by
  unfold Dep.notify
  have key : ∀ n, n ≤ (w.subs d).length →
      (List.range n).foldl
        (fun (acc : NotifyRun) i =>
          match acc.thrown with
          | some _ => acc
          | none =>
            match (w.subs d)[i]? with
            | some s =>
              let r := update s acc.world
              { world := r.2, calls := acc.calls ++ [s], thrown := r.1 }
            | none => acc)
        { world := w, calls := [], thrown := none } =
      ((w.subs d).take n).foldl (notifyStep update)
        { world := w, calls := [], thrown := none } := by
    intro n
    induction n with
    | zero => intro _; simp
    | succ n ih =>
      intro hn
      have hlt : n < (w.subs d).length := hn
      rw [List.range_succ, List.foldl_append, ih (Nat.le_of_lt hlt), List.take_succ,
        List.foldl_append]
      simp only [List.foldl_cons, List.foldl_nil, Option.toList, notifyStep,
        List.getElem?_eq_getElem hlt]
  simpa using key (w.subs d).length le_rfl

theorem notifyStep_thrown (update : Watcher → World → Option JsError × World)
    (l : List Watcher) (acc : NotifyRun) (e : JsError) (h : acc.thrown = some e) :
    l.foldl (notifyStep update) acc = acc := by
  induction l with
  | nil => rfl
  | cons s rest ih =>
    simp only [List.foldl_cons]
    have : notifyStep update acc s = acc := by simp [notifyStep, h]
    rw [this, ih]

theorem notify_fold_pass (update : Watcher → World → Option JsError × World) :
    ∀ (l : List Watcher) (w : World) (calls : List Watcher),
    l.foldl (notifyStep update) { world := w, calls := calls, thrown := none } =
      { world := (notifyPass update l w).world,
        calls := calls ++ (notifyPass update l w).calls,
        thrown := (notifyPass update l w).thrown } := by
  intro l
  induction l with
  | nil => intro w calls; simp [notifyPass]
  | cons s rest ih =>
    intro w calls
    simp only [List.foldl_cons]
    cases hu : (update s w).1 with
    | some e =>
      have h1 : notifyStep update { world := w, calls := calls, thrown := none } s =
          { world := (update s w).2, calls := calls ++ [s], thrown := some e } := by
        simp [notifyStep, hu]
      rw [h1, notifyStep_thrown update rest _ e rfl]
      simp [notifyPass, hu]
    | none =>
      have h1 : notifyStep update { world := w, calls := calls, thrown := none } s =
          { world := (update s w).2, calls := calls ++ [s], thrown := none } := by
        simp [notifyStep, hu]
      rw [h1, ih]
      simp [notifyPass, hu]

theorem notify_eq_pass (update : Watcher → World → Option JsError × World) (d : DepId)
    (w : World) : Dep.notify update d w = notifyPass update (w.subs d) w := by
  rw [notify_fold, notify_fold_pass]
  simp

theorem notifyPass_spec (update : Watcher → World → Option JsError × World) :
    ∀ (l : List Watcher) (w : World),
    (notifyPass update l w).calls <+: l ∧
    ((notifyPass update l w).thrown = none →
      (notifyPass update l w).calls = l ∧
      (notifyPass update l w).world = l.foldl (fun acc s => (update s acc).2) w) ∧
    (∀ e, (notifyPass update l w).thrown = some e →
      ∃ l₁ s l₂, l = l₁ ++ s :: l₂ ∧ (notifyPass update l w).calls = l₁ ++ [s] ∧
        (update s (l₁.foldl (fun acc s => (update s acc).2) w)).1 = some e ∧
        (notifyPass update l w).world =
          (update s (l₁.foldl (fun acc s => (update s acc).2) w)).2) ∧
    ((∀ s ∈ l, ∀ w', (update s w').1 = none) → (notifyPass update l w).thrown = none) := by
  intro l
  induction l with
  | nil =>
    intro w
    simp [notifyPass]
  | cons s rest ih =>
    intro w
    cases hu : (update s w).1 with
    | some e =>
      have hp : notifyPass update (s :: rest) w =
          { world := (update s w).2, calls := [s], thrown := some e } := by
        simp [notifyPass, hu]
      rw [hp]
      refine ⟨⟨rest, rfl⟩, fun h => by simp at h, fun e' he => ?_, fun h => ?_⟩
      · simp only [Option.some.injEq] at he
        subst he
        exact ⟨[], s, rest, rfl, rfl, hu, rfl⟩
      · have := h s (List.mem_cons_self _ _) w
        rw [hu] at this
        cases this
    | none =>
      obtain ⟨i1, i2, i3, i4⟩ := ih (update s w).2
      have hp : notifyPass update (s :: rest) w =
          { world := (notifyPass update rest (update s w).2).world,
            calls := s :: (notifyPass update rest (update s w).2).calls,
            thrown := (notifyPass update rest (update s w).2).thrown } := by
        simp [notifyPass, hu]
      rw [hp]
      refine ⟨?_, fun h => ?_, fun e he => ?_, fun h => ?_⟩
      · obtain ⟨t, ht⟩ := i1
        exact ⟨t, by simp only [List.cons_append, ht]⟩
      · obtain ⟨a, b⟩ := i2 h
        exact ⟨by simp [a], by simpa using b⟩
      · obtain ⟨l₁, s', l₂, a, b, c, c2⟩ := i3 e he
        exact ⟨s :: l₁, s', l₂, by simp [a], by simp [b], by simpa using c, by simpa using c2⟩
      · exact i4 (fun s' hs' w' => h s' (List.mem_cons_of_mem _ hs') w')

/-- C1 (snapshot safety of `Dep.notify`), evaluated where it breaks: Dep 7 has
the subscribers `[1, 2, 3]` and the `update()` of subscriber 2 throws. The
`update()` of 1 and of 2 are called, that of 3 is not, and the error leaves
`notify`. -/
theorem C1_notify_calls_snapshot_counterexample :
    (Dep.notify (updateSample true) 7 World.sample).calls = [1, 2] ∧
    (Dep.notify (updateSample true) 7 World.sample).thrown = some (.thrown 5) ∧
    World.sample.subs 7 = [1, 2, 3] := by
  decide

/-- C1 (amended): one `notify()` is one pass over the subscriber list `[s1..sn]`
at the moment of the call, whatever the `update()` callbacks do to the world,
in particular to the `subs` of the same Dep: `update()` is called on `s1`,
`s2`, ... in list order, each position at most once, and on nothing else;
when the call returns normally, and so whenever no `update()` throws, every
one of `s1..sn` was called exactly once, each on the world the one before
left; when it throws, the error is the one of the `update()` of some `si`,
`s1..si` were called once each and the later ones not at all. -/
theorem C1_notify_calls_snapshot (update : Watcher → World → Option JsError × World)
    (d : DepId) (w : World) :
    Dep.notify update d w = notifyPass update (w.subs d) w ∧
    (Dep.notify update d w).calls <+: w.subs d ∧
    ((Dep.notify update d w).thrown = none →
      (Dep.notify update d w).calls = w.subs d ∧
      (Dep.notify update d w).world = (w.subs d).foldl (fun acc s => (update s acc).2) w) ∧
    ((∀ s ∈ w.subs d, ∀ w', (update s w').1 = none) →
      (Dep.notify update d w).thrown = none) ∧
    (∀ e, (Dep.notify update d w).thrown = some e →
      ∃ l₁ s l₂, w.subs d = l₁ ++ s :: l₂ ∧ (Dep.notify update d w).calls = l₁ ++ [s] ∧
        (update s (l₁.foldl (fun acc s => (update s acc).2) w)).1 = some e ∧
        (Dep.notify update d w).world =
          (update s (l₁.foldl (fun acc s => (update s acc).2) w)).2) := by
  rw [notify_eq_pass]
  obtain ⟨h1, h2, h3, h4⟩ := notifyPass_spec update (w.subs d) w
  exact ⟨rfl, h1, h2, h4, h3⟩

/-- Witness of C1: Dep 7 has the subscribers `[1, 2, 3]`; the `update()` of 1
adds subscriber 9 and removes subscriber 3, no `update()` throws: the calls are
`[1, 2, 3]`. -/
theorem C1_notify_calls_snapshot_witness :
    (Dep.notify (updateSample false) 7 World.sample).thrown = none ∧
    (Dep.notify (updateSample false) 7 World.sample).calls = World.sample.subs 7 ∧
    ((Dep.notify (updateSample false) 7 World.sample).world.subs 7 = [1, 2, 9]) :=
  have h := C1_notify_calls_snapshot (updateSample false) 7 World.sample
  ⟨h.2.2.2.1 (fun s _ w' => by
      unfold updateSample
      split
      · rfl
      · simp),
   (h.2.2.1 (by decide)).1, by decide⟩

/-- Restoring works when a watcher is active: `pushTarget(c); popTarget()`
brings back `Dep.target` and `targetStack`. -/
theorem push_pop_restore_of_active (c : Option Watcher) (w : World) (t : Watcher)
    (h : w.target = some t) :
    (popTarget (pushTarget c w)).target = w.target ∧
      (popTarget (pushTarget c w)).targetStack = w.targetStack := by
  simp [pushTarget, popTarget, h]

/-- Restoring works when no watcher is active and nothing is saved. -/
theorem push_pop_restore_of_idle (c : Option Watcher) (w : World)
    (h : w.target = none) (hs : w.targetStack = []) :
    (popTarget (pushTarget c w)).target = w.target ∧
      (popTarget (pushTarget c w)).targetStack = w.targetStack := by
  simp [pushTarget, popTarget, h, hs]

/-- C2 (`pushTarget`/`popTarget` restore), evaluated where it breaks: after
`pushTarget(1); pushTarget()` the state is `Dep.target = undefined`,
`targetStack = [1]`; a following `pushTarget(2); popTarget()` leaves
`Dep.target = 1` and `targetStack = []`, neither equal to its value before. -/
theorem C2_push_pop_not_restored :
    (pushTarget none (pushTarget (some 1) World.initial)).target = none ∧
    (pushTarget none (pushTarget (some 1) World.initial)).targetStack = [1] ∧
    (popTarget (pushTarget (some 2)
      (pushTarget none (pushTarget (some 1) World.initial)))).target = some 1 ∧
    (popTarget (pushTarget (some 2)
      (pushTarget none (pushTarget (some 1) World.initial)))).targetStack = [] := by
  decide

/-- C3 (`getData` suspends dependency tracking), evaluated where it breaks:
watcher 1 is being evaluated when `getData` runs a factory that reads a
computed property (the paired `pushTarget(2)`/`popTarget()`) and then a reactive
property backed by Dep 7. The factory is correctly paired, yet the `depend()`
it executes directly sees `Dep.target = 1` and subscribes watcher 1 to Dep 7. -/
theorem C3_getData_tracks_after_nested_pair :
    paired [.pushTarget (some 2), .popTarget, .depend 7] = true ∧
    (runOps [.pushTarget (some 2), .popTarget]
      (pushTarget none (pushTarget (some 1) World.initial))).target = some 1 ∧
    (pushTarget (some 1) World.initial).subs 7 = [] ∧
    ((getData ⟨[.pushTarget (some 2), .popTarget, .depend 7], .ok (.plain [])⟩ 0
      (pushTarget (some 1) World.initial)).world.subs 7) = [1] := by
  decide

/-- C7 (a throwing data factory is non-fatal): when the factory throws `e`,
`getData` returns the empty plain aggregate, reports exactly once, with
`(e, vm, "data()")`, and ends in the world obtained by one `popTarget` after
the factory body run under the one `pushTarget()`, the same world as on the
normal path. -/
theorem C7_getData_throwing_factory (body : List TrackOp) (e : JsError) (vm : Nat)
    (w : World) :
    (getData ⟨body, .error e⟩ vm w).value = JsVal.plain [] ∧
    (getData ⟨body, .error e⟩ vm w).handled = [(e, vm, "data()")] ∧
    (getData ⟨body, .error e⟩ vm w).world = popTarget (runOps body (pushTarget none w)) ∧
    ∀ v, (getData ⟨body, .ok v⟩ vm w).world = (getData ⟨body, .error e⟩ vm w).world := by
  simp [getData]

theorem reading_depend (c : Watcher) (deps0 : List DepId) (w : World) (x : DepId)
    (h : Reading c deps0 w) :
    Reading c deps0 (Dep.depend x w) ∧
      ∀ d, d ∈ (w.watchers c).newDeps ∨ d = x →
        d ∈ ((Dep.depend x w).watchers c).newDeps := by
  obtain ⟨ht, hd, hids, hnew, hnd, hcnt⟩ := h
  unfold Dep.depend
  rw [ht]
  simp only [Watcher.addDep]
  by_cases hx : x ∈ (w.watchers c).newDepIds
  · rw [if_pos hx]
    refine ⟨⟨ht, hd, hids, hnew, hnd, hcnt⟩, ?_⟩
    intro d hdm
    rcases hdm with hdm | hdm
    · exact hdm
    · rw [hdm]; rw [hnew] at hx; exact hx
  · rw [if_neg hx]
    have hx2 : x ∉ (w.watchers c).newDeps := by rw [← hnew]; exact hx
    by_cases hp : x ∈ (w.watchers c).depIds
    · rw [if_pos hp]
      refine ⟨⟨ht, ?_, ?_, ?_, ?_, ?_⟩, ?_⟩
      · simpa using hd
      · simpa using hids
      · simp [hnew]
      · simp only [Function.update_same]
        exact List.Nodup.append hnd (List.nodup_singleton x) (by simpa using hx2)
      · intro d
        simp only [Function.update_same, List.mem_append, List.mem_singleton]
        rw [hcnt d]
        by_cases hdx : d = x
        · subst hdx
          have : d ∈ deps0 := (hids d).1 hp
          simp [this]
        · simp [hdx]
      · intro d hdm
        simp only [Function.update_same, List.mem_append, List.mem_singleton]
        exact hdm
    · rw [if_neg hp]
      have hx3 : x ∉ deps0 := fun hm => hp ((hids x).2 hm)
      refine ⟨⟨ht, ?_, ?_, ?_, ?_, ?_⟩, ?_⟩
      · simpa [Dep.addSub] using hd
      · simpa [Dep.addSub] using hids
      · simp [Dep.addSub, hnew]
      · simp only [Dep.addSub, Function.update_same]
        exact List.Nodup.append hnd (List.nodup_singleton x) (by simpa using hx2)
      · intro d
        simp only [Dep.addSub, Function.update_same, List.mem_append, List.mem_singleton]
        by_cases hdx : d = x
        · subst hdx
          simp [hcnt d, hx3, hx2]
        · rw [Function.update_noteq hdx, hcnt d]
          simp [hdx]
      · intro d hdm
        simp only [Dep.addSub, Function.update_same, List.mem_append, List.mem_singleton]
        exact hdm

theorem reading_reads (c : Watcher) (deps0 : List DepId) (reads : List DepId) :
    ∀ w : World, Reading c deps0 w →
      Reading c deps0 (reads.foldl (fun (acc : World) d => Dep.depend d acc) w) ∧
      ∀ d, d ∈ (w.watchers c).newDeps ∨ d ∈ reads →
        d ∈ ((reads.foldl (fun (acc : World) d => Dep.depend d acc) w).watchers c).newDeps := by
  induction reads with
  | nil =>
    intro w h
    exact ⟨h, fun d hd => by simpa using hd⟩
  | cons x xs ih =>
    intro w h
    obtain ⟨h1, hm1⟩ := reading_depend c deps0 w x h
    obtain ⟨h2, hm2⟩ := ih (Dep.depend x w) h1
    refine ⟨h2, ?_⟩
    intro d hd
    simp only [List.foldl_cons]
    rcases hd with hd | hd
    · exact hm2 d (Or.inl (hm1 d (Or.inl hd)))
    · rcases List.mem_cons.1 hd with hd | hd
      · exact hm2 d (Or.inl (hm1 d (Or.inr hd)))
      · exact hm2 d (Or.inr hd)

theorem cleanup_fold (c : Watcher) (n : List DepId) (l : List DepId) :
    ∀ w : World, l.Nodup →
      (∀ d, ((l.foldl (fun (acc : World) d =>
          if d ∈ n then acc else Dep.removeSub d c acc) w).subs d).count c =
        if d ∈ l ∧ d ∉ n then (w.subs d).count c - 1 else (w.subs d).count c) ∧
      (l.foldl (fun (acc : World) d =>
          if d ∈ n then acc else Dep.removeSub d c acc) w).watchers = w.watchers := by
  induction l with
  | nil => intro w _; simp
  | cons x xs ih =>
    intro w hnd
    obtain ⟨hx, hxs⟩ := List.nodup_cons.1 hnd
    simp only [List.foldl_cons]
    by_cases hxn : x ∈ n
    · rw [if_pos hxn]
      obtain ⟨h1, h2⟩ := ih w hxs
      refine ⟨?_, h2⟩
      intro d
      rw [h1 d]
      by_cases hdx : d = x
      · subst hdx; simp [hx, hxn]
      · simp [hdx]
    · rw [if_neg hxn]
      obtain ⟨h1, h2⟩ := ih (Dep.removeSub x c w) hxs
      refine ⟨?_, by rw [h2]; rfl⟩
      intro d
      rw [h1 d]
      by_cases hdx : d = x
      · subst hdx
        simp [hx, hxn, Dep.removeSub, remove, List.count_erase_self]
      · simp [hdx, Dep.removeSub, Function.update_noteq hdx]

theorem get_spec (c : Watcher) (reads : List DepId) (w : World) (hw : Settled c w) :
    ((Watcher.get c reads w).watchers c).deps.Nodup ∧
    ((Watcher.get c reads w).watchers c).depIds = ((Watcher.get c reads w).watchers c).deps ∧
    (∀ d, d ∈ reads → d ∈ ((Watcher.get c reads w).watchers c).deps) ∧
    ∀ d, ((Watcher.get c reads w).subs d).count c =
      if d ∈ ((Watcher.get c reads w).watchers c).deps then 1 else 0 := by
  obtain ⟨hnd, hids, hcnt⟩ := hw
  have hstart : Reading c (w.watchers c).deps
      ({ pushTarget (some c) w with
          watchers := Function.update (pushTarget (some c) w).watchers c
            { (pushTarget (some c) w).watchers c with newDeps := [], newDepIds := [] } }) := by
    have hwat : (pushTarget (some c) w).watchers = w.watchers := by
      unfold pushTarget; cases w.target <;> rfl
    have hsub : (pushTarget (some c) w).subs = w.subs := by
      unfold pushTarget; cases w.target <;> rfl
    have htar : (pushTarget (some c) w).target = some c := by
      unfold pushTarget; cases w.target <;> rfl
    refine ⟨htar, ?_, ?_, ?_, ?_, ?_⟩
    · simp [hwat]
    · simpa [hwat] using hids
    · simp
    · simp
    · intro d
      simp only [hsub, Function.update_same, List.not_mem_nil, or_false]
      exact hcnt d
  obtain ⟨hr, hmem⟩ := reading_reads c (w.watchers c).deps reads _ hstart
  obtain ⟨_, hdeps, _, hnew, hnnd, hcount⟩ := hr
  unfold Watcher.get Watcher.cleanupDeps
  simp only [popTarget]
  set w3 := reads.foldl (fun (acc : World) d => Dep.depend d acc)
      ({ pushTarget (some c) w with
          watchers := Function.update (pushTarget (some c) w).watchers c
            { (pushTarget (some c) w).watchers c with newDeps := [], newDepIds := [] } })
    with hw3
  obtain ⟨hc1, _⟩ := cleanup_fold c (w3.watchers c).newDeps (w3.watchers c).deps
    { w3 with target := w3.targetStack.getLast?, targetStack := w3.targetStack.dropLast }
    (by rw [hdeps]; exact hnd)
  simp only [Function.update_same]
  refine ⟨hnnd, hnew, fun d hd => hmem d (Or.inr hd), ?_⟩
  intro d
  rw [hc1 d]
  simp only [hcount d, hdeps]
  by_cases h1 : d ∈ (w3.watchers c).newDeps
  · simp [h1]
  · by_cases h2 : d ∈ (w.watchers c).deps
    · simp [h1, h2]
    · simp [h1, h2]

/-- The predicate `Settled` holds in the initial world. -/
theorem settled_initial (c : Watcher) : Settled c World.initial :=
  ⟨by simp [World.initial], by simp [World.initial], by simp [World.initial]⟩

/-- The predicate `Settled` is kept by an evaluation of the watcher. -/
theorem settled_get (c : Watcher) (reads : List DepId) (w : World) (hw : Settled c w) :
    Settled c (Watcher.get c reads w) := by
  obtain ⟨h1, h2, _, h4⟩ := get_spec c reads w hw
  exact ⟨h1, fun d => by rw [h2], h4⟩

/-- C5 (subscribe exactly once): between evaluations watcher `c` is settled
(subscribed once to each Dep of `deps`, to no other). If the evaluation of `c`
executes `depend()` of Dep `D` at least once (`D ∈ reads`), then afterwards
`c` occurs exactly once in `D.subs` and `D` exactly once in the `deps` of `c`,
whether or not `c` was subscribed to `D` before. -/
theorem C5_subscribe_exactly_once (c : Watcher) (reads : List DepId) (D : DepId)
    (w : World) (hD : D ∈ reads) (hw : Settled c w) :
    ((Watcher.get c reads w).subs D).count c = 1 ∧
      ((Watcher.get c reads w).watchers c).deps.count D = 1 := by
  obtain ⟨h1, _, h3, h4⟩ := get_spec c reads w hw
  constructor
  · rw [h4 D, if_pos (h3 D hD)]
  · exact List.count_eq_one_of_mem h1 (h3 D hD)

/-- Witness of C5: watcher 1 reads Dep 7 twice and Dep 8 once, after an
evaluation in which it had already read Dep 7. -/
theorem C5_subscribe_exactly_once_witness :
    ((Watcher.get 1 [7, 8, 7] (Watcher.get 1 [7] World.initial)).subs 7).count 1 = 1 ∧
      ((Watcher.get 1 [7, 8, 7] (Watcher.get 1 [7] World.initial)).watchers 1).deps.count 7
        = 1 :=
  C5_subscribe_exactly_once 1 [7, 8, 7] 7 (Watcher.get 1 [7] World.initial) (by decide)
    (settled_get 1 [7] World.initial (settled_initial 1))

section frame

variable (env : Env) (st : State) (r : Report)

@[simp]
theorem warn_members : (st.warn r).members = st.members := rfl
@[simp]
theorem warn_thrown : (st.warn r).thrown = st.thrown := rfl
@[simp]
theorem warn_data : (st.warn r)._data = st._data := rfl
@[simp]
theorem warn_props : (st.warn r)._props = st._props := rfl
@[simp]
theorem warn_watchers : (st.warn r)._computedWatchers = st._computedWatchers := rfl
@[simp]
theorem warn_hasParent : (st.warn r).hasParent = st.hasParent := rfl
@[simp]
theorem warn_reports : (st.warn r).reports = st.reports ++ [r] := rfl
@[simp]
theorem warn_hasKey (k : String) : (st.warn r).hasKey k = st.hasKey k := rfl

@[simp]
theorem devWarn_members : (st.devWarn env r).members = st.members := by
  unfold State.devWarn; split <;> rfl
@[simp]
theorem devWarn_thrown : (st.devWarn env r).thrown = st.thrown := by
  unfold State.devWarn; split <;> rfl
@[simp]
theorem devWarn_data : (st.devWarn env r)._data = st._data := by
  unfold State.devWarn; split <;> rfl
@[simp]
theorem devWarn_props : (st.devWarn env r)._props = st._props := by
  unfold State.devWarn; split <;> rfl
@[simp]
theorem devWarn_watchers :
    (st.devWarn env r)._computedWatchers = st._computedWatchers := by
  unfold State.devWarn; split <;> rfl
@[simp]
theorem devWarn_hasParent : (st.devWarn env r).hasParent = st.hasParent := by
  unfold State.devWarn; split <;> rfl
@[simp]
theorem devWarn_hasKey (k : String) : (st.devWarn env r).hasKey k = st.hasKey k := by
  unfold State.devWarn; split <;> rfl
theorem devWarn_reports :
    (st.devWarn env r).reports = if env.production then st.reports else st.reports ++ [r] := by
  unfold State.devWarn; split <;> rfl
theorem devWarn_grows (x : Report) (h : x ∈ st.reports) : x ∈ (st.devWarn env r).reports := by
  rw [devWarn_reports]; split <;> simp [h]
theorem devWarn_mem (h : env.production = false) : r ∈ (st.devWarn env r).reports := by
  rw [devWarn_reports]; simp [h]

end frame

theorem hasKey_iff (st : State) (k : String) :
    st.hasKey k = true ↔ (st.members k ≠ none ∨ k ∈ st.internal) := by
  unfold State.hasKey
  cases h : st.members k <;> simp

theorem hasKey_false_iff (st : State) (k : String) :
    st.hasKey k = false ↔ (st.members k = none ∧ k ∉ st.internal) := by
  unfold State.hasKey
  cases h : st.members k <;> simp

theorem hasKey_congr (st st' : State) (k : String) (hm : st'.members = st.members)
    (hi : st'.internal = st.internal) : st'.hasKey k = st.hasKey k := by
  unfold State.hasKey; rw [hm, hi]

theorem initPropsStep_frame (env : Env) (st : State) (key : String) :
    (initPropsStep env st key).thrown = st.thrown ∧
    (initPropsStep env st key)._data = st._data ∧
    (initPropsStep env st key)._props ≠ none ∧
    (∀ r, r ∈ st.reports → r ∈ (initPropsStep env st key).reports) ∧
    (initPropsStep env st key).internal = st.internal ∧
    ∀ k, (initPropsStep env st key).members k =
      if k = key ∧ st.hasKey key = false then some (proxyMember .props key)
      else st.members k := by
  unfold initPropsStep
  dsimp only
  set st2 : State := (if (!env.production && env.isReservedAttr key) = true
    then ({ st with propKeys := st.propKeys ++ [key] } : State).warn (.reservedAttribute key)
    else { st with propKeys := st.propKeys ++ [key] }) with hst2
  have e2 : st2.members = st.members ∧ st2.internal = st.internal ∧
      st2.thrown = st.thrown ∧ st2._data = st._data ∧
      ∀ r, r ∈ st.reports → r ∈ st2.reports := by
    rw [hst2]; split
    · exact ⟨rfl, rfl, rfl, rfl, fun r hr => by simp [hr]⟩
    · exact ⟨rfl, rfl, rfl, rfl, fun r hr => hr⟩
  clear_value st2
  obtain ⟨m2, i2, t2, d2, r2⟩ := e2
  set st3 : State :=
    { st2 with _props := some (setKey (st2._props.getD []) key (env.validateProp key)) }
    with hst3
  have hk : st3.hasKey key = st.hasKey key := hasKey_congr st st3 key m2 i2
  have e3 : st3.members = st.members ∧ st3.internal = st.internal ∧
      st3.thrown = st.thrown ∧ st3._data = st._data ∧ st3._props ≠ none ∧
      st3.reports = st2.reports :=
    ⟨m2, i2, t2, d2, by simp [hst3], rfl⟩
  clear_value st3
  obtain ⟨m3, i3, t3, d3, p3, r3⟩ := e3
  rw [hk]
  cases h : st.hasKey key
  · simp only [Bool.not_false, if_true, proxy, State.define]
    refine ⟨t3, d3, p3, fun r hr => by rw [r3]; exact r2 r hr, i3, fun k => ?_⟩
    by_cases hkk : k = key
    · subst hkk; simp [proxyMember]
    · simp [hkk, Function.update_noteq hkk, m3]
  · simp only [Bool.not_true, Bool.false_eq_true, if_false]
    refine ⟨t3, d3, p3, fun r hr => by rw [r3]; exact r2 r hr, i3, fun k => ?_⟩
    simp [m3]

theorem initProps_fold (env : Env) (ps : List String) : ∀ st : State,
    (ps.foldl (initPropsStep env) st).thrown = st.thrown ∧
    (ps.foldl (initPropsStep env) st)._data = st._data ∧
    (st._props ≠ none → (ps.foldl (initPropsStep env) st)._props ≠ none) ∧
    (∀ r, r ∈ st.reports → r ∈ (ps.foldl (initPropsStep env) st).reports) ∧
    (ps.foldl (initPropsStep env) st).internal = st.internal ∧
    ∀ k, (ps.foldl (initPropsStep env) st).members k =
      if k ∈ ps ∧ st.hasKey k = false then some (proxyMember .props k)
      else st.members k := by
  induction ps with
  | nil => intro st; simp
  | cons x xs ih =>
    intro st
    obtain ⟨h1, h2, h3, h4, h6, h5⟩ := initPropsStep_frame env st x
    obtain ⟨i1, i2, i3, i4, i6, i5⟩ := ih (initPropsStep env st x)
    simp only [List.foldl_cons]
    refine ⟨i1.trans h1, i2.trans h2, fun _ => i3 h3, fun r hr => i4 r (h4 r hr),
      i6.trans h6, ?_⟩
    intro k
    rw [i5 k, h5 k]
    by_cases hk : k = x
    · subst hk
      have hstep : (initPropsStep env st k).hasKey k = true := by
        rw [hasKey_iff, h5 k, h6]
        cases hm : st.hasKey k
        · left; simp [proxyMember]
        · simpa using (hasKey_iff st k).1 hm
      cases hm : st.hasKey k
      · simp [hstep]
      · simp [hstep]
    · have : (initPropsStep env st x).hasKey k = st.hasKey k := by
        unfold State.hasKey
        rw [h6, h5 k]; simp [hk]
      rw [this]; simp [hk]

theorem initProps_spec (env : Env) (ps : List String) (st : State) :
    (initProps env ps st).thrown = st.thrown ∧
    (initProps env ps st)._data = st._data ∧
    (initProps env ps st)._props ≠ none ∧
    (∀ r, r ∈ st.reports → r ∈ (initProps env ps st).reports) ∧
    (initProps env ps st).internal = "_props" :: st.internal ∧
    ∀ k, (initProps env ps st).members k =
      if k ∈ ps ∧ st.hasKey k = false ∧ k ≠ "_props" then some (proxyMember .props k)
      else st.members k := by
  unfold initProps
  set s1 : State :=
    { st with _props := some [], propKeys := [], internal := "_props" :: st.internal } with hs1
  obtain ⟨h1, h2, h3, h4, h6, h5⟩ := initProps_fold env ps s1
  refine ⟨h1, h2, h3 (by simp [hs1]), h4, h6, fun k => ?_⟩
  have e : (s1.hasKey k = false) ↔ (st.hasKey k = false ∧ k ≠ "_props") := by
    rw [hasKey_false_iff, hasKey_false_iff]
    simp only [hs1, List.mem_cons, not_or]
    tauto
  rw [h5 k]
  have hm : s1.members k = st.members k := rfl
  rw [hm]
  by_cases hc : st.hasKey k = false ∧ k ≠ "_props"
  · have hc2 := e.2 hc
    by_cases hp : k ∈ ps
    · rw [if_pos ⟨hp, hc2⟩, if_pos ⟨hp, hc⟩]
    · rw [if_neg (fun h => hp h.1), if_neg (fun h => hp h.1)]
  · have hc2 : ¬ s1.hasKey k = false := fun h => hc (e.1 h)
    rw [if_neg (fun h => hc2 h.2), if_neg (fun h => hc h.2)]

theorem setProp_frame (env : Env) (st : State) (key : String) (val : Scalar)
    (hp : st._props ≠ none) :
    (st.setProp env key val).thrown = st.thrown ∧
    (st.setProp env key val).members = st.members ∧
    (st.setProp env key val)._data = st._data ∧
    (st.setProp env key val)._props ≠ none ∧
    ∀ r, r ∈ st.reports → r ∈ (st.setProp env key val).reports := by
  obtain ⟨ps, hps⟩ := Option.ne_none_iff_exists'.1 hp
  unfold State.setProp
  rw [hps]
  simp only
  refine ⟨?_, ?_, ?_, ?_, ?_⟩
  · split <;> [rfl; (split <;> rfl)]
  · split <;> [rfl; (split <;> rfl)]
  · split <;> [rfl; (split <;> rfl)]
  · split <;> [(rw [hps]; simp); simp]
  · intro r hr
    split <;> [exact hr; (split <;> simp [hr])]

theorem initMethodsStep_spec (env : Env) (opts : Options) (st : State)
    (km : String × Option Nat) (h : MethodsOk st) :
    MethodsOk (initMethodsStep env opts st km) ∧
    (initMethodsStep env opts st km)._data = st._data ∧
    (∀ r, r ∈ st.reports → r ∈ (initMethodsStep env opts st km).reports) ∧
    (∀ k, k ≠ km.1 → (initMethodsStep env opts st km).members k = st.members k) ∧
    (∀ g s, st.members km.1 = some (.accessor g s) →
      (initMethodsStep env opts st km).members km.1 = some (.accessor g s)) ∧
    ((initMethodsStep env opts st km).members km.1 ≠ none) ∧
    (opts.hasProp km.1 = true → env.production = false →
      Report.methodIsProp km.1 ∈ (initMethodsStep env opts st km).reports) := by
  obtain ⟨hth, hmem⟩ := h
  unfold initMethodsStep
  simp only [hth, Option.isSome_none, Bool.false_eq_true, if_false]
  generalize hv : (match km.2 with
       | none => Scalar.noop
       | some f => Scalar.bound f) = val
  set st1 := (if km.2.isNone = true then st.devWarn env (.methodUndefined km.1) else st)
    with hst1
  set st2 := (if opts.hasProp km.1 = true then st1.devWarn env (.methodIsProp km.1) else st1)
    with hst2
  set st3 := (if (st2.hasKey km.1 && isReserved km.1) = true
      then st2.devWarn env (.methodReserved km.1) else st2) with hst3
  have e1 : st1.members = st.members ∧ st1.thrown = st.thrown ∧ st1._data = st._data ∧
      st1._props = st._props ∧ (∀ r, r ∈ st.reports → r ∈ st1.reports) := by
    rw [hst1]; split
    · exact ⟨by simp, by simp, by simp, by simp, fun r hr => devWarn_grows _ _ _ r hr⟩
    · exact ⟨rfl, rfl, rfl, rfl, fun r hr => hr⟩
  have e2 : st2.members = st.members ∧ st2.thrown = st.thrown ∧ st2._data = st._data ∧
      st2._props = st._props ∧ (∀ r, r ∈ st.reports → r ∈ st2.reports) ∧
      (opts.hasProp km.1 = true → env.production = false →
        Report.methodIsProp km.1 ∈ st2.reports) := by
    rw [hst2]; split
    · refine ⟨by simp [e1.1], by simp [e1.2.1], by simp [e1.2.2.1], by simp [e1.2.2.2.1],
        fun r hr => devWarn_grows _ _ _ r (e1.2.2.2.2 r hr), fun _ hp => devWarn_mem _ _ _ hp⟩
    · rename_i hn
      exact ⟨e1.1, e1.2.1, e1.2.2.1, e1.2.2.2.1, e1.2.2.2.2, fun hp => absurd hp hn⟩
  have e3 : st3.members = st.members ∧ st3.thrown = st.thrown ∧ st3._data = st._data ∧
      st3._props = st._props ∧ (∀ r, r ∈ st.reports → r ∈ st3.reports) ∧
      (opts.hasProp km.1 = true → env.production = false →
        Report.methodIsProp km.1 ∈ st3.reports) := by
    rw [hst3]; split
    · refine ⟨by simp [e2.1], by simp [e2.2.1], by simp [e2.2.2.1], by simp [e2.2.2.2.1],
        fun r hr => devWarn_grows _ _ _ r (e2.2.2.2.2.1 r hr),
        fun hp hq => devWarn_grows _ _ _ _ (e2.2.2.2.2.2 hp hq)⟩
    · exact e2
  clear_value st3 st2 st1
  obtain ⟨m3, t3, d3, p3, g3, r3⟩ := e3
  have stay : st3.assign env km.1 val = st3 ∨
      (∃ k', st3.assign env km.1 val = st3.warn (.noSetter k')) ∨
      (∃ k', st3.assign env km.1 val = st3.setProp env k' val ∧ st3._props ≠ none) →
      (∃ g s, st.members km.1 = some (.accessor g s)) →
      MethodsOk (st3.assign env km.1 val) ∧
      (st3.assign env km.1 val)._data = st._data ∧
      (∀ r, r ∈ st.reports → r ∈ (st3.assign env km.1 val).reports) ∧
      (∀ k, k ≠ km.1 → (st3.assign env km.1 val).members k = st.members k) ∧
      (∀ g s, st.members km.1 = some (.accessor g s) →
        (st3.assign env km.1 val).members km.1 = some (.accessor g s)) ∧
      ((st3.assign env km.1 val).members km.1 ≠ none) ∧
      (opts.hasProp km.1 = true → env.production = false →
        Report.methodIsProp km.1 ∈ (st3.assign env km.1 val).reports) := by
    intro hcase ⟨g0, s0, hgs⟩
    rcases hcase with ha | ⟨k', ha⟩ | ⟨k', ha, hp⟩
    · rw [ha]
      refine ⟨⟨t3.trans hth, fun k g src k' hk => ?_⟩, d3, g3, fun k _ => by rw [m3],
        fun g s hh => by rw [m3]; exact hh, by rw [m3, hgs]; simp, r3⟩
      rw [m3] at hk; rw [p3]; exact hmem k g src k' hk
    · rw [ha]
      refine ⟨⟨t3.trans hth, fun k g src k' hk => ?_⟩, d3, fun r hr => by simp [g3 r hr],
        fun k _ => by simp [m3], fun g s hh => by simp [m3, hh], by simp [m3, hgs],
        fun h1 h2 => by simp [r3 h1 h2]⟩
      simp only [warn_members, m3] at hk
      simp only [warn_props, p3]; exact hmem k g src k' hk
    · rw [ha]
      obtain ⟨s1, s2, s3, s4, s5⟩ := setProp_frame env st3 k' val hp
      refine ⟨⟨s1.trans (t3.trans hth), fun k g src k'' hk => ?_⟩, s3.trans d3,
        fun r hr => s5 r (g3 r hr), fun k _ => by rw [s2, m3],
        fun g s hh => by rw [s2, m3]; exact hh, by rw [s2, m3, hgs]; simp,
        fun h1 h2 => s5 _ (r3 h1 h2)⟩
      rw [s2, m3] at hk
      exact ⟨(hmem k g src k'' hk).1, s4⟩
  have fresh : (st.members km.1 = none ∨ ∃ v, st.members km.1 = some (.value v)) →
      MethodsOk (st3.assign env km.1 val) ∧
      (st3.assign env km.1 val)._data = st._data ∧
      (∀ r, r ∈ st.reports → r ∈ (st3.assign env km.1 val).reports) ∧
      (∀ k, k ≠ km.1 → (st3.assign env km.1 val).members k = st.members k) ∧
      (∀ g s, st.members km.1 = some (.accessor g s) →
        (st3.assign env km.1 val).members km.1 = some (.accessor g s)) ∧
      ((st3.assign env km.1 val).members km.1 ≠ none) ∧
      (opts.hasProp km.1 = true → env.production = false →
        Report.methodIsProp km.1 ∈ (st3.assign env km.1 val).reports) := by
    intro hk
    have ha : st3.assign env km.1 val =
        { st3 with members := Function.update st3.members km.1 (some (.value val)) } := by
      unfold State.assign; rw [m3]
      rcases hk with hk | ⟨v, hk⟩ <;> rw [hk]
    rw [ha]
    refine ⟨⟨t3.trans hth, ?_⟩, d3, g3, ?_, ?_, ?_, r3⟩
    · intro k g src k' hkk
      by_cases hkeq : k = km.1
      · subst hkeq; simp at hkk
      · simp only [Function.update_noteq hkeq, m3] at hkk
        simp only [p3]; exact hmem k g src k' hkk
    · intro k hkk; simp [Function.update_noteq hkk, m3]
    · intro g s hx
      rcases hk with hk | ⟨v, hk⟩ <;> rw [hk] at hx <;> cases hx
    · simp
  have hcases : st.members km.1 = none ∨ (∃ v, st.members km.1 = some (.value v)) ∨
      ∃ g s, st.members km.1 = some (.accessor g s) := by
    cases hk : st.members km.1 with
    | none => exact Or.inl rfl
    | some m =>
      cases m with
      | value v => exact Or.inr (Or.inl ⟨v, rfl⟩)
      | accessor g s => exact Or.inr (Or.inr ⟨g, s, rfl⟩)
  rcases hcases with hk | hk | ⟨g, s, hk⟩
  · exact fresh (Or.inl hk)
  · exact fresh (Or.inr hk)
  · refine stay ?_ ⟨g, s, hk⟩
    cases s with
    | proxySetter src k' =>
      obtain ⟨hsrc, hp⟩ := hmem km.1 g src k' hk
      subst hsrc
      right; right
      exact ⟨k', by unfold State.assign; rw [m3, hk], by rw [p3]; exact hp⟩
    | user f => left; unfold State.assign; rw [m3, hk]
    | noop => left; unfold State.assign; rw [m3, hk]
    | warnNoSetter k' => right; left; exact ⟨k', by unfold State.assign; rw [m3, hk]⟩

theorem initMethods_spec (env : Env) (opts : Options) (ms : List (String × Option Nat)) :
    ∀ st : State, MethodsOk st →
    MethodsOk (initMethods env opts ms st) ∧
    (initMethods env opts ms st)._data = st._data ∧
    (∀ r, r ∈ st.reports → r ∈ (initMethods env opts ms st).reports) ∧
    (∀ k, k ∉ ms.map Prod.fst → (initMethods env opts ms st).members k = st.members k) ∧
    (∀ k g s, st.members k = some (.accessor g s) →
      (initMethods env opts ms st).members k = some (.accessor g s)) ∧
    (∀ k, st.members k ≠ none → (initMethods env opts ms st).members k ≠ none) ∧
    (∀ k, k ∈ ms.map Prod.fst → (initMethods env opts ms st).members k ≠ none) ∧
    (∀ k, k ∈ ms.map Prod.fst → opts.hasProp k = true → env.production = false →
      Report.methodIsProp k ∈ (initMethods env opts ms st).reports) := by
  unfold initMethods
  induction ms with
  | nil => intro st h; simp [h]
  | cons x xs ih =>
    intro st h
    obtain ⟨a1, a2, a3, a4, a5, a6, a7⟩ := initMethodsStep_spec env opts st x h
    obtain ⟨b1, b2, b3, b4, b5, b6, b7, b8⟩ := ih (initMethodsStep env opts st x) a1
    simp only [List.foldl_cons]
    have mono : ∀ k, st.members k ≠ none → (initMethodsStep env opts st x).members k ≠ none := by
      intro k hk
      by_cases hkx : k = x.1
      · rw [hkx]; exact a6
      · rw [a4 k hkx]; exact hk
    refine ⟨b1, b2.trans a2, fun r hr => b3 r (a3 r hr), ?_, ?_, ?_, ?_, ?_⟩
    · intro k hk
      simp only [List.map_cons, List.mem_cons, not_or] at hk
      rw [b4 k hk.2, a4 k hk.1]
    · intro k g s hk
      apply b5
      by_cases hkx : k = x.1
      · rw [hkx]; rw [hkx] at hk; exact a5 g s hk
      · rw [a4 k hkx]; exact hk
    · intro k hk; exact b6 k (mono k hk)
    · intro k hk
      simp only [List.map_cons, List.mem_cons] at hk
      rcases hk with hk | hk
      · rw [hk]; exact b6 _ a6
      · exact b7 k hk
    · intro k hk hp hd
      simp only [List.map_cons, List.mem_cons] at hk
      rcases hk with hk | hk
      · rw [hk]; rw [hk] at hp; exact b3 _ (a7 hp hd)
      · exact b8 k hk hp hd

theorem assign_internal (env : Env) (st : State) (key : String) (val : Scalar) :
    (st.assign env key val).internal = st.internal := by
  unfold State.assign
  split
  · unfold State.setProp
    split
    · rfl
    · split
      · rfl
      · split <;> rfl
  · unfold State.setDatum
    split <;> rfl
  · rfl
  · rfl
  · rfl
  · rfl

theorem initMethodsStep_internal (env : Env) (opts : Options) (st : State)
    (km : String × Option Nat) :
    (initMethodsStep env opts st km).internal = st.internal := by
  unfold initMethodsStep
  split
  · rfl
  · dsimp only
    rw [assign_internal]
    split_ifs <;> simp [State.devWarn, State.warn] <;> split_ifs <;> rfl

theorem initMethods_internal (env : Env) (opts : Options) (ms : List (String × Option Nat)) :
    ∀ st : State, (initMethods env opts ms st).internal = st.internal := by
  unfold initMethods
  induction ms with
  | nil => intro st; rfl
  | cons x xs ih =>
    intro st
    simp only [List.foldl_cons]
    rw [ih, initMethodsStep_internal]

theorem initDataStep_spec (env : Env) (opts : Options) (st : State) (key : String) :
    (initDataStep env opts st key).thrown = st.thrown ∧
    (initDataStep env opts st key)._data = st._data ∧
    (∀ r, r ∈ st.reports → r ∈ (initDataStep env opts st key).reports) ∧
    (∀ k, (initDataStep env opts st key).members k =
      if k = key ∧ opts.hasProp key = false ∧ isReserved key = false
      then some (proxyMember .data key) else st.members k) ∧
    (opts.hasMethod key = true → env.production = false →
      Report.methodIsData key ∈ (initDataStep env opts st key).reports) ∧
    (opts.hasProp key = true → env.production = false →
      Report.dataIsProp key ∈ (initDataStep env opts st key).reports) := by
  unfold initDataStep
  set st1 := (if opts.hasMethod key = true then st.devWarn env (.methodIsData key) else st)
    with hst1
  have e1 : st1.members = st.members ∧ st1.thrown = st.thrown ∧ st1._data = st._data ∧
      (∀ r, r ∈ st.reports → r ∈ st1.reports) ∧
      (opts.hasMethod key = true → env.production = false →
        Report.methodIsData key ∈ st1.reports) := by
    rw [hst1]; split
    · exact ⟨by simp, by simp, by simp, fun r hr => devWarn_grows _ _ _ r hr,
        fun _ hp => devWarn_mem _ _ _ hp⟩
    · rename_i hn
      exact ⟨rfl, rfl, rfl, fun r hr => hr, fun hp => absurd hp hn⟩
  clear_value st1
  obtain ⟨m1, t1, d1, g1, r1⟩ := e1
  by_cases hp : opts.hasProp key = true
  · rw [if_pos hp]
    refine ⟨by simp [t1], by simp [d1], fun r hr => devWarn_grows _ _ _ r (g1 r hr), ?_,
      fun hm hd => devWarn_grows _ _ _ _ (r1 hm hd), fun _ hd => devWarn_mem _ _ _ hd⟩
    intro k; simp [hp, m1]
  · rw [if_neg hp]
    have hp2 : opts.hasProp key = false := by simpa using hp
    by_cases hr : isReserved key = true
    · simp only [hr, Bool.not_true, Bool.false_eq_true, if_false]
      refine ⟨t1, d1, g1, ?_, r1, fun h => absurd h hp⟩
      intro k; simp [hr, m1]
    · have hr2 : isReserved key = false := by simpa using hr
      simp only [hr2, Bool.not_false, if_true]
      refine ⟨t1, d1, g1, ?_, r1, fun h => absurd h hp⟩
      intro k
      by_cases hk : k = key
      · subst hk; simp [proxy, State.define, hp2, hr2, proxyMember]
      · simp [proxy, State.define, hk, Function.update_noteq hk, m1]

theorem initData_fold (env : Env) (opts : Options) (keys : List String) :
    ∀ st : State,
    (keys.foldl (initDataStep env opts) st).thrown = st.thrown ∧
    (keys.foldl (initDataStep env opts) st)._data = st._data ∧
    (∀ r, r ∈ st.reports → r ∈ (keys.foldl (initDataStep env opts) st).reports) ∧
    (∀ k, (keys.foldl (initDataStep env opts) st).members k =
      if k ∈ keys ∧ opts.hasProp k = false ∧ isReserved k = false
      then some (proxyMember .data k) else st.members k) ∧
    (∀ k, k ∈ keys → opts.hasMethod k = true → env.production = false →
      Report.methodIsData k ∈ (keys.foldl (initDataStep env opts) st).reports) ∧
    (∀ k, k ∈ keys → opts.hasProp k = true → env.production = false →
      Report.dataIsProp k ∈ (keys.foldl (initDataStep env opts) st).reports) := by
  induction keys with
  | nil => intro st; simp
  | cons x xs ih =>
    intro st
    obtain ⟨a1, a2, a3, a4, a5, a6⟩ := initDataStep_spec env opts st x
    obtain ⟨b1, b2, b3, b4, b5, b6⟩ := ih (initDataStep env opts st x)
    simp only [List.foldl_cons]
    refine ⟨b1.trans a1, b2.trans a2, fun r hr => b3 r (a3 r hr), ?_, ?_, ?_⟩
    · intro k
      rw [b4 k, a4 k]
      by_cases hk : k = x
      · subst hk
        by_cases hc : opts.hasProp k = false ∧ isReserved k = false
        · simp [hc]
        · have n1 : ¬ (k ∈ xs ∧ opts.hasProp k = false ∧ isReserved k = false) :=
            fun h => hc h.2
          have n2 : ¬ (k = k ∧ opts.hasProp k = false ∧ isReserved k = false) :=
            fun h => hc h.2
          have n3 : ¬ ((k ∈ k :: xs) ∧ opts.hasProp k = false ∧ isReserved k = false) :=
            fun h => hc h.2
          rw [if_neg n1, if_neg n2, if_neg n3]
      · simp [hk]
    · intro k hk hm hd
      rcases List.mem_cons.1 hk with hk | hk
      · rw [hk]; rw [hk] at hm; exact b3 _ (a5 hm hd)
      · exact b5 k hk hm hd
    · intro k hk hp hd
      rcases List.mem_cons.1 hk with hk | hk
      · rw [hk]; rw [hk] at hp; exact b3 _ (a6 hp hd)
      · exact b6 k hk hp hd

theorem initData_eq (env : Env) (opts : Options) (d : DataOption) (st : State) :
    ∃ st2 : State, st2.thrown = st.thrown ∧ st2.members = st.members ∧
      st2._data = d.resolved ∧ st2.reports = st.reports ∧
      st2._props = st._props ∧ st2._computedWatchers = st._computedWatchers ∧
      st2.internal = "_data" :: st.internal ∧
      initData env opts d st =
        d.keys.reverse.foldl (initDataStep env opts)
          (if isPlainObject d.resolved then st2 else st2.devWarn env .dataNotObject) := by
  cases d with
  | factory f =>
    cases hres : f.result with
    | ok v =>
      refine ⟨{ st with world := (getData f st.uid st.world).world,
                        handled := st.handled ++ (getData f st.uid st.world).handled,
                        _data := v, internal := "_data" :: st.internal },
        rfl, rfl, ?_, rfl, rfl, rfl, rfl, ?_⟩
      · simp [DataOption.resolved, hres]
      · simp only [initData, DataOption.keys, DataOption.resolved, hres, getData]
        cases hp : isPlainObject v <;> simp [JsVal.keys]
    | error e =>
      refine ⟨{ st with world := (getData f st.uid st.world).world,
                        handled := st.handled ++ (getData f st.uid st.world).handled,
                        _data := .plain [], internal := "_data" :: st.internal },
        rfl, rfl, ?_, rfl, rfl, rfl, rfl, ?_⟩
      · simp [DataOption.resolved, hres]
      · simp only [initData, DataOption.keys, DataOption.resolved, hres, getData]
        simp [isPlainObject]
  | value v =>
    obtain ⟨X, hX⟩ : ∃ X, X = (if v.truthy then v else JsVal.plain []) := ⟨_, rfl⟩
    refine ⟨{ st with _data := X, internal := "_data" :: st.internal },
      rfl, rfl, ?_, rfl, rfl, rfl, rfl, ?_⟩
    · simp [DataOption.resolved, hX]
    · simp only [initData, DataOption.keys, DataOption.resolved, ← hX]
      cases hp : isPlainObject X <;> simp [JsVal.keys]

theorem initData_spec (env : Env) (opts : Options) (d : DataOption) (st : State) :
    (initData env opts d st).thrown = st.thrown ∧
    (initData env opts d st)._data = d.resolved ∧
    (∀ r, r ∈ st.reports → r ∈ (initData env opts d st).reports) ∧
    (∀ k, (initData env opts d st).members k =
      if k ∈ d.keys ∧ opts.hasProp k = false ∧ isReserved k = false
      then some (proxyMember .data k) else st.members k) ∧
    (∀ k, k ∈ d.keys → opts.hasMethod k = true → env.production = false →
      Report.methodIsData k ∈ (initData env opts d st).reports) ∧
    (∀ k, k ∈ d.keys → opts.hasProp k = true → env.production = false →
      Report.dataIsProp k ∈ (initData env opts d st).reports) := by
  obtain ⟨st2, t2, m2, d2, r2, _, _, _, heq⟩ := initData_eq env opts d st
  rw [heq]
  set st3 := (if isPlainObject d.resolved then st2 else st2.devWarn env .dataNotObject)
    with hst3
  have e3 : st3.thrown = st.thrown ∧ st3.members = st.members ∧ st3._data = d.resolved ∧
      ∀ r, r ∈ st.reports → r ∈ st3.reports := by
    rw [hst3]; split
    · exact ⟨t2, m2, d2, fun r hr => by rw [r2]; exact hr⟩
    · exact ⟨by simp [t2], by simp [m2], by simp [d2],
        fun r hr => devWarn_grows _ _ _ r (by rw [r2]; exact hr)⟩
  clear_value st3
  obtain ⟨a1, a2, a3, a4, a5, a6⟩ := initData_fold env opts d.keys.reverse st3
  refine ⟨a1.trans e3.1, a2.trans e3.2.2.1, fun r hr => a3 r (e3.2.2.2 r hr), ?_, ?_, ?_⟩
  · intro k; rw [a4 k, e3.2.1]; simp only [List.mem_reverse]
  · intro k hk; exact a5 k (List.mem_reverse.2 hk)
  · intro k hk; exact a6 k (List.mem_reverse.2 hk)

theorem jsIn_of_isObject (key : String) (v : JsVal) (h : v.isObject = true) :
    ∃ b, jsIn key v = .ok b := by
  cases v with
  | prim p => simp [JsVal.isObject] at h
  | array items => exact ⟨_, rfl⟩
  | plain fields => exact ⟨_, rfl⟩

theorem defineComputed_frame (env : Env) (st : State) (key : String) (u : UserDef) :
    (defineComputed env st key u).thrown = st.thrown ∧
    (defineComputed env st key u)._data = st._data ∧
    (defineComputed env st key u).reports = st.reports ∧
    (defineComputed env st key u)._computedWatchers = st._computedWatchers ∧
    (∀ k, k ≠ key → (defineComputed env st key u).members k = st.members k) ∧
    (defineComputed env st key u).members key ≠ none := by
  unfold defineComputed State.define
  refine ⟨rfl, rfl, rfl, rfl, ?_, ?_⟩
  · intro k hk; simp [Function.update_noteq hk]
  · simp

theorem hasKey_of_members (st : State) (k : String) (h : st.members k ≠ none) :
    st.hasKey k = true :=
  (hasKey_iff st k).2 (Or.inl h)

theorem initDataStep_internal (env : Env) (opts : Options) (st : State) (key : String) :
    (initDataStep env opts st key).internal = st.internal := by
  unfold initDataStep
  dsimp only
  split_ifs <;> simp [State.devWarn, State.warn, proxy, State.define] <;> split_ifs <;> rfl

theorem initData_internal (env : Env) (opts : Options) (d : DataOption) (st : State) :
    (initData env opts d st).internal = "_data" :: st.internal := by
  obtain ⟨st2, _, _, _, _, _, _, i2, heq⟩ := initData_eq env opts d st
  rw [heq]
  have hfold : ∀ (keys : List String) (s : State),
      (keys.foldl (initDataStep env opts) s).internal = s.internal := by
    intro keys
    induction keys with
    | nil => intro s; rfl
    | cons x xs ih => intro s; simp only [List.foldl_cons]; rw [ih, initDataStep_internal]
  rw [hfold]
  split
  · exact i2
  · simp only [State.devWarn, State.warn]
    split <;> exact i2

theorem initComputedStep_spec (env : Env) (opts : Options) (st : State)
    (ku : String × UserDef) (ht : st.thrown = none) (ho : st._data.isObject = true) :
    (initComputedStep env opts st ku).thrown = none ∧
    (initComputedStep env opts st ku)._data = st._data ∧
    (∀ r, r ∈ st.reports → r ∈ (initComputedStep env opts st ku).reports) ∧
    (∀ k, k ≠ ku.1 → (initComputedStep env opts st ku).members k = st.members k) ∧
    (∀ k, st.hasKey k = true → (initComputedStep env opts st ku).members k = st.members k) ∧
    (initComputedStep env opts st ku).hasKey ku.1 = true ∧
    (st.hasKey ku.1 = true → env.production = false →
      (jsIn ku.1 st._data = .ok true →
        Report.computedIsData ku.1 ∈ (initComputedStep env opts st ku).reports) ∧
      (jsIn ku.1 st._data = .ok false → opts.hasProp ku.1 = true →
        Report.computedIsProp ku.1 ∈ (initComputedStep env opts st ku).reports)) ∧
    (initComputedStep env opts st ku).internal = st.internal := by
  unfold initComputedStep
  simp only [ht, Option.isSome_none, Bool.false_eq_true, if_false]
  set st1 := (if ku.2.getter.isNone = true then st.devWarn env (.getterMissing ku.1) else st)
    with hst1
  have e1 : st1.members = st.members ∧ st1.thrown = st.thrown ∧ st1._data = st._data ∧
      (∀ r, r ∈ st.reports → r ∈ st1.reports) ∧ st1.internal = st.internal := by
    rw [hst1]; split
    · refine ⟨by simp, by simp, by simp, fun r hr => devWarn_grows _ _ _ r hr, ?_⟩
      simp only [State.devWarn, State.warn]; split <;> rfl
    · exact ⟨rfl, rfl, rfl, fun r hr => hr, rfl⟩
  clear_value st1
  generalize hw : (⟨(match ku.2.getter with
              | some f => Fn.user f
              | none => Fn.noop), Fn.noop, computedWatcherOptions⟩ : WatcherRec) = wrec
  set st2 : State := (if (!env.isServerRendering) = true then
        { st1 with _computedWatchers := some (setKey (st1._computedWatchers.getD []) ku.1 wrec) }
      else st1) with hst2
  have e2 : st2.members = st.members ∧ st2.thrown = st.thrown ∧ st2._data = st._data ∧
      (∀ r, r ∈ st.reports → r ∈ st2.reports) ∧ st2.internal = st.internal := by
    rw [hst2]; split
    · exact e1
    · exact e1
  clear_value st2
  obtain ⟨m2, t2, d2, g2, i2⟩ := e2
  have hkey : st2.hasKey ku.1 = st.hasKey ku.1 := hasKey_congr st st2 ku.1 m2 i2
  rw [hkey]
  cases hk : st.hasKey ku.1 with
  | false =>
    simp only [Bool.not_false, if_true]
    obtain ⟨c1, c2, c3, _, c5, c6⟩ := defineComputed_frame env st2 ku.1 ku.2
    have ci : (defineComputed env st2 ku.1 ku.2).internal = st.internal := by
      rw [← i2]; unfold defineComputed State.define; rfl
    refine ⟨c1.trans (t2.trans ht), c2.trans d2, fun r hr => by rw [c3]; exact g2 r hr, ?_, ?_,
      hasKey_of_members _ _ c6, fun h => by simp at h, ci⟩
    · intro k hkk; rw [c5 k hkk, m2]
    · intro k hkn
      have : k ≠ ku.1 := fun h => by rw [h, hk] at hkn; simp at hkn
      rw [c5 k this, m2]
  | true =>
    simp only [Bool.not_true, Bool.false_eq_true, if_false]
    have hk2 : st2.hasKey ku.1 = true := by rw [hkey]; exact hk
    cases hprod : env.production with
    | true =>
      simp only [Bool.not_true, Bool.false_eq_true, if_false]
      exact ⟨t2.trans ht, d2, g2, fun k _ => by rw [m2], fun k _ => by rw [m2],
        hk2, fun _ h => by simp at h, i2⟩
    | false =>
      simp only [Bool.not_false, if_true]
      obtain ⟨b, hb⟩ := jsIn_of_isObject ku.1 st._data ho
      rw [d2, hb]
      cases b with
      | true =>
        simp only
        refine ⟨t2.trans ht, d2, fun r hr => by simp [g2 r hr], fun k _ => by simp [m2],
          fun k _ => by simp [m2], by simpa using hk2,
          fun _ _ => ⟨fun _ => by simp, fun h => ?_⟩, i2⟩
        simp at h
      | false =>
        simp only
        by_cases hp : opts.hasProp ku.1 = true
        · rw [if_pos hp]
          refine ⟨t2.trans ht, d2, fun r hr => by simp [g2 r hr], fun k _ => by simp [m2],
            fun k _ => by simp [m2], by simpa using hk2,
            fun _ _ => ⟨fun h => ?_, fun _ _ => by simp⟩, i2⟩
          simp at h
        · rw [if_neg hp]
          refine ⟨t2.trans ht, d2, g2, fun k _ => by rw [m2], fun k _ => by rw [m2],
            hk2, fun _ _ => ⟨fun h => ?_, fun _ h => absurd h hp⟩, i2⟩
          simp at h

theorem initComputedStep_hasKey (env : Env) (opts : Options) (st : State)
    (ku : String × UserDef) (ht : st.thrown = none) (ho : st._data.isObject = true)
    (k : String) (h : st.hasKey k = true) :
    (initComputedStep env opts st ku).hasKey k = true := by
  obtain ⟨_, _, _, _, a5, _, _, a8⟩ := initComputedStep_spec env opts st ku ht ho
  rw [hasKey_iff, a5 k h, a8]
  exact (hasKey_iff st k).1 h

theorem initComputed_fold (env : Env) (opts : Options) (cs : List (String × UserDef)) :
    ∀ st : State, st.thrown = none → st._data.isObject = true →
    (cs.foldl (initComputedStep env opts) st).thrown = none ∧
    (cs.foldl (initComputedStep env opts) st)._data = st._data ∧
    (∀ r, r ∈ st.reports → r ∈ (cs.foldl (initComputedStep env opts) st).reports) ∧
    (∀ k, k ∉ cs.map Prod.fst →
      (cs.foldl (initComputedStep env opts) st).members k = st.members k) ∧
    (∀ k, st.hasKey k = true →
      (cs.foldl (initComputedStep env opts) st).members k = st.members k) ∧
    (∀ k, k ∈ cs.map Prod.fst →
      (cs.foldl (initComputedStep env opts) st).hasKey k = true) ∧
    (∀ k, k ∈ cs.map Prod.fst → st.hasKey k = true → env.production = false →
      (jsIn k st._data = .ok true →
        Report.computedIsData k ∈ (cs.foldl (initComputedStep env opts) st).reports) ∧
      (jsIn k st._data = .ok false → opts.hasProp k = true →
        Report.computedIsProp k ∈ (cs.foldl (initComputedStep env opts) st).reports)) ∧
    (cs.foldl (initComputedStep env opts) st).internal = st.internal := by
  induction cs with
  | nil => intro st ht _; simp [ht]
  | cons x xs ih =>
    intro st ht ho
    obtain ⟨a1, a2, a3, a4, a5, a6, a7, a8⟩ := initComputedStep_spec env opts st x ht ho
    have amono := initComputedStep_hasKey env opts st x ht ho
    obtain ⟨b1, b2, b3, b4, b5, b6, b7, b8⟩ :=
      ih (initComputedStep env opts st x) a1 (by rw [a2]; exact ho)
    simp only [List.foldl_cons]
    have bmono : ∀ k, (initComputedStep env opts st x).hasKey k = true →
        (xs.foldl (initComputedStep env opts) (initComputedStep env opts st x)).hasKey k
          = true := by
      intro k hk
      rw [hasKey_iff, b5 k hk, b8]
      exact (hasKey_iff _ k).1 hk
    refine ⟨b1, b2.trans a2, fun r hr => b3 r (a3 r hr), ?_, ?_, ?_, ?_, b8.trans a8⟩
    · intro k hk
      simp only [List.map_cons, List.mem_cons, not_or] at hk
      rw [b4 k hk.2, a4 k hk.1]
    · intro k hk
      rw [b5 k (amono k hk), a5 k hk]
    · intro k hk
      simp only [List.map_cons, List.mem_cons] at hk
      rcases hk with hk | hk
      · rw [hk]; exact bmono _ a6
      · exact b6 k hk
    · intro k hk hm hd
      simp only [List.map_cons, List.mem_cons] at hk
      by_cases hkx : k = x.1
      · rw [hkx]; rw [hkx] at hm
        obtain ⟨c1, c2⟩ := a7 hm hd
        exact ⟨fun h => b3 _ (c1 h), fun h hp => b3 _ (c2 h hp)⟩
      · have hk2 : k ∈ xs.map Prod.fst := by
          rcases hk with hk | hk
          · exact absurd hk hkx
          · simpa using hk
        have := b7 k hk2 (amono k hm) hd
        rw [a2] at this
        exact this

theorem initComputed_spec (env : Env) (opts : Options) (cs : List (String × UserDef))
    (st : State) (ht : st.thrown = none) (ho : st._data.isObject = true) :
    (initComputed env opts cs st).thrown = none ∧
    (initComputed env opts cs st)._data = st._data ∧
    (∀ r, r ∈ st.reports → r ∈ (initComputed env opts cs st).reports) ∧
    (∀ k, k ∉ cs.map Prod.fst → (initComputed env opts cs st).members k = st.members k) ∧
    (∀ k, st.hasKey k = true → (initComputed env opts cs st).members k = st.members k) ∧
    (∀ k, k ∈ cs.map Prod.fst → (initComputed env opts cs st).hasKey k = true) ∧
    (∀ k, k ∈ cs.map Prod.fst → st.hasKey k = true → env.production = false →
      (jsIn k st._data = .ok true →
        Report.computedIsData k ∈ (initComputed env opts cs st).reports) ∧
      (jsIn k st._data = .ok false → opts.hasProp k = true →
        Report.computedIsProp k ∈ (initComputed env opts cs st).reports)) := by
  unfold initComputed
  set s1 : State :=
    { st with _computedWatchers := some [], internal := "_computedWatchers" :: st.internal }
    with hs1
  have hmono : ∀ k, st.hasKey k = true → s1.hasKey k = true := by
    intro k hk
    rw [hasKey_iff] at hk ⊢
    rcases hk with hk | hk
    · exact Or.inl hk
    · exact Or.inr (List.mem_cons_of_mem _ hk)
  obtain ⟨b1, b2, b3, b4, b5, b6, b7, _⟩ := initComputed_fold env opts cs s1 ht ho
  exact ⟨b1, b2, b3, b4, fun k hk => b5 k (hmono k hk), b6,
    fun k hk hm hd => b7 k hk (hmono k hm) hd⟩

theorem initState_spec (env : Env) (opts : Options) (st0 : State)
    (hstart : Startable opts st0) (hobj : opts.dataObject = true) :
    (initState env opts st0).thrown = none ∧
    (∀ k, opts.hasProp k = true →
      ((st0.hasKey k = false ∧ k ≠ "_watchers" ∧ k ≠ "_props") ∨
        st0.members k = some (proxyMember .props k)) →
      (initState env opts st0).members k = some (proxyMember .props k)) ∧
    (∀ k, opts.hasProp k = false → k ∈ opts.dataKeys → isReserved k = false →
      (initState env opts st0).members k = some (proxyMember .data k)) ∧
    (env.production = false →
      (∀ k, opts.hasProp k = true → k ∈ opts.dataKeys →
        Report.dataIsProp k ∈ (initState env opts st0).reports) ∧
      (∀ k, opts.hasProp k = true → opts.hasMethod k = true →
        Report.methodIsProp k ∈ (initState env opts st0).reports) ∧
      (∀ k, opts.hasMethod k = true → k ∈ opts.dataKeys →
        Report.methodIsData k ∈ (initState env opts st0).reports) ∧
      (∀ k, k ∈ opts.computedKeys → opts.hasProp k = true →
        Report.computedIsData k ∈ (initState env opts st0).reports ∨
        Report.computedIsProp k ∈ (initState env opts st0).reports) ∧
      (∀ k, k ∈ opts.computedKeys → k ∈ opts.dataKeys → isReserved k = false →
        Report.computedIsData k ∈ (initState env opts st0).reports)) ∧
    (initState env opts st0)._data =
      (match opts.dataTruthy with
        | some d => d.resolved
        | none => .plain []) := by
  obtain ⟨ht, hacc⟩ := hstart
  unfold initState
  dsimp only
  set s0 : State := { st0 with internal := "_watchers" :: st0.internal } with hs0
  have hs0m : s0.members = st0.members := rfl
  have hs0k : ∀ k, s0.hasKey k = false ↔ (st0.hasKey k = false ∧ k ≠ "_watchers") := by
    intro k
    rw [hasKey_false_iff, hasKey_false_iff]
    simp only [hs0, List.mem_cons, not_or]
    tauto
  have hs0t : s0.thrown = none := ht
  clear_value s0
  set st1 := (match opts.props with
    | some ps => initProps env ps s0
    | none => s0) with hst1
  have f1 : MethodsOk st1 ∧
      (∀ k, opts.hasProp k = true →
        ((st0.hasKey k = false ∧ k ≠ "_watchers" ∧ k ≠ "_props") ∨
          st0.members k = some (proxyMember .props k)) →
        st1.members k = some (proxyMember .props k)) ∧
      (∀ k, opts.hasProp k = true → st1.hasKey k = true) := by
    rw [hst1]
    cases hp : opts.props with
    | none =>
      simp only [Options.hasProp, hp]
      refine ⟨⟨hs0t, fun k g src k' hk => ?_⟩, fun k h => by simp at h, fun k h => by simp at h⟩
      rw [hs0m] at hk
      exact absurd hp (hacc k g src k' hk).2
    | some ps =>
      obtain ⟨a1, _, a3, _, a6, a5⟩ := initProps_spec env ps s0
      simp only [Options.hasProp, hp]
      refine ⟨⟨a1.trans hs0t, fun k g src k' hk => ?_⟩, fun k hk hc => ?_, fun k hk => ?_⟩
      · rw [a5 k] at hk
        split at hk
        · simp only [proxyMember, Option.some.injEq, Member.accessor.injEq,
            Setter.proxySetter.injEq] at hk
          exact ⟨hk.2.1.symm, a3⟩
        · rw [hs0m] at hk
          exact ⟨(hacc k g src k' hk).1, a3⟩
      · have hk2 : k ∈ ps := by simpa using hk
        rw [a5 k]
        rcases hc with hc | hc
        · rw [if_pos ⟨hk2, (hs0k k).2 ⟨hc.1, hc.2.1⟩, hc.2.2⟩]
        · rw [hs0m, hc]; simp
      · have hk2 : k ∈ ps := by simpa using hk
        rw [hasKey_iff, a5 k, a6]
        by_cases hc : s0.hasKey k = false ∧ k ≠ "_props"
        · left; rw [if_pos ⟨hk2, hc⟩]; simp
        · rw [if_neg (fun h => hc h.2)]
          by_cases hpk : k = "_props"
          · right; rw [hpk]; exact List.mem_cons_self _ _
          · have hks : s0.hasKey k = true := by
              cases hh : s0.hasKey k
              · exact absurd ⟨hh, hpk⟩ hc
              · rfl
            rcases (hasKey_iff s0 k).1 hks with h | h
            · exact Or.inl h
            · exact Or.inr (List.mem_cons_of_mem _ h)
  clear_value st1
  obtain ⟨ok1, m1, n1⟩ := f1
  set st2 := (match opts.methods with
    | some ms => initMethods env opts ms st1
    | none => st1) with hst2
  have f2 : st2.thrown = none ∧
      (∀ k, opts.hasProp k = true →
        ((st0.hasKey k = false ∧ k ≠ "_watchers" ∧ k ≠ "_props") ∨
          st0.members k = some (proxyMember .props k)) →
        st2.members k = some (proxyMember .props k)) ∧
      (∀ k, opts.hasProp k = true → st2.hasKey k = true) ∧
      (∀ k, opts.hasMethod k = true → opts.hasProp k = true → env.production = false →
        Report.methodIsProp k ∈ st2.reports) := by
    rw [hst2]
    cases hm : opts.methods with
    | none =>
      simp only [Options.hasMethod, hm]
      exact ⟨ok1.1, m1, n1, fun k h => by simp at h⟩
    | some ms =>
      obtain ⟨b1, _, _, _, b5, b6, _, b8⟩ := initMethods_spec env opts ms st1 ok1
      simp only [Options.hasMethod, hm]
      refine ⟨b1.1, fun k hk hc => b5 k _ _ (m1 k hk hc), fun k hk => ?_,
        fun k hk hp hd => ?_⟩
      · rw [hasKey_iff, initMethods_internal]
        rcases (hasKey_iff st1 k).1 (n1 k hk) with h | h
        · exact Or.inl (b6 k h)
        · exact Or.inr h
      · exact b8 k (by simpa using hk) hp hd
  clear_value st2
  obtain ⟨t2, m2, n2, r2⟩ := f2
  set st3 := (if st2.thrown.isSome = true then st2 else
    match opts.dataTruthy with
    | some d => initData env opts d st2
    | none => { st2 with _data := .plain [], internal := "_data" :: st2.internal })
    with hst3
  have f3 : st3.thrown = none ∧
      st3._data.isObject = true ∧
      (∀ k, k ∈ opts.dataKeys → jsIn k st3._data = .ok true) ∧
      (∀ r, r ∈ st2.reports → r ∈ st3.reports) ∧
      (∀ k, st3.members k =
        if k ∈ opts.dataKeys ∧ opts.hasProp k = false ∧ isReserved k = false
        then some (proxyMember .data k) else st2.members k) ∧
      (∀ k, k ∈ opts.dataKeys → opts.hasMethod k = true → env.production = false →
        Report.methodIsData k ∈ st3.reports) ∧
      (∀ k, k ∈ opts.dataKeys → opts.hasProp k = true → env.production = false →
        Report.dataIsProp k ∈ st3.reports) ∧
      st3.internal = "_data" :: st2.internal ∧
      st3._data = (match opts.dataTruthy with
        | some d => d.resolved
        | none => .plain []) := by
    rw [hst3, if_neg (by simp [t2])]
    cases hd : opts.dataTruthy with
    | none =>
      simp only [Options.dataKeys, hd]
      exact ⟨t2, rfl, fun k h => by simp at h, fun r hr => hr, fun k => by simp,
        fun k h => by simp at h, fun k h => by simp at h, by first | rfl | trivial,
        by first | rfl | trivial⟩
    | some d =>
      obtain ⟨c1, c2, c3, c4, c5, c6⟩ := initData_spec env opts d st2
      simp only [Options.dataKeys, hd]
      have hpl : d.resolved.isObject = true := by
        simpa [Options.dataObject, hd] using hobj
      refine ⟨c1.trans t2, by rw [c2]; exact hpl, ?_, c3, c4, c5, c6,
        initData_internal env opts d st2, c2⟩
      intro k hk
      rw [c2]
      cases hr : d.resolved with
      | prim p => simp [DataOption.keys, hr, isPlainObject] at hk
      | array items => simp [DataOption.keys, hr, isPlainObject] at hk
      | plain fs =>
        simp only [DataOption.keys, hr, isPlainObject, if_true, JsVal.keys] at hk
        simp [jsIn, hk]
  clear_value st3
  obtain ⟨t3, ho3, hin, g3, m3, r3a, r3b, i3, dd3⟩ := f3
  simp only [t3, Option.isSome_none, Bool.false_eq_true, if_false]
  have hp3 : ∀ k, opts.hasProp k = true →
      ((st0.hasKey k = false ∧ k ≠ "_watchers" ∧ k ≠ "_props") ∨
        st0.members k = some (proxyMember .props k)) →
      st3.members k = some (proxyMember .props k) := by
    intro k hk hc; rw [m3 k, m2 k hk hc]; simp [hk]
  have hn3 : ∀ k, opts.hasProp k = true → st3.hasKey k = true := by
    intro k hk
    rw [hasKey_iff, m3 k, i3]
    simp only [hk, Bool.true_eq_false, false_and, and_false, if_false]
    rcases (hasKey_iff st2 k).1 (n2 k hk) with h | h
    · exact Or.inl h
    · exact Or.inr (List.mem_cons_of_mem _ h)
  have hd3 : ∀ k, opts.hasProp k = false → k ∈ opts.dataKeys → isReserved k = false →
      st3.members k = some (proxyMember .data k) := by
    intro k h1 h2 h3; rw [m3 k]; simp [h1, h2, h3]
  cases hc : opts.computed with
  | none =>
    simp only [Options.computedKeys, hc]
    refine ⟨t3, hp3, hd3, fun hd => ⟨fun k h1 h2 => r3b k h2 h1 hd,
      fun k h1 h2 => g3 _ (r2 k h2 h1 hd), fun k h1 h2 => r3a k h2 h1 hd,
      fun k h => by simp at h, fun k h => by simp at h⟩, dd3⟩
  | some cs =>
    obtain ⟨d1, d2, d3, _, d5, _, d7⟩ :=
      initComputed_spec env opts cs st3 t3 ho3
    simp only [Options.computedKeys, hc]
    refine ⟨d1, fun k hk hcnd => ?_, fun k h1 h2 h3 => ?_, fun hd => ⟨fun k h1 h2 => ?_,
      fun k h1 h2 => ?_, fun k h1 h2 => ?_, fun k h1 h2 => ?_, fun k h1 h2 h3 => ?_⟩,
      d2.trans dd3⟩
    · rw [d5 k (hasKey_of_members _ _ (by rw [hp3 k hk hcnd]; simp)), hp3 k hk hcnd]
    · rw [d5 k (hasKey_of_members _ _ (by rw [hd3 k h1 h2 h3]; simp)), hd3 k h1 h2 h3]
    · exact d3 _ (r3b k h2 h1 hd)
    · exact d3 _ (g3 _ (r2 k h2 h1 hd))
    · exact d3 _ (r3a k h2 h1 hd)
    · obtain ⟨e1, e2⟩ := d7 k h1 (hn3 k h2) hd
      obtain ⟨b, hb⟩ := jsIn_of_isObject k st3._data ho3
      cases b with
      | true => left; exact e1 hb
      | false => right; exact e2 hb h2
    · cases hp : opts.hasProp k with
      | true =>
        obtain ⟨e1, _⟩ := d7 k h1 (hn3 k hp) hd
        exact e1 (hin k h2)
      | false =>
        obtain ⟨e1, _⟩ :=
          d7 k h1 (hasKey_of_members _ _ (by rw [hd3 k hp h2 h3]; simp)) hd
        exact e1 (hin k h2)

theorem startable_fresh (opts : Options) (uid : Nat) (hasParent : Bool) (w : World) :
    Startable opts (State.fresh uid hasParent w) :=
  ⟨rfl, fun k g src k' h => by simp [State.fresh] at h⟩

theorem read_of_props_proxy (st : State) (key : String)
    (h : st.members key = some (proxyMember .props key)) :
    st.read key = (st._props.getD []).lookup key := by
  unfold State.read
  rw [h]
  simp only [proxyMember]
  cases st._props <;> simp

theorem dataKeys_plain (opts : Options) (k : String) (hd : k ∈ opts.dataKeys) :
    ∃ d fields, opts.dataTruthy = some d ∧ d.resolved = .plain fields ∧
      k ∈ fields.map Prod.fst := by
  unfold Options.dataKeys at hd
  cases hdt : opts.dataTruthy with
  | none => simp [hdt] at hd
  | some d =>
    simp only [hdt] at hd
    cases hres : d.resolved with
    | prim p => simp [DataOption.keys, hres, isPlainObject] at hd
    | array items => simp [DataOption.keys, hres, isPlainObject] at hd
    | plain fs =>
      simp only [DataOption.keys, hres, isPlainObject, if_true, JsVal.keys] at hd
      exact ⟨d, fs, rfl, hres, hd⟩

/-- C4 (resolution order props > data > computed), evaluated where it breaks:
(a) a data key with a reserved first character and a computed property of the
same name: `vm._x` is the computed accessor and nothing is reported; (b) in a
production build the prop/data collision is not reported; (c) a prop whose
name is already a member of the instance is not proxied, `vm.foo` stays that
member; likewise a prop named `_props`, the field `initProps` has just
assigned, gets no accessor; (d) with a data factory returning `undefined`,
`initState` ends in a `TypeError` at the prop/computed collision and reports no
collision. -/
theorem C4_resolution_order_counterexample :
    ((initState Env.dev
        ⟨none, none, some (.value (.plain [("_x", .prim (.number 1))])), some [("_x", .fn 0)]⟩
        (State.fresh 0 false World.initial)).members "_x" =
        some (.accessor (.computedGetter "_x") (.warnNoSetter "_x")) ∧
      (initState Env.dev
        ⟨none, none, some (.value (.plain [("_x", .prim (.number 1))])), some [("_x", .fn 0)]⟩
        (State.fresh 0 false World.initial)).reports = []) ∧
    (initState Env.prod
        ⟨some ["foo"], none, some (.value (.plain [("foo", .prim (.number 1))])), none⟩
        (State.fresh 0 false World.initial)).reports = [] ∧
    ((initState Env.dev
        ⟨some ["foo"], none, some (.value (.plain [("foo", .prim (.number 1))])), none⟩
        State.withFoo).members "foo" = some (.value (.function 9)) ∧
      (initState Env.dev ⟨some ["_props"], none, none, some [("_props", .fn 0)]⟩
        (State.fresh 0 false World.initial)).members "_props" = none) ∧
    ((initState Env.dev
        ⟨some ["foo"], none, some (.factory ⟨[], .ok (.prim .undefined)⟩), some [("foo", .fn 0)]⟩
        (State.fresh 0 false World.initial)).thrown = some .typeError ∧
      (initState Env.dev
        ⟨some ["foo"], none, some (.factory ⟨[], .ok (.prim .undefined)⟩), some [("foo", .fn 0)]⟩
        (State.fresh 0 false World.initial)).reports = [.dataNotObject]) := by
  decide

/-- C4 (amended): started from a state without pending exception whose
forwarding setters write to declared props, and with data that is not a
primitive, in any build: a key declared as a prop that is not `in vm` when
`initProps` tests it (not `in vm` at the start and not `_watchers` or `_props`),
or that is already the accessor to `_props`, resolves to the accessor forwarding
to `_props[key]`, whatever data and computed declare, so reading `vm[key]`
yields `vm._props[key]` (no method being named `_props`); a key that is no prop
and is a data key without reserved first character resolves to the accessor
forwarding to `_data[key]`, whatever computed declares, and reading it yields
the data value. In a build with reports the collision of a prop with a data or
computed declaration, and of a data key with a computed declaration, is
reported. -/
theorem C4_resolution_order (env : Env) (opts : Options) (st0 : State) (key : String)
    (hstart : Startable opts st0) (hobj : opts.dataObject = true) :
    (opts.hasProp key = true →
      ((st0.hasKey key = false ∧ key ≠ "_watchers" ∧ key ≠ "_props") ∨
        st0.members key = some (proxyMember .props key)) →
        (initState env opts st0).members key = some (proxyMember .props key) ∧
        (opts.hasMethod "_props" = false →
          (initState env opts st0).read key =
            ((initState env opts st0)._props.getD []).lookup key) ∧
        (env.production = false → (key ∈ opts.dataKeys ∨ key ∈ opts.computedKeys) →
          ∃ r ∈ (initState env opts st0).reports, r.isCollision key = true)) ∧
    (opts.hasProp key = false → key ∈ opts.dataKeys → isReserved key = false →
        (initState env opts st0).members key = some (proxyMember .data key) ∧
        (∃ fields, (initState env opts st0)._data = .plain fields ∧
          key ∈ fields.map Prod.fst ∧
          (initState env opts st0).read key = fields.lookup key) ∧
        (env.production = false → key ∈ opts.computedKeys →
          Report.computedIsData key ∈ (initState env opts st0).reports)) := by
  obtain ⟨_, h2, h3, h4, h5⟩ := initState_spec env opts st0 hstart hobj
  refine ⟨fun hp hc => ⟨h2 key hp hc, fun _ => read_of_props_proxy _ _ (h2 key hp hc),
      fun hdev hk => ?_⟩,
    fun hp hd hr => ⟨h3 key hp hd hr, ?_, fun hdev hc => (h4 hdev).2.2.2.2 key hc hd hr⟩⟩
  · obtain ⟨r1, _, _, r4, _⟩ := h4 hdev
    rcases hk with hk | hk
    · exact ⟨_, r1 key hp hk, by simp [Report.isCollision]⟩
    · rcases r4 key hk hp with h | h
      · exact ⟨_, h, by simp [Report.isCollision]⟩
      · exact ⟨_, h, by simp [Report.isCollision]⟩
  · obtain ⟨d, fields, hdt, hres, hkf⟩ := dataKeys_plain opts key hd
    have hdata : (initState env opts st0)._data = .plain fields := by
      rw [h5, hdt]; exact hres
    refine ⟨fields, hdata, hkf, ?_⟩
    simp only [State.read, h3 key hp hd hr, proxyMember, hdata]

/-- Witness of C4: props `{foo}` and data `{foo: 1}` give
`vm.foo === vm._props.foo`, with a report. -/
theorem C4_resolution_order_witness :
    (initState Env.dev
        ⟨some ["foo"], none, some (.value (.plain [("foo", .prim (.number 1))])), none⟩
        (State.fresh 0 false World.initial)).members "foo" = some (proxyMember .props "foo") ∧
      (initState Env.dev
        ⟨some ["foo"], none, some (.value (.plain [("foo", .prim (.number 1))])), none⟩
        (State.fresh 0 false World.initial)).read "foo" =
        ((initState Env.dev
          ⟨some ["foo"], none, some (.value (.plain [("foo", .prim (.number 1))])), none⟩
          (State.fresh 0 false World.initial))._props.getD []).lookup "foo" ∧
      ∃ r ∈ (initState Env.dev
        ⟨some ["foo"], none, some (.value (.plain [("foo", .prim (.number 1))])), none⟩
        (State.fresh 0 false World.initial)).reports, r.isCollision "foo" = true :=
  have h := (C4_resolution_order Env.dev
    ⟨some ["foo"], none, some (.value (.plain [("foo", .prim (.number 1))])), none⟩
    (State.fresh 0 false World.initial) "foo" (startable_fresh _ _ _ _) (by decide)).1
    (by decide) (Or.inl (by decide))
  ⟨h.1, h.2.1 (by decide), h.2.2 rfl (Or.inl (by decide))⟩

/-- C6 (non-plain data is replaced by an empty aggregate), evaluated where it
breaks: a data factory returning the array `[1]`. In a production build
`initData` reports nothing; and in either build `vm._data` is the array, not
an empty plain aggregate. -/
theorem C6_nonplain_data_counterexample :
    (initData Env.prod ⟨none, none, none, none⟩
      (.factory ⟨[], .ok (.array [.prim (.number 1)])⟩)
      (State.fresh 0 false World.initial)).reports = [] ∧
    (initData Env.dev ⟨none, none, none, none⟩
      (.factory ⟨[], .ok (.array [.prim (.number 1)])⟩)
      (State.fresh 0 false World.initial))._data = .array [.prim (.number 1)] ∧
    (initData Env.dev ⟨none, none, none, none⟩
      (.factory ⟨[], .ok (.array [.prim (.number 1)])⟩)
      (State.fresh 0 false World.initial))._data ≠ .plain [] := by
  decide

/-- C6 (amended): when the data option (or what the data factory returns) is
not a plain object, `initData` proxies no key onto the instance, and it issues
exactly one report, "data functions should return an object", in a build with
reports, none in a production build. -/
theorem C6_nonplain_data (env : Env) (opts : Options) (d : DataOption) (st : State)
    (h : isPlainObject d.resolved = false) :
    (initData env opts d st).members = st.members ∧
    (initData env opts d st).reports =
      st.reports ++ (if env.production then [] else [Report.dataNotObject]) := by
  obtain ⟨st2, _, m2, _, r2, _, _, _, heq⟩ := initData_eq env opts d st
  rw [heq]
  simp only [DataOption.keys, h, Bool.false_eq_true, if_false, List.reverse_nil,
    List.foldl_nil]
  refine ⟨by simp [m2], ?_⟩
  rw [devWarn_reports, r2]
  cases env.production <;> simp

/-- Witness of C6: a data factory returning the array `[1]`, in a build with
reports. -/
theorem C6_nonplain_data_witness :
    (initData Env.dev ⟨none, none, none, none⟩
      (.factory ⟨[], .ok (.array [.prim (.number 1)])⟩)
      (State.fresh 0 false World.initial)).members = (State.fresh 0 false World.initial).members ∧
    (initData Env.dev ⟨none, none, none, none⟩
      (.factory ⟨[], .ok (.array [.prim (.number 1)])⟩)
      (State.fresh 0 false World.initial)).reports =
      (State.fresh 0 false World.initial).reports ++
        (if Env.dev.production then [] else [Report.dataNotObject]) :=
  C6_nonplain_data Env.dev ⟨none, none, none, none⟩
    (.factory ⟨[], .ok (.array [.prim (.number 1)])⟩) (State.fresh 0 false World.initial)
    (by decide)

/-- C8 (every name conflict is reported), evaluated where it breaks, in a
build with reports: (a) a method and a computed property of the same name:
nothing is reported; (b) a data key with a reserved first character and a
computed property of the same name: nothing is reported; (c) with a data
factory returning `null`, `initState` ends in a `TypeError` at the
prop/computed collision, before any collision report. -/
theorem C8_collisions_reported_counterexample :
    (initState Env.dev ⟨none, some [("foo", some 0)], none, some [("foo", .fn 1)]⟩
      (State.fresh 0 false World.initial)).reports = [] ∧
    (initState Env.dev
      ⟨none, none, some (.value (.plain [("$y", .prim (.number 2))])), some [("$y", .fn 0)]⟩
      (State.fresh 0 false World.initial)).reports = [] ∧
    (initState Env.dev
      ⟨some ["bar"], none, some (.factory ⟨[], .ok (.prim .null)⟩), some [("bar", .fn 0)]⟩
      (State.fresh 0 false World.initial)).reports = [.dataNotObject] := by
  decide

/-- C8 (amended): in a build with reports, started from a state without
pending exception whose forwarding setters write to declared props, and with
data that is not a primitive, `initState` reports the collision of a key
declared as prop and data key, as prop and method, as method and data key, as
prop and computed, and as computed and data key without reserved first
character. -/
theorem C8_collisions_reported (env : Env) (opts : Options) (st0 : State) (key : String)
    (hstart : Startable opts st0) (hobj : opts.dataObject = true)
    (hdev : env.production = false) :
    (opts.hasProp key = true → key ∈ opts.dataKeys →
      Report.dataIsProp key ∈ (initState env opts st0).reports) ∧
    (opts.hasProp key = true → opts.hasMethod key = true →
      Report.methodIsProp key ∈ (initState env opts st0).reports) ∧
    (opts.hasMethod key = true → key ∈ opts.dataKeys →
      Report.methodIsData key ∈ (initState env opts st0).reports) ∧
    (opts.hasProp key = true → key ∈ opts.computedKeys →
      Report.computedIsData key ∈ (initState env opts st0).reports ∨
      Report.computedIsProp key ∈ (initState env opts st0).reports) ∧
    (key ∈ opts.dataKeys → key ∈ opts.computedKeys → isReserved key = false →
      Report.computedIsData key ∈ (initState env opts st0).reports) := by
  obtain ⟨_, _, _, h4, _⟩ := initState_spec env opts st0 hstart hobj
  obtain ⟨r1, r2, r3, r4, r5⟩ := h4 hdev
  exact ⟨r1 key, r2 key, r3 key, fun hp hc => r4 key hc hp, fun hd hc => r5 key hc hd⟩

/-- Witness of C8: `foo` declared as prop, method, data key and computed
property. -/
theorem C8_collisions_reported_witness :
    Report.dataIsProp "foo" ∈ (initState Env.dev
      ⟨some ["foo"], some [("foo", some 0)],
        some (.value (.plain [("foo", .prim (.number 1))])), some [("foo", .fn 1)]⟩
      (State.fresh 0 false World.initial)).reports ∧
    Report.methodIsProp "foo" ∈ (initState Env.dev
      ⟨some ["foo"], some [("foo", some 0)],
        some (.value (.plain [("foo", .prim (.number 1))])), some [("foo", .fn 1)]⟩
      (State.fresh 0 false World.initial)).reports ∧
    Report.methodIsData "foo" ∈ (initState Env.dev
      ⟨some ["foo"], some [("foo", some 0)],
        some (.value (.plain [("foo", .prim (.number 1))])), some [("foo", .fn 1)]⟩
      (State.fresh 0 false World.initial)).reports :=
  have h := C8_collisions_reported Env.dev
    ⟨some ["foo"], some [("foo", some 0)],
      some (.value (.plain [("foo", .prim (.number 1))])), some [("foo", .fn 1)]⟩
    (State.fresh 0 false World.initial) "foo" (startable_fresh _ _ _ _) (by decide) rfl
  ⟨h.1 (by decide) (by decide), h.2.1 (by decide) (by decide),
    h.2.2.1 (by decide) (by decide)⟩

/-- C9 (computed accessor protocol): when a Watcher is registered for `key` in
`vm._computedWatchers`, one read of the accessor calls its `depend()` once,
then its `evaluate()` once, on the state `depend()` left, and returns or throws
exactly what `evaluate()` did; when none is registered the read returns
`undefined`, calls neither and leaves the state alone. -/
theorem C9_computed_getter_protocol (api : WatcherApi) (key : String) (st : State) :
    (∀ watcher, st._computedWatchers.bind (fun ws => ws.lookup key) = some watcher →
      (computedGetter api key st).calls = [.depend watcher, .evaluate watcher] ∧
      (computedGetter api key st).result =
        (api.evaluate watcher (api.depend watcher st.world)).1 ∧
      (computedGetter api key st).world =
        (api.evaluate watcher (api.depend watcher st.world)).2) ∧
    (st._computedWatchers.bind (fun ws => ws.lookup key) = none →
      (computedGetter api key st).calls = [] ∧
      (computedGetter api key st).result = .ok (.prim .undefined) ∧
      (computedGetter api key st).world = st.world) := by
  constructor
  · intro watcher h
    simp [computedGetter, h]
  · intro h
    simp [computedGetter, h]

/-- C10 (one lazy Watcher per computed key), evaluated where it breaks: in a
build with reports, outside server rendering, the data factory returned
`undefined`, so `vm._data` is `undefined`; `a` is a method and a computed
property, `b` a computed property. `initComputed` throws a `TypeError` at
`key in vm.$data` for `a`, and no Watcher is ever constructed for `b`. -/
theorem C10_no_watcher_after_collision :
    (initState Env.dev
      ⟨none, some [("a", some 0)], some (.factory ⟨[], .ok (.prim .undefined)⟩),
        some [("a", .fn 1), ("b", .fn 2)]⟩
      (State.fresh 0 false World.initial)).thrown = some .typeError ∧
    (initState Env.dev
      ⟨none, some [("a", some 0)], some (.factory ⟨[], .ok (.prim .undefined)⟩),
        some [("a", .fn 1), ("b", .fn 2)]⟩
      (State.fresh 0 false World.initial))._computedWatchers =
        some [("a", ⟨.user 1, .noop, computedWatcherOptions⟩)] ∧
    ((initState Env.dev
      ⟨none, some [("a", some 0)], some (.factory ⟨[], .ok (.prim .undefined)⟩),
        some [("a", .fn 1), ("b", .fn 2)]⟩
      (State.fresh 0 false World.initial))._computedWatchers.bind
        (fun ws => ws.lookup "b")) = none := by
  decide

/-- Witness of C9: a Watcher is registered for `double`, none for `other`. -/
theorem C9_computed_getter_protocol_witness :
    ((computedGetter WatcherApi.const2 "double" State.withDouble).calls =
        [.depend ⟨.user 1, .noop, computedWatcherOptions⟩,
         .evaluate ⟨.user 1, .noop, computedWatcherOptions⟩] ∧
      (computedGetter WatcherApi.const2 "double" State.withDouble).result =
        (WatcherApi.const2.evaluate ⟨.user 1, .noop, computedWatcherOptions⟩
          (WatcherApi.const2.depend ⟨.user 1, .noop, computedWatcherOptions⟩
            State.withDouble.world)).1 ∧
      (computedGetter WatcherApi.const2 "double" State.withDouble).world =
        (WatcherApi.const2.evaluate ⟨.user 1, .noop, computedWatcherOptions⟩
          (WatcherApi.const2.depend ⟨.user 1, .noop, computedWatcherOptions⟩
            State.withDouble.world)).2) ∧
    ((computedGetter WatcherApi.const2 "other" State.withDouble).calls = [] ∧
      (computedGetter WatcherApi.const2 "other" State.withDouble).result =
        .ok (.prim .undefined) ∧
      (computedGetter WatcherApi.const2 "other" State.withDouble).world =
        State.withDouble.world) :=
  ⟨(C9_computed_getter_protocol WatcherApi.const2 "double" State.withDouble).1
      ⟨.user 1, .noop, computedWatcherOptions⟩ (by decide),
    (C9_computed_getter_protocol WatcherApi.const2 "other" State.withDouble).2 (by decide)⟩

theorem lookup_cons_string {β : Type} (a : String) (b : β) (xs : List (String × β))
    (k : String) :
    ((a, b) :: xs).lookup k = if k = a then some b else xs.lookup k := by
  by_cases h : k = a
  · subst h; simp [List.lookup]
  · have hne : (k == a) = false := by simpa using h
    simp [List.lookup, hne, h]

theorem lookup_map_set {β : Type} (key : String) (v : β) (k : String) :
    ∀ l : List (String × β),
    (l.map (fun p => if p.1 = key then (p.1, v) else p)).lookup k =
      if k = key then (if key ∈ l.map Prod.fst then some v else none) else l.lookup k := by
  intro l
  induction l with
  | nil => simp
  | cons x xs ih =>
    obtain ⟨a, b⟩ := x
    simp only [List.map_cons, List.mem_cons]
    by_cases ha : a = key
    · subst ha
      simp only [if_true, lookup_cons_string, ih]
      by_cases hk : k = a
      · simp [hk]
      · simp [hk]
    · simp only [ha, if_false, lookup_cons_string, ih]
      by_cases hk : k = key
      · subst hk
        have hka : ¬ k = a := fun h => ha h.symm
        by_cases hin : k ∈ List.map Prod.fst xs
        · rw [if_neg hka, if_pos rfl, if_pos rfl, if_pos hin, if_pos (Or.inr hin)]
        · rw [if_neg hka, if_pos rfl, if_pos rfl, if_neg hin,
            if_neg (fun h => h.elim hka hin)]
      · simp [hk]

theorem lookup_append_new {β : Type} (key : String) (v : β) (k : String) :
    ∀ l : List (String × β), key ∉ l.map Prod.fst →
    (l ++ [(key, v)]).lookup k = if k = key then some v else l.lookup k := by
  intro l
  induction l with
  | nil => intro _; simp [lookup_cons_string]
  | cons x xs ih =>
    obtain ⟨a, b⟩ := x
    intro hn
    simp only [List.map_cons, List.mem_cons, not_or] at hn
    simp only [List.cons_append, lookup_cons_string, ih hn.2]
    by_cases hk : k = key
    · subst hk
      simp [hn.1]
    · simp [hk]

theorem lookup_setKey {β : Type} (l : List (String × β)) (key : String) (v : β) (k : String) :
    (setKey l key v).lookup k = if k = key then some v else l.lookup k := by
  unfold setKey
  by_cases hmem : key ∈ l.map Prod.fst
  · rw [if_pos hmem, lookup_map_set, if_pos hmem]
  · rw [if_neg hmem, lookup_append_new key v k l hmem]

theorem initComputedStep_watchers (env : Env) (opts : Options) (st : State)
    (ku : String × UserDef) (ht : st.thrown = none) (hssr : env.isServerRendering = false) :
    (initComputedStep env opts st ku)._computedWatchers =
      some (setKey (st._computedWatchers.getD []) ku.1
        ⟨ku.2.target, .noop, computedWatcherOptions⟩) := by
  unfold initComputedStep
  simp only [ht, Option.isSome_none, Bool.false_eq_true, if_false, hssr, Bool.not_false,
    if_true, UserDef.target]
  have e1 : (if ku.2.getter.isNone = true then st.devWarn env (.getterMissing ku.1)
      else st)._computedWatchers = st._computedWatchers := by
    split <;> simp
  generalize (if ku.2.getter.isNone = true then st.devWarn env (.getterMissing ku.1)
      else st) = st1 at e1 ⊢
  rw [e1]
  generalize (⟨(match ku.2.getter with
              | some f => Fn.user f
              | none => Fn.noop), Fn.noop, computedWatcherOptions⟩ : WatcherRec) = wrec
  split
  · exact (defineComputed_frame env _ ku.1 ku.2).2.2.2.1
  · split
    · split <;> [rfl; rfl; (split <;> rfl)]
    · rfl

/-- Outside server rendering, when `vm._data` is an object, `initComputed`
registers for every key of a duplicate-free `computed` map the Watcher
`new Watcher(vm, getter || noop, noop, computedWatcherOptions)`, and ends
without exception. -/
theorem initComputed_watchers (env : Env) (opts : Options) (cs : List (String × UserDef))
    (st : State) (ht : st.thrown = none) (ho : st._data.isObject = true)
    (hssr : env.isServerRendering = false) (hnd : (cs.map Prod.fst).Nodup)
    (k : String) (u : UserDef) (hk : (k, u) ∈ cs) :
    (initComputed env opts cs st).thrown = none ∧
    (initComputed env opts cs st)._computedWatchers.bind (fun ws => ws.lookup k) =
      some ⟨u.target, .noop, computedWatcherOptions⟩ := by
  refine ⟨(initComputed_spec env opts cs st ht ho).1, ?_⟩
  unfold initComputed
  have keep : ∀ (xs : List (String × UserDef)) (s : State), s.thrown = none →
      s._data.isObject = true → k ∉ xs.map Prod.fst →
      (xs.foldl (initComputedStep env opts) s)._computedWatchers.bind (fun ws => ws.lookup k) =
        s._computedWatchers.bind (fun ws => ws.lookup k) ∨
      ((xs.foldl (initComputedStep env opts) s)._computedWatchers.bind (fun ws => ws.lookup k) =
        (s._computedWatchers.getD []).lookup k) := by
    intro xs
    induction xs with
    | nil => intro s _ _ _; left; rfl
    | cons x xs ih =>
      intro s hs hso hx
      simp only [List.map_cons, List.mem_cons, not_or] at hx
      obtain ⟨a1, a2, _⟩ := initComputedStep_spec env opts s x hs hso
      have hw := initComputedStep_watchers env opts s x hs hssr
      simp only [List.foldl_cons]
      right
      rcases ih (initComputedStep env opts s x) a1 (by rw [a2]; exact hso) hx.2 with h | h
      · rw [h, hw]
        simp [lookup_setKey, hx.1]
      · rw [h, hw]
        simp [lookup_setKey, hx.1]
  have main : ∀ (xs : List (String × UserDef)) (s : State), s.thrown = none →
      s._data.isObject = true → (xs.map Prod.fst).Nodup → (k, u) ∈ xs →
      (xs.foldl (initComputedStep env opts) s)._computedWatchers.bind (fun ws => ws.lookup k) =
        some ⟨u.target, .noop, computedWatcherOptions⟩ := by
    intro xs
    induction xs with
    | nil => intro s _ _ _ h; simp at h
    | cons x xs ih =>
      intro s hs hso hn hmem
      simp only [List.map_cons, List.nodup_cons] at hn
      obtain ⟨a1, a2, _⟩ := initComputedStep_spec env opts s x hs hso
      have hw := initComputedStep_watchers env opts s x hs hssr
      simp only [List.foldl_cons]
      rcases List.mem_cons.1 hmem with hx | hx
      · subst hx
        rcases keep xs (initComputedStep env opts s (k, u)) a1 (by rw [a2]; exact hso) hn.1
          with h | h
        · rw [h, hw]; simp [lookup_setKey]
        · rw [h, hw]; simp [lookup_setKey]
      · exact ih (initComputedStep env opts s x) a1 (by rw [a2]; exact hso) hn.2 hx
  exact main cs _ ht ho hnd hk

theorem addDep_target (c : Watcher) (d : DepId) (w : World) :
    (Watcher.addDep c d w).target = w.target ∧
      (Watcher.addDep c d w).targetStack = w.targetStack := by
  unfold Watcher.addDep
  simp only
  split
  · exact ⟨rfl, rfl⟩
  · split <;> exact ⟨rfl, rfl⟩

/-- C14 (`Dep.removeSub` removes the first occurrence only): when `c` occurs
in the subscriber list, the list after `removeSub(c)` is the list without its
first occurrence of `c`, every other element in place, one element shorter;
when `c` does not occur the list is unchanged; the lists of other Deps,
`Dep.target` and `targetStack` are untouched. -/
theorem C14_removeSub_first_occurrence (d : DepId) (c : Watcher) (w : World) :
    (c ∈ w.subs d →
      ∃ l₁ l₂, c ∉ l₁ ∧ w.subs d = l₁ ++ c :: l₂ ∧
        (Dep.removeSub d c w).subs d = l₁ ++ l₂ ∧
        ((Dep.removeSub d c w).subs d).length + 1 = (w.subs d).length) ∧
    (c ∉ w.subs d → (Dep.removeSub d c w).subs d = w.subs d) ∧
    (∀ d', d' ≠ d → (Dep.removeSub d c w).subs d' = w.subs d') ∧
    (Dep.removeSub d c w).target = w.target ∧
    (Dep.removeSub d c w).targetStack = w.targetStack := by
  refine ⟨fun h => ?_, fun h => ?_, fun d' hd => ?_, rfl, rfl⟩
  · obtain ⟨l₁, l₂, h1, h2, h3⟩ := List.exists_erase_eq h
    refine ⟨l₁, l₂, h1, h2, ?_, ?_⟩
    · simp [Dep.removeSub, remove, h3]
    · simp [Dep.removeSub, remove, h3, h2]; omega
  · simp [Dep.removeSub, remove, List.erase_of_not_mem h]
  · simp [Dep.removeSub, Function.update_noteq hd]

/-- Witness of C14: the list `[1, 2, 1]` of Dep 7 loses its first `1`; removing
`3`, which does not occur, changes nothing. -/
theorem C14_removeSub_first_occurrence_witness :
    (∃ l₁ l₂, 1 ∉ l₁ ∧
        (Dep.addSub 7 1 (Dep.addSub 7 2 (Dep.addSub 7 1 World.initial))).subs 7
          = l₁ ++ 1 :: l₂ ∧
        (Dep.removeSub 7 1
          (Dep.addSub 7 1 (Dep.addSub 7 2 (Dep.addSub 7 1 World.initial)))).subs 7
          = l₁ ++ l₂ ∧
        ((Dep.removeSub 7 1
          (Dep.addSub 7 1 (Dep.addSub 7 2 (Dep.addSub 7 1 World.initial)))).subs 7).length + 1
          = ((Dep.addSub 7 1 (Dep.addSub 7 2 (Dep.addSub 7 1 World.initial))).subs 7).length) ∧
    (Dep.removeSub 7 3
        (Dep.addSub 7 1 (Dep.addSub 7 2 (Dep.addSub 7 1 World.initial)))).subs 7
      = (Dep.addSub 7 1 (Dep.addSub 7 2 (Dep.addSub 7 1 World.initial))).subs 7 :=
  ⟨(C14_removeSub_first_occurrence 7 1
      (Dep.addSub 7 1 (Dep.addSub 7 2 (Dep.addSub 7 1 World.initial)))).1 (by decide),
   (C14_removeSub_first_occurrence 7 3
      (Dep.addSub 7 1 (Dep.addSub 7 2 (Dep.addSub 7 1 World.initial)))).2.1 (by decide)⟩

/-- C15 (`Dep.depend` subscribes only through the active Watcher): without
active target `depend()` calls nothing and leaves the state as it is; with
active target `A` it makes the one call `A.addDep(D)` and the state it leaves
is exactly the one that call leaves, so `depend()` itself touches neither
`D.subs` nor anything else; with the `addDep` of the spec, `Dep.target` and
`targetStack` are unchanged. -/
theorem C15_depend_only_through_target (addDep : Watcher → DepId → World → World)
    (d : DepId) (w : World) :
    (w.target = none →
      (Dep.dependRun addDep d w).calls = [] ∧ (Dep.dependRun addDep d w).world = w ∧
      Dep.depend d w = w) ∧
    (∀ A, w.target = some A →
      (Dep.dependRun addDep d w).calls = [(A, d)] ∧
      (Dep.dependRun addDep d w).world = addDep A d w ∧
      Dep.depend d w = Watcher.addDep A d w) ∧
    Dep.depend d w = (Dep.dependRun Watcher.addDep d w).world ∧
    (Dep.depend d w).target = w.target ∧
    (Dep.depend d w).targetStack = w.targetStack := by
  refine ⟨fun h => ?_, fun A h => ?_, ?_, ?_, ?_⟩
  · simp [Dep.dependRun, Dep.depend, h]
  · simp [Dep.dependRun, Dep.depend, h]
  · unfold Dep.depend Dep.dependRun; cases w.target <;> rfl
  · unfold Dep.depend; cases h : w.target with
    | none => simp [h]
    | some t => simpa [h] using (addDep_target t d w).1
  · unfold Dep.depend; cases h : w.target with
    | none => rfl
    | some t => exact (addDep_target t d w).2

/-- Witness of C15: no target in the initial world; target 1 after
`pushTarget(1)`. -/
theorem C15_depend_only_through_target_witness :
    ((Dep.dependRun Watcher.addDep 7 World.initial).calls = [] ∧
      (Dep.dependRun Watcher.addDep 7 World.initial).world = World.initial ∧
      Dep.depend 7 World.initial = World.initial) ∧
    ((Dep.dependRun Watcher.addDep 7 (pushTarget (some 1) World.initial)).calls = [(1, 7)] ∧
      (Dep.dependRun Watcher.addDep 7 (pushTarget (some 1) World.initial)).world =
        Watcher.addDep 1 7 (pushTarget (some 1) World.initial) ∧
      Dep.depend 7 (pushTarget (some 1) World.initial) =
        Watcher.addDep 1 7 (pushTarget (some 1) World.initial)) :=
  ⟨(C15_depend_only_through_target Watcher.addDep 7 World.initial).1 rfl,
   (C15_depend_only_through_target Watcher.addDep 7 (pushTarget (some 1) World.initial)).2.1
      1 rfl⟩

theorem createWatcher_resolve (api : WatchApi) (vm : Nat) (expOrFn : ExpOrFn) :
    ∀ (fuel : Nat) (handler : Handler) (options : Option WatcherOptions) (st : WatchState),
    createWatcher api vm fuel expOrFn handler options st =
      match resolveHandler api fuel handler options with
      | some co => watchPlain api vm expOrFn co.1 co.2 st
      | none => (.unfinished, st) := by
  intro fuel
  induction fuel with
  | zero =>
    intro handler options st
    unfold createWatcher createWatcherWith resolveHandler watch
    dsimp only
    split <;> simp_all
  | succ n ih =>
    intro handler options st
    unfold createWatcher createWatcherWith resolveHandler watch
    dsimp only
    split
    · exact ih _ _ st
    · rfl

theorem watchPlain_created (api : WatchApi) (vm : Nat) (expOrFn : ExpOrFn) (cb : Handler)
    (options : Option WatcherOptions) (st : WatchState) :
    (watchPlain api vm expOrFn cb options st).2.created =
      st.created ++ [{ expOrFn := expOrFn, cb := cb, options := userOptions options }] ∧
    (watchPlain api vm expOrFn cb options st).2.handled = st.handled := by
  unfold watchPlain
  dsimp only
  split
  · split
    · split <;> exact ⟨rfl, rfl⟩
    · exact ⟨rfl, rfl⟩
  · exact ⟨rfl, rfl⟩

theorem watchPlain_calm (api : WatchApi) (vm : Nat) (expOrFn : ExpOrFn) (cb : Handler)
    (options : Option WatcherOptions) (st : WatchState) (hcalm : api.calm)
    (hfn : (userOptions options).immediate = true → ∃ f, cb = .fn f) :
    (watchPlain api vm expOrFn cb options st).1 =
      .unwatch { expOrFn := expOrFn, cb := cb, options := userOptions options } := by
  unfold watchPlain
  dsimp only
  by_cases hi : (userOptions options).immediate = true
  · obtain ⟨f, hf⟩ := hfn hi
    subst hf
    simp only [hi, if_true]
    rw [hcalm f]
  · simp only [hi, Bool.false_eq_true, if_false]

theorem initWatchCall_ready (api : WatchApi) (vm : Nat) (fuel : Nat) (key : String)
    (st : WatchState) (h : Handler) (hcalm : api.calm) (hr : h.ready api fuel) :
    (initWatchCall api vm fuel key (.done, st) h).1 = .done ∧
    (initWatchCall api vm fuel key (.done, st) h).2.created =
      st.created ++ (watcherOf api fuel key h).toList := by
  obtain ⟨cb, o, hres, himm⟩ := hr
  unfold initWatchCall
  dsimp only
  rw [createWatcher_resolve, hres]
  dsimp only
  rw [watchPlain_calm api vm _ cb o st hcalm himm]
  dsimp only
  exact ⟨rfl, by rw [(watchPlain_created api vm _ cb o st).1]; simp [watcherOf, hres]⟩

theorem initWatch_handlers (api : WatchApi) (vm : Nat) (fuel : Nat) (key : String)
    (hcalm : api.calm) (hs : List Handler) :
    ∀ st : WatchState, (∀ h ∈ hs, h.ready api fuel) →
    (hs.foldl (initWatchCall api vm fuel key) (.done, st)).1 = .done ∧
    (hs.foldl (initWatchCall api vm fuel key) (.done, st)).2.created =
      st.created ++ hs.flatMap (fun h => (watcherOf api fuel key h).toList) := by
  induction hs with
  | nil => intro st _; simp
  | cons x xs ih =>
    intro st hr
    obtain ⟨a1, a2⟩ := initWatchCall_ready api vm fuel key st x hcalm
      (hr x (List.mem_cons_self _ _))
    simp only [List.foldl_cons]
    have e : initWatchCall api vm fuel key (.done, st) x =
        (.done, (initWatchCall api vm fuel key (.done, st) x).2) := Prod.ext a1 rfl
    rw [e]
    obtain ⟨b1, b2⟩ := ih (initWatchCall api vm fuel key (.done, st) x).2
      (fun h hh => hr h (List.mem_cons_of_mem _ hh))
    refine ⟨b1, ?_⟩
    rw [b2, a2]
    simp [List.flatMap_cons]

theorem initWatch_spec (api : WatchApi) (vm : Nat) (fuel : Nat) (hcalm : api.calm)
    (watchMap : List (String × WatchEntry)) :
    ∀ st : WatchState, (∀ ke ∈ watchMap, ∀ h ∈ ke.2.handlers, h.ready api fuel) →
    (initWatch api vm fuel watchMap st).1 = .done ∧
    (initWatch api vm fuel watchMap st).2.created =
      st.created ++ watchMap.flatMap (fun ke =>
        ke.2.handlers.flatMap (fun h => (watcherOf api fuel ke.1 h).toList)) := by
  unfold initWatch
  induction watchMap with
  | nil => intro st _; simp
  | cons x xs ih =>
    intro st hr
    obtain ⟨a1, a2⟩ := initWatch_handlers api vm fuel x.1 hcalm x.2.handlers st
      (hr x (List.mem_cons_self _ _))
    simp only [List.foldl_cons]
    have e : x.2.handlers.foldl (initWatchCall api vm fuel x.1) (.done, st) =
        (.done, (x.2.handlers.foldl (initWatchCall api vm fuel x.1) (.done, st)).2) :=
      Prod.ext a1 rfl
    rw [e]
    obtain ⟨b1, b2⟩ := ih (x.2.handlers.foldl (initWatchCall api vm fuel x.1) (.done, st)).2
      (fun ke hke => hr ke (List.mem_cons_of_mem _ hke))
    refine ⟨b1, ?_⟩
    rw [b2, a2]
    simp [List.flatMap_cons]

theorem resolveHandler_claimed (api : WatchApi) (fuel : Nat) (h : Handler)
    (hflat : (h.claimedCallback api.vmGet).isPlain = false) :
    resolveHandler api fuel h none = some (h.claimedCallback api.vmGet, h.claimedOptions) := by
  cases h with
  | fn f => unfold resolveHandler; simp [Handler.claimedCallback, Handler.claimedOptions, Handler.isPlain]
  | name s =>
    simp only [Handler.claimedCallback] at hflat
    unfold resolveHandler
    simp [Handler.claimedCallback, Handler.claimedOptions, hflat]
  | other i => unfold resolveHandler; simp [Handler.claimedCallback, Handler.claimedOptions, Handler.isPlain]
  | obj h' o =>
    cases h' with
    | fn f => unfold resolveHandler; simp [Handler.claimedCallback, Handler.claimedOptions, Handler.isPlain]
    | name s =>
      simp only [Handler.claimedCallback] at hflat
      unfold resolveHandler
      simp [Handler.claimedCallback, Handler.claimedOptions, hflat]
    | other i => unfold resolveHandler; simp [Handler.claimedCallback, Handler.claimedOptions, Handler.isPlain]
    | obj h2 o2 => simp [Handler.claimedCallback, Handler.isPlain] at hflat

theorem watcherOf_length (api : WatchApi) (fuel : Nat) (key : String) (hs : List Handler)
    (hr : ∀ h ∈ hs, h.ready api fuel) :
    (hs.flatMap (fun h => (watcherOf api fuel key h).toList)).length = hs.length := by
  induction hs with
  | nil => rfl
  | cons x xs ih =>
    obtain ⟨cb, o, hres, _⟩ := hr x (List.mem_cons_self _ _)
    simp only [List.flatMap_cons, List.length_append, List.length_cons,
      ih (fun h hh => hr h (List.mem_cons_of_mem _ hh))]
    simp [watcherOf, hres]
    omega

theorem watchMap_length (api : WatchApi) (fuel : Nat) (watchMap : List (String × WatchEntry))
    (hr : ∀ ke ∈ watchMap, ∀ h ∈ ke.2.handlers, h.ready api fuel) :
    (watchMap.flatMap (fun ke =>
      ke.2.handlers.flatMap (fun h => (watcherOf api fuel ke.1 h).toList))).length =
      (watchMap.map (fun ke => ke.2.handlers.length)).sum := by
  induction watchMap with
  | nil => rfl
  | cons x xs ih =>
    simp only [List.flatMap_cons, List.length_append, List.map_cons, List.sum_cons,
      ih (fun ke hke => hr ke (List.mem_cons_of_mem _ hke)),
      watcherOf_length api fuel x.1 x.2.handlers (hr x (List.mem_cons_self _ _))]

/-- C11 (`immediate` option of `$watch`): for a function callback `f`, `$watch`
constructs the Watcher for `(expOrFn, f, options)` with `user = true`; when
`immediate` is truthy it then invokes `f` exactly once, with `this = vm` and
`watcher.value` as the one argument, in the state the construction left, and
makes no other invocation; when `immediate` is falsy it invokes nothing and
returns the unwatch handle. -/
theorem C11_watch_immediate (api : WatchApi) (vm : Nat) (fuel : Nat) (expOrFn : ExpOrFn)
    (f : Nat) (options : Option WatcherOptions) (st : WatchState) :
    (watch api vm fuel expOrFn (.fn f) options st).2.created =
      st.created ++ [⟨expOrFn, .fn f, userOptions options⟩] ∧
    ((userOptions options).immediate = true →
      (watch api vm fuel expOrFn (.fn f) options st).2.invoked =
        st.invoked ++
          [(f, vm, (api.newWatcher ⟨expOrFn, .fn f, userOptions options⟩ st.world).1)] ∧
      (watch api vm fuel expOrFn (.fn f) options st).2.world =
        (api.call f (api.newWatcher ⟨expOrFn, .fn f, userOptions options⟩ st.world).1
          (api.newWatcher ⟨expOrFn, .fn f, userOptions options⟩ st.world).2).2) ∧
    ((userOptions options).immediate = false →
      (watch api vm fuel expOrFn (.fn f) options st).2.invoked = st.invoked ∧
      (watch api vm fuel expOrFn (.fn f) options st).1 =
        .unwatch ⟨expOrFn, .fn f, userOptions options⟩) := by
  have hw : watch api vm fuel expOrFn (.fn f) options st =
      watchPlain api vm expOrFn (.fn f) options st := by
    unfold watch; simp [Handler.isPlain]
  rw [hw]
  refine ⟨(watchPlain_created api vm expOrFn (.fn f) options st).1, fun hi => ?_, fun hi => ?_⟩
  · unfold watchPlain
    simp only [hi, if_true]
    split <;> exact ⟨rfl, rfl⟩
  · unfold watchPlain
    simp only [hi, Bool.false_eq_true, if_false, and_self]

/-- Witness of C11: data `{count: 1}`, `$watch('count', f, {immediate: true})`
gives one call of `f` with the value 1; without options `f` is not called. -/
theorem C11_watch_immediate_witness :
    ((watch WatchApi.quiet 0 0 (.path "count") (.fn 5) (some WatcherOptions.immediately)
        (WatchState.initial World.initial)).2.invoked =
        (WatchState.initial World.initial).invoked ++
          [(5, 0, (WatchApi.quiet.newWatcher
            ⟨.path "count", .fn 5, userOptions (some WatcherOptions.immediately)⟩
            (WatchState.initial World.initial).world).1)] ∧
      (watch WatchApi.quiet 0 0 (.path "count") (.fn 5) (some WatcherOptions.immediately)
        (WatchState.initial World.initial)).2.world =
        (WatchApi.quiet.call 5
          (WatchApi.quiet.newWatcher
            ⟨.path "count", .fn 5, userOptions (some WatcherOptions.immediately)⟩
            (WatchState.initial World.initial).world).1
          (WatchApi.quiet.newWatcher
            ⟨.path "count", .fn 5, userOptions (some WatcherOptions.immediately)⟩
            (WatchState.initial World.initial).world).2).2) ∧
    ((watch WatchApi.quiet 0 0 (.path "count") (.fn 5) none
        (WatchState.initial World.initial)).2.invoked =
        (WatchState.initial World.initial).invoked ∧
      (watch WatchApi.quiet 0 0 (.path "count") (.fn 5) none
        (WatchState.initial World.initial)).1 =
        .unwatch ⟨.path "count", .fn 5, userOptions none⟩) :=
  ⟨(C11_watch_immediate WatchApi.quiet 0 0 (.path "count") 5
      (some WatcherOptions.immediately) (WatchState.initial World.initial)).2.1 (by decide),
   (C11_watch_immediate WatchApi.quiet 0 0 (.path "count") 5 none
      (WatchState.initial World.initial)).2.2 (by decide)⟩

/-- C12 (callback errors of user Watchers never escape), evaluated where it
breaks: `$watch('count', f, {immediate: true})` with a callback `f` that throws
error 1. The Watcher is constructed and `f` is invoked once with the value 1;
`$watch` then ends by throwing error 1, without a `handleError` call and
without returning the unwatch handle. -/
theorem C12_immediate_error_escapes :
    (watch WatchApi.throwing 0 0 (.path "count") (.fn 5) (some WatcherOptions.immediately)
      (WatchState.initial World.initial)).1 = .threw (.thrown 1) ∧
    (watch WatchApi.throwing 0 0 (.path "count") (.fn 5) (some WatcherOptions.immediately)
      (WatchState.initial World.initial)).2.invoked = [(5, 0, .prim (.number 1))] ∧
    (watch WatchApi.throwing 0 0 (.path "count") (.fn 5) (some WatcherOptions.immediately)
      (WatchState.initial World.initial)).2.handled = [] ∧
    (watch WatchApi.throwing 0 0 (.path "count") (.fn 5) (some WatcherOptions.immediately)
      (WatchState.initial World.initial)).2.created.length = 1 := by
  decide

theorem resolveHandler_mono (api : WatchApi) :
    ∀ (n : Nat) (h : Handler) (o : Option WatcherOptions) (r : Handler × Option WatcherOptions),
    resolveHandler api n h o = some r → ∀ m, n ≤ m → resolveHandler api m h o = some r := by
  intro n
  induction n with
  | zero =>
    intro h o r hr m _
    unfold resolveHandler at hr ⊢
    dsimp only at hr ⊢
    split at hr
    · cases hr
    · rename_i hp
      rw [if_neg hp]; exact hr
  | succ n ih =>
    intro h o r hr m hm
    obtain ⟨m', rfl⟩ : ∃ m', m = m' + 1 := ⟨m - 1, by omega⟩
    unfold resolveHandler at hr ⊢
    dsimp only at hr ⊢
    split at hr
    · rename_i hp
      rw [if_pos hp]
      exact ih _ _ r hr m' (by omega)
    · rename_i hp
      rw [if_neg hp]; exact hr

theorem ready_mono (api : WatchApi) (h : Handler) (n m : Nat) (hr : h.ready api n)
    (hm : n ≤ m) : h.ready api m := by
  obtain ⟨cb, o, h1, h2⟩ := hr
  exact ⟨cb, o, resolveHandler_mono api n h none _ h1 m hm, h2⟩

theorem watcherOf_mono (api : WatchApi) (key : String) (h : Handler) (n m : Nat)
    (hr : h.ready api n) (hm : n ≤ m) : watcherOf api m key h = watcherOf api n key h := by
  obtain ⟨cb, o, h1, _⟩ := hr
  unfold watcherOf
  rw [h1, resolveHandler_mono api n h none _ h1 m hm]

theorem exists_fuel (api : WatchApi) :
    ∀ hs : List Handler, (∀ h ∈ hs, ∃ n, h.ready api n) →
    ∃ N, ∀ h ∈ hs, h.ready api N := by
  intro hs
  induction hs with
  | nil => intro _; exact ⟨0, fun h hh => by simp at hh⟩
  | cons x xs ih =>
    intro hr
    obtain ⟨N, hN⟩ := ih (fun h hh => hr h (List.mem_cons_of_mem _ hh))
    obtain ⟨n, hn⟩ := hr x (List.mem_cons_self _ _)
    refine ⟨max n N, fun h hh => ?_⟩
    rcases List.mem_cons.1 hh with rfl | hh
    · exact ready_mono api _ n _ hn (le_max_left _ _)
    · exact ready_mono api _ N _ (hN h hh) (le_max_right _ _)

theorem resolveHandler_of_depth (api : WatchApi)
    (hv : ∀ s, (api.vmGet s).isPlain = false) :
    ∀ (fuel : Nat) (h : Handler) (o : Option WatcherOptions), h.depth ≤ fuel →
    (resolveHandler api fuel h o).isSome = true := by
  intro fuel
  induction fuel with
  | zero =>
    intro h o hd
    cases h with
    | obj h' o' => simp [Handler.depth] at hd
    | fn f => unfold resolveHandler; simp [Handler.isPlain]
    | name s => unfold resolveHandler; simp [hv s]
    | other i => unfold resolveHandler; simp [Handler.isPlain]
  | succ n ih =>
    intro h o hd
    cases h with
    | fn f => unfold resolveHandler; simp [Handler.isPlain]
    | name s => unfold resolveHandler; simp [hv s]
    | other i => unfold resolveHandler; simp [Handler.isPlain]
    | obj h' o' =>
      have hd' : h'.depth ≤ n := by simp only [Handler.depth] at hd; omega
      cases h' with
      | fn f => unfold resolveHandler; simp [Handler.isPlain]
      | name s => unfold resolveHandler; simp [hv s]
      | other i => unfold resolveHandler; simp [Handler.isPlain]
      | obj h2 o2 =>
        have := ih (.obj h2 o2) (some o') hd'
        unfold resolveHandler
        simpa [Handler.isPlain] using this

theorem cyclic_never_resolves :
    ∀ (fuel : Nat) (o : Option WatcherOptions),
    resolveHandler WatchApi.cyclic fuel (.obj (.name "m") WatcherOptions.empty) o = none ∧
    resolveHandler WatchApi.cyclic fuel (.name "m") o = none := by
  intro fuel
  induction fuel with
  | zero =>
    intro o
    constructor <;> (unfold resolveHandler; simp [WatchApi.cyclic, Handler.isPlain])
  | succ n ih =>
    intro o
    constructor
    · have := (ih (some WatcherOptions.empty)).1
      unfold resolveHandler
      simpa [WatchApi.cyclic, Handler.isPlain] using this
    · have := (ih o).1
      unfold resolveHandler
      simpa [WatchApi.cyclic, Handler.isPlain] using this

theorem cyclic_unfinished (fuel : Nat) :
    (initWatch WatchApi.cyclic 0 fuel [("x", .single (.name "m"))]
      (WatchState.initial World.initial)).1 = .unfinished ∧
    (initWatch WatchApi.cyclic 0 fuel [("x", .single (.name "m"))]
      (WatchState.initial World.initial)).2.created = [] := by
  simp only [initWatch, WatchEntry.handlers, List.foldl_cons, List.foldl_nil, initWatchCall]
  rw [createWatcher_resolve, (cyclic_never_resolves fuel none).2]
  exact ⟨rfl, rfl⟩

/-- C13 (watch entries materialise one-to-one), evaluated where it breaks:
(a) the entry `{handler: {handler: f1, deep: true}}`: the callback of the
Watcher is `f1`, not `entry.handler`, and its options are those of the inner
object; (b) the entry `'m'` where `vm.m` is a plain object without `handler`:
the callback is `undefined`, not `vm.m`; (c) the entries
`a: {handler: f1, immediate: true}` and `b: f2` with a throwing `f1`:
`initWatch` ends by throwing after the first Watcher, the one for `b` is never
constructed; (d) the entry `'m'` where `vm.m` is `{handler: 'm'}`: the returns
into `createWatcher` never end, whatever the bound, and no Watcher is
constructed. -/
theorem C13_watch_entries_counterexample :
    ((initWatch WatchApi.quiet 0 5
        [("a", .single (.obj (.obj (.fn 1) { WatcherOptions.empty with deep := true })
          WatcherOptions.empty))]
        (WatchState.initial World.initial)).2.created =
        [⟨.path "a", .fn 1, userOptions (some { WatcherOptions.empty with deep := true })⟩] ∧
      Handler.claimedCallback WatchApi.quiet.vmGet
        (.obj (.obj (.fn 1) { WatcherOptions.empty with deep := true }) WatcherOptions.empty)
        ≠ .fn 1) ∧
    ((initWatch WatchApi.quiet 0 5 [("x", .single (.name "m"))]
        (WatchState.initial World.initial)).2.created =
        [⟨.path "x", .other 0, userOptions (some WatcherOptions.empty)⟩] ∧
      WatchApi.quiet.vmGet "m" ≠ .other 0) ∧
    ((initWatch WatchApi.throwing 0 5
        [("a", .single (.obj (.fn 1) WatcherOptions.immediately)), ("b", .single (.fn 2))]
        (WatchState.initial World.initial)).1 = .threw (.thrown 1) ∧
      (initWatch WatchApi.throwing 0 5
        [("a", .single (.obj (.fn 1) WatcherOptions.immediately)), ("b", .single (.fn 2))]
        (WatchState.initial World.initial)).2.created.length = 1) ∧
    (∀ fuel, (initWatch WatchApi.cyclic 0 fuel [("x", .single (.name "m"))]
        (WatchState.initial World.initial)).1 = .unfinished ∧
      (initWatch WatchApi.cyclic 0 fuel [("x", .single (.name "m"))]
        (WatchState.initial World.initial)).2.created = []) :=
  ⟨by decide, by decide, by decide, cyclic_unfinished⟩

/-- C13 (amended): when every callback returns normally and every handler
resolves (the returns into `createWatcher` end, and the callback of an
immediate Watcher is a function), there is a bound from which on, whatever the
fuel, `initWatch` ends normally and constructs, in key order and array order,
one Watcher per handler (the array length for an array entry, else 1), always
the same ones, each with the key as expression and `user = true`; its callback
and options are those `createWatcher` resolves: follow `handler` through plain
objects, taking the options of the last one, and replace a string by
`vm[name]`, until the value is no plain object. Where the callback the claim
names is no plain object, it is that callback: the entry itself,
`entry.handler`, or `vm[name]`. When no `vm[name]` is a plain object, every
handler resolves within its nesting depth. -/
theorem C13_watch_entries (api : WatchApi) (vm : Nat)
    (watchMap : List (String × WatchEntry)) (st : WatchState) (hcalm : api.calm)
    (hends : ∀ ke ∈ watchMap, ∀ h ∈ ke.2.handlers, ∃ n, h.ready api n) :
    (∃ N, ∀ fuel, N ≤ fuel →
      (initWatch api vm fuel watchMap st).1 = .done ∧
      (initWatch api vm fuel watchMap st).2.created =
        st.created ++ watchMap.flatMap (fun ke =>
          ke.2.handlers.flatMap (fun h => (watcherOf api fuel ke.1 h).toList)) ∧
      (initWatch api vm fuel watchMap st).2.created.length =
        st.created.length + (watchMap.map (fun ke => ke.2.handlers.length)).sum ∧
      (∀ ke ∈ watchMap, ∀ h ∈ ke.2.handlers,
        watcherOf api fuel ke.1 h = watcherOf api N ke.1 h)) ∧
    (∀ fuel key h, (Handler.claimedCallback api.vmGet h).isPlain = false →
      watcherOf api fuel key h =
        some ⟨.path key, Handler.claimedCallback api.vmGet h, userOptions h.claimedOptions⟩) ∧
    (∀ fuel key h w, watcherOf api fuel key h = some w →
      w.expOrFn = .path key ∧ w.options.user = true) ∧
    ((∀ s, (api.vmGet s).isPlain = false) →
      ∀ h : Handler, (resolveHandler api h.depth h none).isSome = true) := by
  refine ⟨?_, fun fuel key h hflat => ?_, fun fuel key h w hw => ?_,
    fun hv h => resolveHandler_of_depth api hv h.depth h none le_rfl⟩
  · obtain ⟨N, hN⟩ := exists_fuel api (watchMap.flatMap (fun ke => ke.2.handlers))
      (fun h hh => by
        obtain ⟨ke, hke, hh2⟩ := List.mem_flatMap.1 hh
        exact hends ke hke h hh2)
    have hN2 : ∀ ke ∈ watchMap, ∀ h ∈ ke.2.handlers, h.ready api N :=
      fun ke hke h hh => hN h (List.mem_flatMap.2 ⟨ke, hke, hh⟩)
    refine ⟨N, fun fuel hf => ?_⟩
    have hready : ∀ ke ∈ watchMap, ∀ h ∈ ke.2.handlers, h.ready api fuel :=
      fun ke hke h hh => ready_mono api h N fuel (hN2 ke hke h hh) hf
    obtain ⟨h1, h2⟩ := initWatch_spec api vm fuel hcalm watchMap st hready
    refine ⟨h1, h2, ?_, fun ke hke h hh => watcherOf_mono api ke.1 h N fuel (hN2 ke hke h hh) hf⟩
    rw [h2, List.length_append, watchMap_length api fuel watchMap hready]
  · simp [watcherOf, resolveHandler_claimed api fuel h hflat]
  · simp only [watcherOf, Option.map_eq_some'] at hw
    obtain ⟨co, _, rfl⟩ := hw
    exact ⟨rfl, rfl⟩

/-- Witness of C13: a function, an array of two handlers, an options object
and the name of a method. -/
theorem C13_watch_entries_witness :
    ∃ N, ∀ fuel, N ≤ fuel →
      (initWatch WatchApi.quiet 0 fuel
        [("a", .single (.fn 1)), ("b", .array [.fn 2, .obj (.fn 3) WatcherOptions.immediately]),
         ("c", .single (.name "go"))]
        (WatchState.initial World.initial)).1 = .done ∧
      (initWatch WatchApi.quiet 0 fuel
        [("a", .single (.fn 1)), ("b", .array [.fn 2, .obj (.fn 3) WatcherOptions.immediately]),
         ("c", .single (.name "go"))]
        (WatchState.initial World.initial)).2.created.length =
        (WatchState.initial World.initial).created.length +
          ([("a", WatchEntry.single (.fn 1)),
            ("b", .array [.fn 2, .obj (.fn 3) WatcherOptions.immediately]),
            ("c", .single (.name "go"))].map (fun ke => ke.2.handlers.length)).sum :=
  have h := (C13_watch_entries WatchApi.quiet 0
    [("a", .single (.fn 1)), ("b", .array [.fn 2, .obj (.fn 3) WatcherOptions.immediately]),
     ("c", .single (.name "go"))]
    (WatchState.initial World.initial) (fun _ _ _ => rfl)
    (by
      intro ke hke h hh
      simp only [List.mem_cons, List.mem_singleton, List.not_mem_nil, or_false] at hke
      rcases hke with rfl | rfl | rfl
      · simp only [WatchEntry.handlers, List.mem_singleton] at hh
        subst hh
        exact ⟨0, .fn 1, none, by decide, fun _ => ⟨1, rfl⟩⟩
      · simp only [WatchEntry.handlers, List.mem_cons, List.mem_singleton, List.not_mem_nil,
          or_false] at hh
        rcases hh with rfl | rfl
        · exact ⟨0, .fn 2, none, by decide, fun _ => ⟨2, rfl⟩⟩
        · exact ⟨0, .fn 3, some WatcherOptions.immediately, by decide, fun _ => ⟨3, rfl⟩⟩
      · simp only [WatchEntry.handlers, List.mem_singleton] at hh
        subst hh
        exact ⟨0, .fn 9, none, by decide, fun _ => ⟨9, rfl⟩⟩)).1
  h.imp (fun _ hN fuel hf => ⟨(hN fuel hf).1, (hN fuel hf).2.2.1⟩)

theorem lookup_none_of_not_mem {β : Type} (k : String) :
    ∀ l : List (String × β), k ∉ l.map Prod.fst → l.lookup k = none := by
  intro l
  induction l with
  | nil => intro _; rfl
  | cons x xs ih =>
    obtain ⟨a, b⟩ := x
    intro h
    simp only [List.map_cons, List.mem_cons, not_or] at h
    rw [lookup_cons_string, if_neg h.1, ih h.2]

theorem lookup_isSome_of_mem {β : Type} (k : String) :
    ∀ l : List (String × β), k ∈ l.map Prod.fst → (l.lookup k).isSome = true := by
  intro l
  induction l with
  | nil => intro h; simp at h
  | cons x xs ih =>
    obtain ⟨a, b⟩ := x
    intro h
    simp only [List.map_cons, List.mem_cons] at h
    rw [lookup_cons_string]
    by_cases hk : k = a
    · simp [hk]
    · rw [if_neg hk]; exact ih (h.resolve_left hk)

theorem mem_keys_iff_lookup {β : Type} (k : String) (l : List (String × β)) :
    k ∈ l.map Prod.fst ↔ (l.lookup k).isSome = true := by
  constructor
  · exact lookup_isSome_of_mem k l
  · intro h
    by_contra hn
    rw [lookup_none_of_not_mem k l hn] at h
    simp at h

theorem lookup_map_update {β : Type} (n : String) (g : β → β) (k : String) :
    ∀ l : List (String × β),
    (l.map (fun p => if p.1 = n then (p.1, g p.2) else p)).lookup k =
      if k = n then (l.lookup n).map g else l.lookup k := by
  intro l
  induction l with
  | nil => simp
  | cons x xs ih =>
    obtain ⟨a, b⟩ := x
    simp only [List.map_cons]
    by_cases ha : a = n
    · subst ha
      simp only [if_true, lookup_cons_string, ih]
      by_cases hk : k = a
      · simp [hk]
      · simp [hk]
    · simp only [ha, if_false, lookup_cons_string, ih]
      by_cases hk : k = n
      · subst hk
        have hka : ¬ k = a := fun h => ha h.symm
        simp [hka]
      · simp [hk]

theorem lookup_pushSlot (s : Slots) (n : String) (items : List VNode) (k : String) :
    (pushSlot s n items).lookup k =
      if k = n then some ((s.lookup n).getD [] ++ items) else s.lookup k := by
  unfold pushSlot
  by_cases hmem : n ∈ s.map Prod.fst
  · rw [if_pos hmem, lookup_map_update n (fun v => v ++ items)]
    by_cases hk : k = n
    · rw [if_pos hk, if_pos hk]
      have := lookup_isSome_of_mem n s hmem
      obtain ⟨v, hv⟩ := Option.isSome_iff_exists.1 this
      simp [hv]
    · rw [if_neg hk, if_neg hk]
  · rw [if_neg hmem, lookup_append_new n items k s hmem,
      lookup_none_of_not_mem n s hmem]
    simp

theorem keys_pushSlot (s : Slots) (n : String) (items : List VNode) :
    (pushSlot s n items).map Prod.fst =
      if n ∈ s.map Prod.fst then s.map Prod.fst else s.map Prod.fst ++ [n] := by
  unfold pushSlot
  by_cases hmem : n ∈ s.map Prod.fst
  · rw [if_pos hmem, if_pos hmem, List.map_map]
    apply List.map_congr_left
    intro p _
    by_cases hp : p.1 = n <;> simp [hp]
  · rw [if_neg hmem, if_neg hmem]; simp

theorem nodup_pushSlot (s : Slots) (n : String) (items : List VNode)
    (h : (s.map Prod.fst).Nodup) : ((pushSlot s n items).map Prod.fst).Nodup := by
  rw [keys_pushSlot]
  by_cases hmem : n ∈ s.map Prod.fst
  · rw [if_pos hmem]; exact h
  · rw [if_neg hmem]
    exact List.Nodup.append h (List.nodup_singleton n) (by simpa using hmem)

theorem deleteAttrsSlot_slot (d : VNodeData) : d.deleteAttrsSlot.slot = d.slot := by
  unfold VNodeData.deleteAttrsSlot
  split
  · split <;> rfl
  · rfl

theorem placeChild_eq (context : Option Nat) (slots : Slots) (child : VNode) :
    placeChild context slots child =
      pushSlot slots (slotNameOf context child) (contribution context child) := by
  obtain ⟨t, d, c, x, ctx, fctx, ic, af⟩ := child
  unfold placeChild slotNameOf contribution isNamed
  simp only [VNode.deleteAttrsSlot, VNode.context, VNode.fnContext, VNode.data, VNode.tag,
    VNode.children]
  by_cases hc : ctx = context ∨ fctx = context
  · simp only [hc, if_true, decide_True, Bool.true_and]
    cases d with
    | none => simp
    | some dd =>
      simp only [Option.map_some', Option.bind_some, deleteAttrsSlot_slot]
      cases hs : dd.slot with
      | none => simp [hs, deleteAttrsSlot_slot]
      | some name =>
        by_cases ht : t = some "template"
        · simp [ht, hs, deleteAttrsSlot_slot]
        · simp [ht, hs, deleteAttrsSlot_slot]
  · simp only [hc, if_false, decide_False, Bool.false_and]
    simp

theorem collect_fold (context : Option Nat) (cs : List VNode) :
    ∀ s0 : Slots, (s0.map Prod.fst).Nodup →
    ((cs.foldl (placeChild context) s0).map Prod.fst).Nodup ∧
    ∀ k, (cs.foldl (placeChild context) s0).lookup k =
      if (s0.lookup k).isSome = true ∨ k ∈ cs.map (slotNameOf context) then
        some ((s0.lookup k).getD [] ++
          (cs.filter (fun c => decide (slotNameOf context c = k))).flatMap
            (contribution context))
      else none := by
  induction cs with
  | nil =>
    intro s0 h0
    refine ⟨h0, fun k => ?_⟩
    simp only [List.foldl_nil, List.map_nil, List.not_mem_nil, or_false, List.filter_nil,
      List.flatMap_nil, List.append_nil]
    cases s0.lookup k <;> rfl
  | cons x xs ih =>
    intro s0 h0
    simp only [List.foldl_cons, placeChild_eq]
    obtain ⟨n1, l1⟩ := ih (pushSlot s0 (slotNameOf context x) (contribution context x))
      (nodup_pushSlot s0 _ _ h0)
    refine ⟨n1, fun k => ?_⟩
    rw [l1 k]
    simp only [lookup_pushSlot]
    by_cases hk : k = slotNameOf context x
    · subst hk
      simp [List.filter_cons, List.flatMap_cons, List.append_assoc]
    · have hk2 : ¬ slotNameOf context x = k := fun h => hk h.symm
      simp only [if_neg hk, List.map_cons, List.mem_cons, hk, false_or,
        List.filter_cons, hk2, decide_False, Bool.false_eq_true, if_false]

theorem placeAll_lookup (children : List VNode) (context : Option Nat) (name : String) :
    (placeAll children context).lookup name =
      if name ∈ children.map (slotNameOf context) then
        some ((children.filter (fun c => decide (slotNameOf context c = name))).flatMap
          (contribution context))
      else none := by
  have := (collect_fold context children [] (by simp)).2 name
  simpa [placeAll] using this

theorem placeAll_nodup (children : List VNode) (context : Option Nat) :
    ((placeAll children context).map Prod.fst).Nodup :=
  (collect_fold context children [] (by simp)).1

theorem lookup_filter_of_nodup {β : Type} (q : String × β → Bool) (k : String) (v : β) :
    ∀ l : List (String × β), (l.map Prod.fst).Nodup →
    ((l.filter q).lookup k = some v ↔ (l.lookup k = some v ∧ q (k, v) = true)) := by
  intro l
  induction l with
  | nil => intro _; simp
  | cons x xs ih =>
    obtain ⟨a, b⟩ := x
    intro hn
    simp only [List.map_cons, List.nodup_cons] at hn
    by_cases hk : k = a
    · subst hk
      have hnone : xs.lookup k = none := lookup_none_of_not_mem k xs hn.1
      have hfnone : (xs.filter q).lookup k = none := by
        apply lookup_none_of_not_mem
        intro hmem
        apply hn.1
        rw [List.mem_map] at hmem ⊢
        obtain ⟨p, hp, hpk⟩ := hmem
        exact ⟨p, (List.mem_filter.1 hp).1, hpk⟩
      by_cases hq : q (k, b) = true
      · rw [List.filter_cons_of_pos hq, lookup_cons_string, lookup_cons_string]
        simp only [if_true, Option.some.injEq]
        constructor
        · intro h; subst h; exact ⟨rfl, hq⟩
        · intro h; exact h.1
      · rw [List.filter_cons_of_neg hq, hfnone, lookup_cons_string]
        simp only [if_true, Option.some.injEq]
        constructor
        · intro h; cases h
        · intro h; rw [← h.1] at h; exact absurd h.2 hq
    · by_cases hq : q (a, b) = true
      · rw [List.filter_cons_of_pos hq, lookup_cons_string, lookup_cons_string, if_neg hk,
          if_neg hk]
        exact ih hn.2
      · rw [List.filter_cons_of_neg hq, lookup_cons_string, if_neg hk]
        exact ih hn.2

/-- The routing of the first loop: a child goes to the slot named `data.slot`
exactly when `isNamed` holds of it, and to `default` otherwise; with `placeAll`
every slot holds, in order, what the children routed to it bring, and the slots
kept by the second loop are exactly those that are not whitespace only. -/
theorem slots_routing (children : List VNode) (context : Option Nat) :
    (∀ child : VNode, slotNameOf context child =
      if isNamed context child = true then (child.data.bind VNodeData.slot).getD "default"
      else "default") ∧
    (∀ child, isNamed context child = true ↔
      ((child.context = context ∨ child.fnContext = context) ∧
        ∃ d, child.data = some d ∧ d.slot ≠ none)) ∧
    (∀ name, (placeAll children context).lookup name =
      if name ∈ children.map (slotNameOf context) then
        some ((children.filter (fun c => decide (slotNameOf context c = name))).flatMap
          (contribution context))
      else none) ∧
    (∀ name arr, (dropWhitespaceSlots (placeAll children context)).lookup name = some arr ↔
      (name ∈ children.map (slotNameOf context) ∧
        arr = (children.filter (fun c => decide (slotNameOf context c = name))).flatMap
          (contribution context) ∧
        arr.all isWhitespace = false)) := by
  refine ⟨fun child => ?_, fun child => ?_, placeAll_lookup children context,
    fun name arr => ?_⟩
  · unfold slotNameOf isNamed
    by_cases hc : child.context = context ∨ child.fnContext = context
    · cases hd : child.data with
      | none => simp [hc]
      | some d => cases hs : d.slot <;> simp [hc, hs]
    · simp [hc]
  · unfold isNamed
    cases hd : child.data with
    | none => simp
    | some d => cases hs : d.slot <;> simp [hs]
  · unfold dropWhitespaceSlots
    rw [lookup_filter_of_nodup _ name arr (placeAll children context)
      (placeAll_nodup children context), placeAll_lookup]
    simp only [Bool.not_eq_true']
    constructor
    · rintro ⟨h1, h2⟩
      split at h1
      · rename_i hmem
        exact ⟨hmem, (Option.some.inj h1).symm, h2⟩
      · cases h1
    · rintro ⟨hmem, harr, hw⟩
      rw [if_pos hmem, harr]
      exact ⟨rfl, by rw [← harr]; exact hw⟩

/-- The second loop: no slot it keeps consists of whitespace nodes only, so
none is empty; a slot that collected a node that is no whitespace node is kept
with all the nodes it collected; a slot of whitespace nodes only is dropped. -/
theorem slots_whitespace (children : List VNode) (context : Option Nat) :
    (∀ p ∈ dropWhitespaceSlots (placeAll children context),
      p.2.all isWhitespace = false ∧ p.2 ≠ []) ∧
    (∀ name arr, (placeAll children context).lookup name = some arr →
      (∃ node ∈ arr, isWhitespace node = false) →
      (dropWhitespaceSlots (placeAll children context)).lookup name = some arr) ∧
    (∀ name arr, (placeAll children context).lookup name = some arr →
      arr.all isWhitespace = true →
      (dropWhitespaceSlots (placeAll children context)).lookup name = none) := by
  refine ⟨fun p hp => ?_, fun name arr h hex => ?_, fun name arr h hall => ?_⟩
  · unfold dropWhitespaceSlots at hp
    simp only [List.mem_filter, Bool.not_eq_true'] at hp
    refine ⟨hp.2, fun he => ?_⟩
    rw [he] at hp
    simp at hp
  · unfold dropWhitespaceSlots
    apply (lookup_filter_of_nodup _ name arr (placeAll children context)
      (placeAll_nodup children context)).2
    refine ⟨h, ?_⟩
    obtain ⟨node, hn, hw⟩ := hex
    simp only [Bool.not_eq_true', List.all_eq_false]
    exact ⟨node, hn, by simp [hw]⟩
  · unfold dropWhitespaceSlots
    cases hr : ((placeAll children context).filter
        (fun p => !p.2.all isWhitespace)).lookup name with
    | none => rfl
    | some v =>
      have := (lookup_filter_of_nodup _ name v (placeAll children context)
        (placeAll_nodup children context)).1 hr
      rw [h] at this
      obtain ⟨h1, h2⟩ := this
      cases h1
      simp [hall] at h2

mutual
theorem resolveScopedSlotsLoop_flatten :
    ∀ (fns : List ScopedSlot) (res : List (String × Scalar)),
    resolveScopedSlotsLoop fns res =
      (ScopedSlot.flattenList fns).foldl (fun r p => setKey r p.1 p.2) res
  | [], res => by simp [resolveScopedSlotsLoop, ScopedSlot.flattenList]
  | x :: xs, res => by
    rw [resolveScopedSlotsLoop, ScopedSlot.flattenList, List.foldl_append,
      resolveScopedSlotsItem_flatten x res, resolveScopedSlotsLoop_flatten xs]
theorem resolveScopedSlotsItem_flatten :
    ∀ (x : ScopedSlot) (res : List (String × Scalar)),
    resolveScopedSlotsItem x res =
      (ScopedSlot.flatten x).foldl (fun r p => setKey r p.1 p.2) res
  | .entry key fn, res => by simp [resolveScopedSlotsItem, ScopedSlot.flatten]
  | .nested items, res => by
    rw [resolveScopedSlotsItem, ScopedSlot.flatten, resolveScopedSlotsLoop_flatten items]
end

theorem foldl_setKey_lookup_of_not_mem {β : Type} (k : String) :
    ∀ (l : List (String × β)) (r : List (String × β)), k ∉ l.map Prod.fst →
    (l.foldl (fun r p => setKey r p.1 p.2) r).lookup k = r.lookup k := by
  intro l
  induction l with
  | nil => intro r _; rfl
  | cons x xs ih =>
    intro r h
    simp only [List.map_cons, List.mem_cons, not_or] at h
    simp only [List.foldl_cons]
    rw [ih _ h.2, lookup_setKey, if_neg h.1]

/-- C20 (`resolveScopedSlots` flattens with last-wins): the function is total;
a key `k` whose last entry in depth-first left-to-right order has function `f`
maps to `f`, and a key that does not occur in `fns` keeps what the initial
`res` gives for it (nothing when `res` is absent). -/
theorem C20_scoped_slots_last_wins (fns : List ScopedSlot)
    (res : Option (List (String × Scalar))) (k : String) :
    (∀ l₁ f l₂, ScopedSlot.flattenList fns = l₁ ++ (k, f) :: l₂ → k ∉ l₂.map Prod.fst →
      (resolveScopedSlots fns res).lookup k = some f) ∧
    (k ∉ (ScopedSlot.flattenList fns).map Prod.fst →
      (resolveScopedSlots fns res).lookup k = (res.getD []).lookup k) := by
  unfold resolveScopedSlots
  rw [resolveScopedSlotsLoop_flatten]
  refine ⟨fun l₁ f l₂ h hk => ?_, fun hk => foldl_setKey_lookup_of_not_mem k _ _ hk⟩
  rw [h, List.foldl_append, List.foldl_cons, foldl_setKey_lookup_of_not_mem k l₂ _ hk,
    lookup_setKey, if_pos rfl]

/-- Witness of C20: `[{a: 1}, [{b: 2}, [{a: 3}]]]` on the initial `{c: 0}`:
`a` maps to 3, `c` keeps 0. -/
theorem C20_scoped_slots_last_wins_witness :
    (resolveScopedSlots
        [.entry "a" (.function 1), .nested [.entry "b" (.function 2),
          .nested [.entry "a" (.function 3)]]]
        (some [("c", .function 0)])).lookup "a" = some (.function 3) ∧
    (resolveScopedSlots
        [.entry "a" (.function 1), .nested [.entry "b" (.function 2),
          .nested [.entry "a" (.function 3)]]]
        (some [("c", .function 0)])).lookup "c" =
      ((some [("c", Scalar.function 0)]).getD []).lookup "c" :=
  ⟨(C20_scoped_slots_last_wins _ _ "a").1
      [("a", .function 1), ("b", .function 2)] (.function 3) [] rfl (by simp),
   (C20_scoped_slots_last_wins _ _ "c").2 (by decide)⟩

/-- C18 (`createElement` tolerates an omitted data argument): when the third
argument `d` is an array or a primitive and `isTrue(alwaysNormalize)` fails,
`createElement(context, tag, d, n, x, alwaysNormalize)` is
`_createElement(context, tag, undefined, d, n)`; when
`isTrue(alwaysNormalize)` holds, the `normalizationType` handed to
`_createElement` is `ALWAYS_NORMALIZE`, that is 2, whatever was passed. -/
theorem C18_createElement_shifts_arguments {R : Type} (util : ElementUtil)
    (_createElement : ElementArgs → R) (context : Nat) (tag d n x c a : JsVal) :
    ((d.isArray = true ∨ util.isPrimitive d = true) → util.isTrue a = false →
      createElement util _createElement context tag d n x a =
        _createElement ⟨context, tag, .prim .undefined, d, n⟩) ∧
    (util.isTrue a = true →
      (createElementArgs util context tag d c x a).normalizationType = .prim (.number 2) ∧
      createElement util _createElement context tag d c x a =
        _createElement { createElementArgs util context tag d c x a with
          normalizationType := .prim (.number 2) }) := by
  constructor
  · intro hd ha
    have hs : (d.isArray || util.isPrimitive d) = true := by
      rcases hd with h | h <;> simp [h]
    simp [createElement, createElementArgs, hs, ha]
  · intro ha
    simp [createElement, createElementArgs, ha, ALWAYS_NORMALIZE]

/-- Witness of C18: `createElement(vm, 'div', 'text', 1, 0, false)` and
`createElement(vm, 'div', {}, [], 1, true)`. -/
theorem C18_createElement_shifts_arguments_witness :
    createElement ElementUtil.standard id 0 (.prim (.string "div")) (.prim (.string "text"))
        (.prim (.number 1)) (.prim (.number 0)) (.prim (.bool false)) =
      id ⟨0, .prim (.string "div"), .prim .undefined, .prim (.string "text"),
        .prim (.number 1)⟩ ∧
    (createElementArgs ElementUtil.standard 0 (.prim (.string "div")) (.plain []) (.array [])
        (.prim (.number 1)) (.prim (.bool true))).normalizationType = .prim (.number 2) :=
  ⟨(C18_createElement_shifts_arguments ElementUtil.standard id 0 (.prim (.string "div"))
      (.prim (.string "text")) (.prim (.number 1)) (.prim (.number 0)) (.prim .undefined)
      (.prim (.bool false))).1 (Or.inr rfl) (by decide),
   ((C18_createElement_shifts_arguments ElementUtil.standard id 0 (.prim (.string "div"))
      (.plain []) (.prim .undefined) (.prim (.number 1)) (.array [])
      (.prim (.bool true))).2 (by decide)).1⟩

/-- C19 (which data keys are proxied): for a data option resolving to a plain
aggregate, an own key `k` of it that was not already such an accessor has,
after `initData`, the forwarding accessor to `_data` on the instance if and only
if `k` is not a declared prop and is not reserved; through that accessor
`vm[k]` reads `vm._data[k]` and `vm[k] = v` writes `vm._data[k]`; a reserved key
leaves `vm[k]` as it was, while `vm._data` holds it. -/
theorem C19_proxied_data_keys (env : Env) (opts : Options) (d : DataOption) (st : State)
    (fields : List (String × Scalar)) (k : String)
    (hplain : d.resolved = .plain fields) (hk : k ∈ fields.map Prod.fst)
    (hno : st.members k ≠ some (proxyMember .data k)) :
    ((initData env opts d st).members k = some (proxyMember .data k) ↔
      (opts.hasProp k = false ∧ isReserved k = false)) ∧
    (opts.hasProp k = false → isReserved k = false →
      (initData env opts d st).read k = fields.lookup k ∧
      ∀ v, (initData env opts d st).assign env k v =
        { initData env opts d st with _data := .plain (setKey fields k v) }) ∧
    (isReserved k = true →
      (initData env opts d st).members k = st.members k ∧
      (initData env opts d st)._data = .plain fields) := by
  obtain ⟨_, hdata, _, hmem, _, _⟩ := initData_spec env opts d st
  have hkeys : k ∈ d.keys := by
    simp only [DataOption.keys, hplain, isPlainObject, JsVal.keys, if_true]
    exact hk
  have hm := hmem k
  rw [hplain] at hdata
  refine ⟨⟨fun h => ?_, fun h => ?_⟩, fun hp hr => ?_, fun hr => ⟨?_, hdata⟩⟩
  · by_cases c : opts.hasProp k = false ∧ isReserved k = false
    · exact c
    · rw [if_neg (fun h3 => c h3.2)] at hm
      exact absurd (hm.symm.trans h) hno
  · rw [hm, if_pos ⟨hkeys, h⟩]
  · rw [if_pos ⟨hkeys, hp, hr⟩] at hm
    refine ⟨?_, fun v => ?_⟩
    · simp only [State.read, hm, proxyMember, hdata]
    · simp only [State.assign, hm, proxyMember, State.setDatum, hdata]
  · rw [hm, if_neg]
    intro h3
    rw [hr] at h3
    exact Bool.noConfusion h3.2.2

/-- Witness of C19: `data: { msg: 1, _id: 2, title: 3 }` with the declared prop
`title` on a fresh instance; the key is `msg`. -/
theorem C19_proxied_data_keys_witness :
    ((initData Env.dev ⟨some ["title"], none, none, none⟩
        (.value (.plain [("msg", .prim (.number 1)), ("_id", .prim (.number 2)),
          ("title", .prim (.number 3))])) (State.fresh 0 false World.initial)).members "msg" =
        some (proxyMember .data "msg") ↔
      ((⟨some ["title"], none, none, none⟩ : Options).hasProp "msg" = false ∧
        isReserved "msg" = false)) :=
  (C19_proxied_data_keys Env.dev ⟨some ["title"], none, none, none⟩
    (.value (.plain [("msg", .prim (.number 1)), ("_id", .prim (.number 2)),
      ("title", .prim (.number 3))])) (State.fresh 0 false World.initial)
    [("msg", .prim (.number 1)), ("_id", .prim (.number 2)), ("title", .prim (.number 3))]
    "msg" rfl (by decide) (by decide)).1

theorem map_update_of_not_mem {β : Type} (n : String) (g : β → β) :
    ∀ l : List (String × β), n ∉ l.map Prod.fst →
    l.map (fun p => if p.1 = n then (p.1, g p.2) else p) = l := by
  intro l
  induction l with
  | nil => intro _; rfl
  | cons x xs ih =>
    intro h
    simp only [List.map_cons, List.mem_cons, not_or] at h
    have hx : ¬ x.1 = n := fun e => h.1 e.symm
    simp only [List.map_cons, if_neg hx, ih h.2]

theorem map_update_perm (n : String) (items : List VNode) :
    ∀ s : Slots, (s.map Prod.fst).Nodup → n ∈ s.map Prod.fst →
    ((s.map (fun p => if p.1 = n then (p.1, p.2 ++ items) else p)).flatMap Prod.snd).Perm
      (s.flatMap Prod.snd ++ items) := by
  intro s
  induction s with
  | nil => intro _ h; simp at h
  | cons x xs ih =>
    obtain ⟨a, b⟩ := x
    intro hn hmem
    simp only [List.map_cons, List.nodup_cons] at hn
    by_cases ha : a = n
    · subst ha
      rw [List.map_cons, if_pos rfl, map_update_of_not_mem a (fun v => v ++ items) xs hn.1]
      simp only [List.flatMap_cons, List.append_assoc]
      exact List.Perm.append_left b List.perm_append_comm
    · have hmem2 : n ∈ xs.map Prod.fst := by
        simp only [List.map_cons, List.mem_cons] at hmem
        exact hmem.resolve_left (fun e => ha e.symm)
      rw [List.map_cons, if_neg ha]
      simp only [List.flatMap_cons, List.append_assoc]
      exact List.Perm.append_left b (ih hn.2 hmem2)

theorem pushSlot_perm (s : Slots) (n : String) (items : List VNode)
    (h : (s.map Prod.fst).Nodup) :
    ((pushSlot s n items).flatMap Prod.snd).Perm (s.flatMap Prod.snd ++ items) := by
  unfold pushSlot
  by_cases hmem : n ∈ s.map Prod.fst
  · rw [if_pos hmem]; exact map_update_perm n items s h hmem
  · rw [if_neg hmem]; simp

theorem collect_perm (context : Option Nat) (cs : List VNode) :
    ∀ s0 : Slots, (s0.map Prod.fst).Nodup →
    ((cs.foldl (placeChild context) s0).flatMap Prod.snd).Perm
      (s0.flatMap Prod.snd ++ cs.flatMap (contribution context)) := by
  induction cs with
  | nil => intro s0 _; simp
  | cons x xs ih =>
    intro s0 h0
    simp only [List.foldl_cons, placeChild_eq, List.flatMap_cons]
    refine (ih _ (nodup_pushSlot s0 _ _ h0)).trans ?_
    rw [← List.append_assoc]
    exact List.Perm.append_right _ (pushSlot_perm s0 _ _ h0)

theorem filter_flatMap_sublist {α β : Type} (p : α → Bool) (f : α → List β) :
    ∀ l : List α, ((l.filter p).flatMap f).Sublist (l.flatMap f) := by
  intro l
  induction l with
  | nil => simp
  | cons x xs ih =>
    by_cases hp : p x = true
    · rw [List.filter_cons_of_pos hp]
      simp only [List.flatMap_cons]
      exact List.Sublist.append (List.Sublist.refl _) ih
    · rw [List.filter_cons_of_neg hp]
      simp only [List.flatMap_cons]
      exact ih.trans (List.sublist_append_right _ _)

/-- The first loop conserves and orders nodes: with `placeAll` each slot name
is one slot; the nodes of all slots together are, occurrence for occurrence,
what the children bring: the children of a `template` placed by name (none
when it has no children), the child itself otherwise; what a child brings is in
the slot the child is routed to; each slot holds what the children routed to it
bring, in input order, so it is a subsequence of what all children bring in
input order; when no node is brought twice, no node is in two slots or twice in
one. -/
theorem slots_conserve (children : List VNode) (context : Option Nat) :
    ((placeAll children context).map Prod.fst).Nodup ∧
    ((placeAll children context).flatMap Prod.snd).Perm
      (children.flatMap (contribution context)) ∧
    (∀ child : VNode,
      (isNamed context child = true ∧ child.tag = some "template" →
        contribution context child = child.children.getD []) ∧
      (¬ (isNamed context child = true ∧ child.tag = some "template") →
        contribution context child = [child.deleteAttrsSlot])) ∧
    (∀ child ∈ children, ∃ arr,
      (placeAll children context).lookup (slotNameOf context child) = some arr ∧
      ∀ node ∈ contribution context child, node ∈ arr) ∧
    (∀ name arr, (placeAll children context).lookup name = some arr →
      arr = (children.filter (fun c => decide (slotNameOf context c = name))).flatMap
        (contribution context) ∧
      arr.Sublist (children.flatMap (contribution context))) ∧
    ((children.flatMap (contribution context)).Nodup →
      ((placeAll children context).flatMap Prod.snd).Nodup) := by
  have hperm : ((placeAll children context).flatMap Prod.snd).Perm
      (children.flatMap (contribution context)) := by
    simpa [placeAll] using collect_perm context children [] (by simp)
  refine ⟨placeAll_nodup children context, hperm, fun child => ⟨fun h => ?_, fun h => ?_⟩,
    fun child hc => ?_, fun name arr h => ?_, fun hn => hperm.nodup_iff.2 hn⟩
  · simp [contribution, h.1, h.2]
  · unfold contribution
    rw [if_neg]
    intro hb
    simp only [Bool.and_eq_true, decide_eq_true_eq] at hb
    exact h hb
  · refine ⟨(children.filter (fun c => decide (slotNameOf context c =
      slotNameOf context child))).flatMap (contribution context), ?_, fun node hnode => ?_⟩
    · rw [placeAll_lookup, if_pos (List.mem_map_of_mem _ hc)]
    · rw [List.mem_flatMap]
      exact ⟨child, List.mem_filter.2 ⟨hc, by simp⟩, hnode⟩
  · rw [placeAll_lookup] at h
    split at h
    · have e := (Option.some.inj h).symm
      exact ⟨e, e ▸ filter_flatMap_sublist _ _ children⟩
    · cases h

theorem resolveSlotsStep_safe (context : Option Nat) (slots : Slots) (child : VNode)
    (h : isNamed context child = true → slotNameOf context child ∉ objectPrototypeKeys) :
    resolveSlotsStep context slots child = .ok (placeChild context slots child) := by
  obtain ⟨t, d, c, x, ctx, fctx, ic, af⟩ := child
  unfold resolveSlotsStep placeChild
  unfold isNamed slotNameOf at h
  simp only [VNode.deleteAttrsSlot, VNode.context, VNode.fnContext, VNode.data, VNode.tag,
    VNode.children] at h ⊢
  by_cases hc : ctx = context ∨ fctx = context
  · simp only [hc, if_true, decide_True, Bool.true_and] at h ⊢
    cases d with
    | none => rfl
    | some dd =>
      have e : (Option.map VNodeData.deleteAttrsSlot (some dd)).bind VNodeData.slot =
          dd.slot := by
        simp [deleteAttrsSlot_slot]
      rw [e]
      cases hs : dd.slot with
      | none => rfl
      | some name =>
        have hn : name ∉ objectPrototypeKeys := by simpa [hs] using h
        simp only [if_neg hn]
        split <;> rfl
  · simp only [hc, if_false]

theorem resolveSlotsStep_throws (context : Option Nat) (slots : Slots) (child : VNode)
    (h1 : isNamed context child = true)
    (h2 : slotNameOf context child ∈ objectPrototypeKeys) :
    resolveSlotsStep context slots child = .error .typeError := by
  obtain ⟨t, d, c, x, ctx, fctx, ic, af⟩ := child
  unfold resolveSlotsStep
  unfold isNamed at h1
  unfold slotNameOf at h2
  simp only [VNode.deleteAttrsSlot, VNode.context, VNode.fnContext, VNode.data, VNode.tag,
    VNode.children] at h1 h2 ⊢
  by_cases hc : ctx = context ∨ fctx = context
  · simp only [hc, if_true, decide_True, Bool.true_and] at h1 h2 ⊢
    cases d with
    | none => simp at h1
    | some dd =>
      have e : (Option.map VNodeData.deleteAttrsSlot (some dd)).bind VNodeData.slot =
          dd.slot := by
        simp [deleteAttrsSlot_slot]
      rw [e]
      cases hs : dd.slot with
      | none => simp [hs] at h1
      | some name =>
        have hn : name ∈ objectPrototypeKeys := by simpa [hs] using h2
        simp only [if_pos hn]
  · simp [hc] at h1

theorem collectSlotsFrom_safe (context : Option Nat) :
    ∀ (children : List VNode) (slots : Slots), SafeNames children context →
    collectSlotsFrom context children slots = .ok (children.foldl (placeChild context) slots) := by
  intro children
  induction children with
  | nil => intro slots _; rfl
  | cons x xs ih =>
    intro slots h
    rw [collectSlotsFrom, resolveSlotsStep_safe context slots x (h x (List.mem_cons_self _ _))]
    exact ih _ (fun c hc => h c (List.mem_cons_of_mem _ hc))

theorem collectSlotsFrom_throws (context : Option Nat) :
    ∀ (children : List VNode) (slots : Slots), ¬ SafeNames children context →
    collectSlotsFrom context children slots = .error .typeError := by
  intro children
  induction children with
  | nil => intro slots h; exact absurd (fun c hc => by simp at hc) h
  | cons x xs ih =>
    intro slots h
    by_cases hx : isNamed context x = true → slotNameOf context x ∉ objectPrototypeKeys
    · rw [collectSlotsFrom, resolveSlotsStep_safe context slots x hx]
      apply ih
      intro hxs
      apply h
      intro c hc
      rcases List.mem_cons.1 hc with rfl | hc
      · exact hx
      · exact hxs c hc
    · have hx1 : isNamed context x = true := by
        by_contra hn; exact hx (fun h1 => absurd h1 hn)
      have hx2 : slotNameOf context x ∈ objectPrototypeKeys := by
        by_contra hn; exact hx (fun _ => hn)
      rw [collectSlotsFrom, resolveSlotsStep_throws context slots x hx1 hx2]

/-- The call `resolveSlots(children, context)` returns exactly when no child
placed by name has a slot name among the members of `Object.prototype`, and it
then returns the slots of `placeAll` that are not whitespace only; otherwise it
throws a `TypeError`. -/
theorem resolveSlots_spec (children : List VNode) (context : Option Nat) :
    (SafeNames children context →
      collectSlots children context = .ok (placeAll children context) ∧
      resolveSlots (some children) context =
        .ok (dropWhitespaceSlots (placeAll children context))) ∧
    (¬ SafeNames children context →
      collectSlots children context = .error .typeError ∧
      resolveSlots (some children) context = .error .typeError) := by
  constructor
  · intro h
    have := collectSlotsFrom_safe context children [] h
    exact ⟨this, by simp only [resolveSlots, collectSlots, this]; rfl⟩
  · intro h
    have := collectSlotsFrom_throws context children [] h
    exact ⟨this, by simp only [resolveSlots, collectSlots, this]⟩

/-- C16 (named slots are respected only for nodes rendered in the same
context), evaluated where it breaks: the one child `<span slot="constructor">`,
rendered in the context `resolveSlots` is called with, fulfils the condition
for its named slot; `resolveSlots` throws a `TypeError` and places it nowhere.
The same child with `slot="a"` is placed in slot `a`. -/
theorem C16_named_slot_constructor_throws :
    isNamed (some 1) (VNode.element "span" (some "constructor") [] (some 1)) = true ∧
    slotNameOf (some 1) (VNode.element "span" (some "constructor") [] (some 1)) =
      "constructor" ∧
    resolveSlots (some [VNode.element "span" (some "constructor") [] (some 1)]) (some 1) =
      .error .typeError ∧
    resolveSlots (some [VNode.element "span" (some "a") [] (some 1)]) (some 1) =
      .ok [("a", [(VNode.element "span" (some "a") [] (some 1)).deleteAttrsSlot])] :=
  ⟨rfl, rfl, rfl, rfl⟩

/-- C17 (whitespace-only slots are ignored), evaluated where it breaks: the
children `<p>` and `<span slot="toString">` in context 1. The first loop has
collected the `p`, no whitespace node, in the default slot when it reaches the
`span`; there `resolveSlots` throws a `TypeError`, so no object is returned and
the default slot with it. -/
theorem C17_collected_slot_not_returned :
    collectSlots [VNode.element "p" none [] (some 1)] (some 1) =
      .ok [("default", [(VNode.element "p" none [] (some 1)).deleteAttrsSlot])] ∧
    isWhitespace (VNode.element "p" none [] (some 1)).deleteAttrsSlot = false ∧
    resolveSlots
        (some [VNode.element "p" none [] (some 1),
          VNode.element "span" (some "toString") [] (some 1)]) (some 1) =
      .error .typeError :=
  ⟨rfl, rfl, rfl⟩

/-- C21 (`resolveSlots` conserves and orders nodes), evaluated where it breaks:
the children `<template slot="__proto__">x</template>` and `<b slot="valueOf">`
in context 1. On either child the first loop throws a `TypeError`: the text
`x` of the template and the `b` end up in no slot. Falsy `children` give the
empty object. -/
theorem C21_first_loop_throws :
    collectSlots
        [VNode.element "template" (some "__proto__") [VNode.textNode "x" (some 1)] (some 1)]
        (some 1) = .error .typeError ∧
    collectSlots [VNode.element "b" (some "valueOf") [] (some 1)] (some 1) =
      .error .typeError ∧
    resolveSlots none (some 1) = .ok [] :=
  ⟨rfl, rfl, rfl⟩

theorem assign_value (env : Env) (s : State) (key : String) (val : Scalar)
    (hq : s.members key = none ∨ ∃ v, s.members key = some (.value v)) :
    (s.assign env key val).members key = some (.value val) := by
  unfold State.assign
  rcases hq with hq | ⟨v, hq⟩ <;> simp [hq]

theorem initMethodsStep_value (env : Env) (opts : Options) (st : State)
    (km : String × Option Nat) (h : st.thrown = none)
    (hq : st.members km.1 = none ∨ ∃ v, st.members km.1 = some (.value v)) :
    (initMethodsStep env opts st km).members km.1 =
      some (.value (match km.2 with
        | none => Scalar.noop
        | some f => Scalar.bound f)) := by
  unfold initMethodsStep
  simp only [h, Option.isSome_none, Bool.false_eq_true, if_false]
  apply assign_value
  split_ifs <;> simpa using hq

theorem initMethods_value (env : Env) (opts : Options) (k : String) :
    ∀ (ms : List (String × Option Nat)) (st : State), MethodsOk st →
    (st.members k = none ∨ ∃ v, st.members k = some (.value v)) →
    k ∈ ms.map Prod.fst →
    ∃ m, (k, m) ∈ ms ∧
      (initMethods env opts ms st).members k =
        some (.value (match m with
          | none => Scalar.noop
          | some f => Scalar.bound f)) := by
  intro ms
  induction ms with
  | nil => intro st _ _ h; simp at h
  | cons x xs ih =>
    intro st hok hq hk
    obtain ⟨a1, _, _, a4, _, _, _⟩ := initMethodsStep_spec env opts st x hok
    have hstep : initMethods env opts (x :: xs) st =
        initMethods env opts xs (initMethodsStep env opts st x) := rfl
    rw [hstep]
    by_cases hxs : k ∈ xs.map Prod.fst
    · have hq2 : (initMethodsStep env opts st x).members k = none ∨
          ∃ v, (initMethodsStep env opts st x).members k = some (.value v) := by
        by_cases hkx : k = x.1
        · subst hkx
          exact Or.inr ⟨_, initMethodsStep_value env opts st x hok.1 hq⟩
        · rw [a4 k hkx]; exact hq
      obtain ⟨m, hm, hv⟩ := ih _ a1 hq2 hxs
      exact ⟨m, List.mem_cons_of_mem _ hm, hv⟩
    · have hkx : k = x.1 := by
        simp only [List.map_cons, List.mem_cons] at hk
        exact hk.resolve_right hxs
      subst hkx
      refine ⟨x.2, List.mem_cons_self _ _, ?_⟩
      rw [(initMethods_spec env opts xs _ a1).2.2.2.1 _ hxs]
      exact initMethodsStep_value env opts st x hok.1 hq

theorem propsStage_spec (env : Env) (opts : Options) (st0 : State)
    (hstart : Startable opts st0) :
    MethodsOk (match opts.props with
      | some ps => initProps env ps st0
      | none => st0) ∧
    (match opts.props with
      | some ps => initProps env ps st0
      | none => st0)._data = st0._data ∧
    ∀ k, opts.hasProp k = false →
      (match opts.props with
        | some ps => initProps env ps st0
        | none => st0).members k = st0.members k := by
  obtain ⟨ht, hacc⟩ := hstart
  cases hp : opts.props with
  | none =>
    refine ⟨⟨ht, fun k g src k' hk => ?_⟩, rfl, fun k _ => rfl⟩
    exact absurd hp (hacc k g src k' hk).2
  | some ps =>
    obtain ⟨a1, a2, a3, _, _, a5⟩ := initProps_spec env ps st0
    refine ⟨⟨a1.trans ht, fun k g src k' hk => ?_⟩, a2, fun k hk => ?_⟩
    · rw [a5 k] at hk
      split at hk
      · simp only [proxyMember, Option.some.injEq, Member.accessor.injEq,
          Setter.proxySetter.injEq] at hk
        exact ⟨hk.2.1.symm, a3⟩
      · exact ⟨(hacc k g src k' hk).1, a3⟩
    · have hk2 : k ∉ ps := by simpa [Options.hasProp, hp] using hk
      rw [a5 k, if_neg (fun h => hk2 h.1)]

theorem initState_data (env : Env) (opts : Options) (st0 : State)
    (hstart : Startable opts st0) (hobj : opts.dataObject = true) :
    (initState env opts st0)._data =
      match opts.dataTruthy with
      | some d => d.resolved
      | none => .plain [] :=
  (initState_spec env opts st0 hstart hobj).2.2.2.2

/-- C22 (a data key shadows a same-named method): for a key `k` declared in
`methods` and as a data key that is not reserved and not a prop, on an instance
`initState` can start from: when `vm[k]` is free at the start, `initMethods`
leaves the bound method (`noop` for a `null` method) as the value of `vm[k]`;
after `initState`, which ends without exception, `vm[k]` is the accessor
forwarding to `vm._data[k]` and no longer a value, and reading `vm[k]` yields
`vm._data[k]`, the value the data object gives for `k`. -/
theorem C22_data_shadows_method (env : Env) (opts : Options) (st0 : State) (k : String)
    (hstart : Startable opts st0) (hm : opts.hasMethod k = true) (hd : k ∈ opts.dataKeys)
    (hr : isReserved k = false) (hp : opts.hasProp k = false) :
    (st0.members k = none →
      ∃ ms m, opts.methods = some ms ∧ (k, m) ∈ ms ∧
        (initMethods env opts ms (match opts.props with
          | some ps => initProps env ps st0
          | none => st0)).members k =
          some (.value (match m with
            | none => Scalar.noop
            | some f => Scalar.bound f))) ∧
    (initState env opts st0).thrown = none ∧
    (initState env opts st0).members k = some (proxyMember .data k) ∧
    (∀ v, (initState env opts st0).members k ≠ some (.value v)) ∧
    (∃ d fields, opts.dataTruthy = some d ∧ d.resolved = .plain fields ∧
      k ∈ fields.map Prod.fst ∧
      (initState env opts st0)._data = .plain fields ∧
      (initState env opts st0).read k = fields.lookup k) := by
  obtain ⟨d, fields, hdt, hres, hkf⟩ := dataKeys_plain opts k hd
  have hobj : opts.dataObject = true := by
    simp [Options.dataObject, hdt, hres, JsVal.isObject]
  obtain ⟨s1, _, s3, _⟩ := initState_spec env opts st0 hstart hobj
  have hmem := s3 k hp hd hr
  have hdata : (initState env opts st0)._data = .plain fields := by
    rw [initState_data env opts st0 hstart hobj, hdt]; exact hres
  refine ⟨fun hfree => ?_, s1, hmem, fun v hv => ?_, d, fields, hdt, hres, hkf, hdata, ?_⟩
  · obtain ⟨ok1, _, m1⟩ := propsStage_spec env opts st0 hstart
    cases hms : opts.methods with
    | none => simp [Options.hasMethod, hms] at hm
    | some ms =>
      have hk : k ∈ ms.map Prod.fst := by simpa [Options.hasMethod, hms] using hm
      obtain ⟨m, hmm, hv⟩ := initMethods_value env opts k ms _ ok1
        (Or.inl ((m1 k hp).trans hfree)) hk
      exact ⟨ms, m, rfl, hmm, hv⟩
  · rw [hmem] at hv
    simp [proxyMember] at hv
  · simp only [State.read, hmem, proxyMember, hdata]

/-- Witness of C22: `methods: { go }` with `data: { go: 1 }` on a fresh
instance: `vm.go` is the accessor forwarding to `vm._data.go`. -/
theorem C22_data_shadows_method_witness :
    (initState Env.dev
      ⟨none, some [("go", some 1)], some (.value (.plain [("go", .prim (.number 1))])), none⟩
      (State.fresh 0 false World.initial)).members "go" = some (proxyMember .data "go") ∧
    ∀ v, (initState Env.dev
      ⟨none, some [("go", some 1)], some (.value (.plain [("go", .prim (.number 1))])), none⟩
      (State.fresh 0 false World.initial)).members "go" ≠ some (.value v) :=
  have h := C22_data_shadows_method Env.dev
    ⟨none, some [("go", some 1)], some (.value (.plain [("go", .prim (.number 1))])), none⟩
    (State.fresh 0 false World.initial) "go" (startable_fresh _ 0 false World.initial)
    (by decide) (by decide) (by decide) (by decide)
  ⟨h.2.2.1, h.2.2.2.1⟩

end Vue
